import Mathlib

/-!
# IDevTool: remote file client, catalog engine and log stream reassembler

A shallow embedding of `src/src/afc_manager.cpp`, `src/src/photo_manager.cpp` and
`src/src/syslog_manager.cpp`, followed by theorems about it.

Conventions of the embedding

* `std::string` is a list of units (`List Char`); a string literal `"abc"` of the
  source is written `"abc".toList`.
* A pointer or opaque handle is an `Option Nat`; `none` is `nullptr`.
* The peer (libimobiledevice) and the local file streams are an explicit
  environment `afc_env σ` of transition functions over an environment state `σ`;
  every function of the source that talks to the peer threads that state.
* A source function that can fail to return normally yields `Except fault _`.
-/

namespace IDevTool

/-! ## Strings -/

/-- A `std::string`: a finite sequence of units. -/
abbrev std_string := List Char

/-- Ways in which a call of the source can fail to return normally. -/
inductive fault where
  /-- the recursion or loop budget of the model ran out before the call returned -/
  | out_of_fuel
  /-- an exception left the function (`std::stoull`) -/
  | uncaught_exception
  /-- the source has undefined behaviour here (`back()` of an empty string, a
  `std::string` built from a null pointer) -/
  | undefined_behaviour
  deriving DecidableEq, Repr

/-- The function `::tolower` in the "C" locale: `A`..`Z` go to `a`..`z`, every other unit
is unchanged. -/
def tolower (c : Char) : Char :=
  if 65 ≤ c.toNat ∧ c.toNat ≤ 90 then Char.ofNat (c.toNat + 32) else c

/-- The function `::toupper` in the "C" locale (used only to speak about case variants). -/
def toupper (c : Char) : Char :=
  if 97 ≤ c.toNat ∧ c.toNat ≤ 122 then Char.ofNat (c.toNat - 32) else c

/-- The call `s.find_last_of(chars)`: the index of the last unit of `s` that occurs in
`chars`, `none` for `std::string::npos`. -/
def find_last_of : std_string → std_string → Option Nat
  | [], _ => none
  | x :: xs, chars =>
    match find_last_of xs chars with
    | some i => some (i + 1)
    | none => if x ∈ chars then some 0 else none

/-- The comparison `a < b` of two `std::string`s: lexicographic on the units, a proper
initial segment being smaller. -/
def string_lt : std_string → std_string → Bool
  | [], [] => false
  | [], _ :: _ => true
  | _ :: _, [] => false
  | a :: as, b :: bs =>
    if a < b then true else if b < a then false else string_lt as bs

/-- The comparison `a <= b` of two `std::string`s. -/
def string_le (a b : std_string) : Bool := !string_lt b a

/-- The call `std::sort(first, last, comp)`, as an insertion sort that consults the
elements only through `comp`: `ordered_insert` puts `x` before the first element that
`comp` places after it. (`std::sort` leaves the relative order of equivalent elements
unspecified; this model keeps it.) -/
def ordered_insert {α : Type} (comp : α → α → Bool) (x : α) : List α → List α
  | [] => [x]
  | y :: ys => if comp x y then x :: y :: ys else y :: ordered_insert comp x ys

/-- See `ordered_insert`. -/
def std_sort {α : Type} (comp : α → α → Bool) (l : List α) : List α :=
  l.foldr (ordered_insert comp) []

/-! ## `syslog_manager.cpp` -/

/-- The data members of `syslog_manager`. `line_callback` is the registered sink
(`none`: an empty `std::function`, which tests false); sinks are told apart by a number. -/
structure syslog_manager where
  device : Option Nat
  syslog_client : Option Nat
  syslog_connected : Bool
  is_capturing : Bool
  line_callback : Option Nat
  current_line : std_string
  deriving DecidableEq, Repr

/-- The function `syslog_manager::syslog_callback_wrapper(c, manager)`. The result is the
manager afterwards and the calls it made to the sink, each a pair of the sink and the
line handed to it. -/
def syslog_callback_wrapper (c : Char) (manager : syslog_manager) :
    syslog_manager × List (Nat × std_string) :=
  if c = '\n' ∨ c = '\r' then
    match manager.current_line.isEmpty, manager.line_callback with
    | false, some sink =>
      ({ manager with current_line := [] }, [(sink, manager.current_line)])
    | _, _ => (manager, [])
  else
    ({ manager with current_line := manager.current_line ++ [c] }, [])

/-- The transport calling `syslog_callback_wrapper` once per unit of `units`, in order;
the sink calls are collected in order. -/
def feed_units : List Char → syslog_manager → syslog_manager × List (Nat × std_string)
  | [], manager => (manager, [])
  | c :: rest, manager =>
    let r := syslog_callback_wrapper c manager
    let r2 := feed_units rest r.1
    (r2.1, r.2 ++ r2.2)

/-- A capturing manager with sink `sink` registered and accumulator `line`. -/
def capturing_manager (sink : Nat) (line : std_string) : syslog_manager :=
  { device := some 1, syslog_client := some 1, syslog_connected := true,
    is_capturing := true, line_callback := some sink, current_line := line }


/-! ## The peer and the local file streams -/

/-- The type `afc_error_t` of libimobiledevice; `AFC_E_SUCCESS` is `0`. -/
abbrev afc_error_t := Nat

/-- See `afc_error_t`. -/
def AFC_E_SUCCESS : afc_error_t := 0

/-- The open modes used by the source. -/
inductive afc_file_mode_t where
  | AFC_FOPEN_RDONLY
  | AFC_FOPEN_WR
  deriving DecidableEq, Repr

/-- What a peer call with a `char**` out-parameter yields: the error code and the list
left in the out-parameter (`none`: the pointer is still null). -/
structure afc_list_reply where
  ret : afc_error_t
  list : Option (List std_string)
  deriving DecidableEq, Repr

/-- The world outside the program, over a state `σ`: the calls of libimobiledevice's
file client that the source makes and the local file streams it opens. Every call may
change the state and answers as the environment pleases.
`afc_file_read s handle length` yields the error code and the bytes put in the buffer
(`bytes_read` is their number); `afc_file_write s handle data` yields the error code and
`bytes_written`; `ifstream_open s path` yields the content of the local file when the
stream opens (`none`: `is_open()` is false); `ofstream_open` and `ofstream_write` yield
`is_open()` and `good()`; a stream is named by the path it was opened on. -/
structure afc_env (σ : Type) where
  afc_read_directory : σ → std_string → afc_list_reply × σ
  afc_get_file_info : σ → std_string → afc_list_reply × σ
  afc_make_directory : σ → std_string → afc_error_t × σ
  afc_remove_path : σ → std_string → afc_error_t × σ
  afc_file_open : σ → std_string → afc_file_mode_t → (afc_error_t × Nat) × σ
  afc_file_read : σ → Nat → Nat → (afc_error_t × List UInt8) × σ
  afc_file_write : σ → Nat → List UInt8 → (afc_error_t × Nat) × σ
  afc_file_close : σ → Nat → σ
  ifstream_open : σ → std_string → Option (List UInt8) × σ
  ifstream_close : σ → std_string → σ
  ofstream_open : σ → std_string → Bool × σ
  ofstream_write : σ → std_string → List UInt8 → Bool × σ
  ofstream_close : σ → std_string → σ

/-- A call made to the environment. -/
inductive afc_call where
  | read_directory (path : std_string)
  | get_file_info (path : std_string)
  | make_directory (path : std_string)
  | remove_path (path : std_string)
  | file_open (path : std_string) (mode : afc_file_mode_t)
  | file_read (handle : Nat) (length : Nat)
  | file_write (handle : Nat) (data : List UInt8)
  | file_close (handle : Nat)
  | ifstream_open (path : std_string)
  | ifstream_close (path : std_string)
  | ofstream_open (path : std_string)
  | ofstream_write (path : std_string) (data : List UInt8)
  | ofstream_close (path : std_string)
  deriving DecidableEq, Repr

/-- The environment `E` with a record of the calls made to it, oldest first: the state
is paired with the record and every call appends itself to it. -/
def afc_env.traced {σ : Type} (E : afc_env σ) : afc_env (σ × List afc_call) where
  afc_read_directory := fun s path =>
    ((E.afc_read_directory s.1 path).1,
      ((E.afc_read_directory s.1 path).2, s.2 ++ [afc_call.read_directory path]))
  afc_get_file_info := fun s path =>
    ((E.afc_get_file_info s.1 path).1,
      ((E.afc_get_file_info s.1 path).2, s.2 ++ [afc_call.get_file_info path]))
  afc_make_directory := fun s path =>
    ((E.afc_make_directory s.1 path).1,
      ((E.afc_make_directory s.1 path).2, s.2 ++ [afc_call.make_directory path]))
  afc_remove_path := fun s path =>
    ((E.afc_remove_path s.1 path).1,
      ((E.afc_remove_path s.1 path).2, s.2 ++ [afc_call.remove_path path]))
  afc_file_open := fun s path mode =>
    ((E.afc_file_open s.1 path mode).1,
      ((E.afc_file_open s.1 path mode).2, s.2 ++ [afc_call.file_open path mode]))
  afc_file_read := fun s handle length =>
    ((E.afc_file_read s.1 handle length).1,
      ((E.afc_file_read s.1 handle length).2, s.2 ++ [afc_call.file_read handle length]))
  afc_file_write := fun s handle data =>
    ((E.afc_file_write s.1 handle data).1,
      ((E.afc_file_write s.1 handle data).2, s.2 ++ [afc_call.file_write handle data]))
  afc_file_close := fun s handle =>
    (E.afc_file_close s.1 handle, s.2 ++ [afc_call.file_close handle])
  ifstream_open := fun s path =>
    ((E.ifstream_open s.1 path).1,
      ((E.ifstream_open s.1 path).2, s.2 ++ [afc_call.ifstream_open path]))
  ifstream_close := fun s path =>
    (E.ifstream_close s.1 path, s.2 ++ [afc_call.ifstream_close path])
  ofstream_open := fun s path =>
    ((E.ofstream_open s.1 path).1,
      ((E.ofstream_open s.1 path).2, s.2 ++ [afc_call.ofstream_open path]))
  ofstream_write := fun s path data =>
    ((E.ofstream_write s.1 path data).1,
      ((E.ofstream_write s.1 path data).2, s.2 ++ [afc_call.ofstream_write path data]))
  ofstream_close := fun s path =>
    (E.ofstream_close s.1 path, s.2 ++ [afc_call.ofstream_close path])

/-! ## `afc_manager.cpp` -/

/-- The struct `file_info` of `afc_manager.h`. -/
structure file_info where
  filename : std_string
  full_path : std_string
  file_size : Nat
  modified_time : std_string
  is_directory : Bool
  deriving DecidableEq, Repr

/-- The data members of `afc_manager`. -/
structure afc_manager where
  device : Option Nat
  lockdown_client : Option Nat
  afc_client : Option Nat
  service : Option Nat
  afc_connected : Bool
  deriving DecidableEq, Repr

/-- The function `afc_manager::is_connected`. -/
def afc_manager.is_connected (m : afc_manager) : Bool := m.afc_connected

/-- The function `afc_manager::list_directory`. -/
def list_directory {σ : Type} (E : afc_env σ) (m : afc_manager) (path : std_string) (s : σ) :
    List std_string × σ :=
  if !m.afc_connected then ([], s)
  else
    let r := E.afc_read_directory s path
    if r.1.ret ≠ AFC_E_SUCCESS then ([], r.2)
    else
      match r.1.list with
      | some list => (list.filter (fun entry => entry ≠ ".".toList ∧ entry ≠ "..".toList), r.2)
      | none => ([], r.2)

/-- The function `isspace` in the "C" locale. -/
def isspace (c : Char) : Bool :=
  c = ' ' || c = '\t' || c = '\n' || c = '\x0b' || c = '\x0c' || c = '\r'

/-- The call `std::stoull(value)` (base 10, through `strtoull`): leading white space is
skipped, one sign is accepted, the longest run of decimal digits is read and what
follows is ignored. Without a digit it throws `std::invalid_argument`, with a magnitude
of `2^64` or more `std::out_of_range`; a minus sign negates modulo `2^64`. -/
def stoull (value : std_string) : Except fault Nat :=
  let s := value.dropWhile isspace
  let negative := s.head? = some '-'
  let s := if s.head? = some '-' ∨ s.head? = some '+' then s.tail else s
  let digits := s.takeWhile Char.isDigit
  if digits = [] then Except.error fault.uncaught_exception
  else
    let n := digits.foldl (fun acc d => 10 * acc + (d.toNat - 48)) 0
    if 2 ^ 64 ≤ n then Except.error fault.uncaught_exception
    else Except.ok (if negative then (2 ^ 64 - n) % 2 ^ 64 else n)

/-- The initial record of `get_file_info` and `parse_file_info`: the path, the part of it
after its last `/` or `\` (`npos + 1` wraps to `0`), size 0, not a directory. -/
def empty_file_info (path : std_string) : file_info :=
  { full_path := path,
    filename :=
      match find_last_of path "/\\".toList with
      | some i => path.drop (i + 1)
      | none => path.drop 0,
    file_size := 0,
    modified_time := [],
    is_directory := false }

/-- The loop of `afc_manager::parse_file_info` over the null-terminated list, two items
at a time. With an odd number of items the value of the last key is the terminating null
pointer, from which no `std::string` can be built. -/
def parse_file_info_loop : List std_string → file_info → Except fault file_info
  | [], info => Except.ok info
  | [_], _ => Except.error fault.undefined_behaviour
  | key :: value :: rest, info =>
    if key = "st_size".toList then
      match stoull value with
      | Except.ok n => parse_file_info_loop rest { info with file_size := n }
      | Except.error e => Except.error e
    else if key = "st_mtime".toList then
      parse_file_info_loop rest { info with modified_time := value }
    else if key = "st_ifmt".toList then
      parse_file_info_loop rest { info with is_directory := (value = "S_IFDIR".toList) }
    else parse_file_info_loop rest info

/-- The function `afc_manager::parse_file_info`. -/
def parse_file_info (path : std_string) (file_info_list : Option (List std_string)) :
    Except fault file_info :=
  match file_info_list with
  | some list => parse_file_info_loop list (empty_file_info path)
  | none => Except.ok (empty_file_info path)

/-- The function `afc_manager::get_file_info`. -/
def get_file_info {σ : Type} (E : afc_env σ) (m : afc_manager) (path : std_string) (s : σ) :
    Except fault (file_info × σ) :=
  if !m.afc_connected then Except.ok (empty_file_info path, s)
  else
    let r := E.afc_get_file_info s path
    if r.1.ret = AFC_E_SUCCESS ∧ r.1.list ≠ none then
      match parse_file_info path r.1.list with
      | Except.ok info => Except.ok (info, r.2)
      | Except.error e => Except.error e
    else Except.ok (empty_file_info path, r.2)

/-- The read loop of `afc_manager::download_file`, with `fuel` iterations allowed. The
result is the flag `success` at the exit of the loop. -/
def download_loop {σ : Type} (E : afc_env σ) (handle : Nat) (destination_path : std_string) :
    Nat → σ → Except fault (Bool × σ)
  | 0, _ => Except.error fault.out_of_fuel
  | fuel + 1, s =>
    let r := E.afc_file_read s handle 8192
    if r.1.1 ≠ AFC_E_SUCCESS then Except.ok (false, r.2)
    else if r.1.2.length = 0 then Except.ok (true, r.2)
    else
      let w := E.ofstream_write r.2 destination_path r.1.2
      if !w.1 then Except.ok (false, w.2)
      else download_loop E handle destination_path fuel w.2

/-- The function `afc_manager::download_file`. -/
def download_file {σ : Type} (E : afc_env σ) (m : afc_manager) (fuel : Nat)
    (source_path destination_path : std_string) (s : σ) : Except fault (Bool × σ) :=
  if !m.afc_connected then Except.ok (false, s)
  else
    let o := E.afc_file_open s source_path afc_file_mode_t.AFC_FOPEN_RDONLY
    if o.1.1 ≠ AFC_E_SUCCESS then Except.ok (false, o.2)
    else
      let handle := o.1.2
      let l := E.ofstream_open o.2 destination_path
      if !l.1 then Except.ok (false, E.afc_file_close l.2 handle)
      else
        match download_loop E handle destination_path fuel l.2 with
        | Except.error e => Except.error e
        | Except.ok (success, s1) =>
          Except.ok (success, E.ofstream_close (E.afc_file_close s1 handle) destination_path)

/-- The write loop of `afc_manager::upload_file` over what is left of the local file:
`infile.read(buffer, 8192)` takes the next 8192 bytes, or sets the fail state and takes
what is left; the body runs while the read succeeded or took at least one byte. `fuel`
bounds the iterations; `upload_file` passes more than the file can need. -/
def upload_loop {σ : Type} (E : afc_env σ) (handle : Nat) :
    Nat → List UInt8 → σ → Bool × σ
  | 0, _, s => (true, s)
  | fuel + 1, rest, s =>
    let buffer := rest.take 8192
    if buffer.length = 8192 ∨ buffer.length > 0 then
      let bytes_to_write := buffer.length
      let w := E.afc_file_write s handle buffer
      if w.1.1 ≠ AFC_E_SUCCESS ∨ w.1.2 ≠ bytes_to_write then (false, w.2)
      else upload_loop E handle fuel (rest.drop 8192) w.2
    else (true, s)

/-- The function `afc_manager::upload_file`. -/
def upload_file {σ : Type} (E : afc_env σ) (m : afc_manager)
    (source_path destination_path : std_string) (s : σ) : Bool × σ :=
  if !m.afc_connected then (false, s)
  else
    let i := E.ifstream_open s source_path
    match i.1 with
    | none => (false, i.2)
    | some content =>
      let o := E.afc_file_open i.2 destination_path afc_file_mode_t.AFC_FOPEN_WR
      if o.1.1 ≠ AFC_E_SUCCESS then (false, E.ifstream_close o.2 source_path)
      else
        let handle := o.1.2
        let r := upload_loop E handle (content.length + 1) content o.2
        (r.1, E.ifstream_close (E.afc_file_close r.2 handle) source_path)

/-! ## `photo_manager.cpp`: classification -/

/-- The function `photo_manager::get_file_extension`. (`filename.length() - 1` wraps for the
empty string, but then `find_last_of` is `npos` and the comparison is not reached.) -/
def get_file_extension (filename : std_string) : std_string :=
  match find_last_of filename ['.'] with
  | some dot_pos =>
    if dot_pos < filename.length - 1 then filename.drop (dot_pos + 1) else []
  | none => []

/-- The function `photo_manager::is_photo_file`. -/
def is_photo_file (filename : std_string) : Bool :=
  let ext := (get_file_extension filename).map tolower
  ext = "jpg".toList || ext = "jpeg".toList || ext = "png".toList ||
  ext = "heic".toList || ext = "heif".toList || ext = "gif".toList ||
  ext = "bmp".toList || ext = "tiff".toList || ext = "tif".toList

/-- The function `photo_manager::is_video_file`. -/
def is_video_file (filename : std_string) : Bool :=
  let ext := (get_file_extension filename).map tolower
  ext = "mov".toList || ext = "mp4".toList || ext = "m4v".toList ||
  ext = "avi".toList || ext = "mkv".toList

/-- The specification's extension of a filename: the text after its last `.`, empty when
it has no `.` (and so also when it ends in `.`). -/
def text_after_last_dot (f : std_string) : std_string :=
  if '.' ∈ f then (f.reverse.takeWhile (fun c => c ≠ '.')).reverse else []

/-- The specification's allow-list of photo extensions. -/
def photo_extensions : List std_string :=
  ["jpg".toList, "jpeg".toList, "png".toList, "heic".toList, "heif".toList,
   "gif".toList, "bmp".toList, "tiff".toList, "tif".toList]

/-- The specification's allow-list of video extensions. -/
def video_extensions : List std_string :=
  ["mov".toList, "mp4".toList, "m4v".toList, "avi".toList, "mkv".toList]

/-- The unit `c2` is `c1` with its ASCII letter case possibly changed. -/
def case_variant (c1 c2 : Char) : Prop :=
  c2 = c1 ∨ c2 = toupper c1 ∨ c2 = tolower c1

/-! ## `photo_manager.cpp`: catalog and bulk download -/

/-- The struct `photo_info` of `photo_manager.h`. -/
structure photo_info where
  filename : std_string
  full_path : std_string
  file_size : Nat
  modified_time : std_string
  file_type : std_string
  deriving DecidableEq, Repr

/-- The data members of `photo_manager`; `afc` is the pointed-to `afc_manager`
(`none`: a null pointer). -/
structure photo_manager where
  afc : Option afc_manager
  owns_afc : Bool
  deriving DecidableEq, Repr

/-- The function `photo_manager::is_connected`. -/
def photo_manager.is_connected (pm : photo_manager) : Bool :=
  match pm.afc with
  | some afc => afc.is_connected
  | none => false

/-- The function `photo_manager::file_info_to_photo_info`. -/
def file_info_to_photo_info (finfo : file_info) : photo_info :=
  { filename := finfo.filename,
    full_path := finfo.full_path,
    file_size := finfo.file_size,
    modified_time := finfo.modified_time,
    file_type := get_file_extension finfo.filename }

/-- The loop of `photo_manager::scan_for_photos` over the entries of `path` that are
left; `recurse` is the recursive call `scan_for_photos(full_path, photos)`. -/
def scan_for_photos_loop {σ : Type} (E : afc_env σ) (afc : afc_manager)
    (recurse : std_string → List photo_info → σ → Except fault (List photo_info × σ))
    (path : std_string) :
    List std_string → List photo_info → σ → Except fault (List photo_info × σ)
  | [], photos, s => Except.ok (photos, s)
  | entry :: rest, photos, s =>
    match path.getLast? with
    | none => Except.error fault.undefined_behaviour
    | some back =>
      let full_path := (if back ≠ '/' then path ++ "/".toList else path) ++ entry
      match get_file_info E afc full_path s with
      | Except.error e => Except.error e
      | Except.ok (finfo, s1) =>
        if finfo.is_directory then
          match recurse full_path photos s1 with
          | Except.error e => Except.error e
          | Except.ok (photos1, s2) =>
            scan_for_photos_loop E afc recurse path rest photos1 s2
        else if is_photo_file entry then
          scan_for_photos_loop E afc recurse path rest
            (photos ++ [file_info_to_photo_info finfo]) s1
        else scan_for_photos_loop E afc recurse path rest photos s1

/-- The function `photo_manager::scan_for_photos`, with `fuel` nested calls allowed (the
source recurses once per directory level and has no bound of its own). -/
def scan_for_photos {σ : Type} (E : afc_env σ) (pm : photo_manager) :
    Nat → std_string → List photo_info → σ → Except fault (List photo_info × σ)
  | 0, _, _, _ => Except.error fault.out_of_fuel
  | fuel + 1, path, photos, s =>
    match pm.afc with
    | none => Except.ok (photos, s)
    | some afc =>
      if !afc.is_connected then Except.ok (photos, s)
      else
        let entries := list_directory E afc path s
        scan_for_photos_loop E afc (scan_for_photos E pm fuel) path entries.1 photos entries.2

/-- The comparator of the three `std::sort` calls: `a.filename < b.filename`. -/
def filename_lt (a b : photo_info) : Bool := string_lt a.filename b.filename

/-- The function `photo_manager::list_all_photos`. -/
def list_all_photos {σ : Type} (E : afc_env σ) (pm : photo_manager) (fuel : Nat) (s : σ) :
    Except fault (List photo_info × σ) :=
  if !pm.is_connected then Except.ok ([], s)
  else
    match scan_for_photos E pm fuel "/DCIM".toList [] s with
    | Except.error e => Except.error e
    | Except.ok (photos, s1) => Except.ok (std_sort filename_lt photos, s1)

/-- The function `photo_manager::list_photos_in_folder`. -/
def list_photos_in_folder {σ : Type} (E : afc_env σ) (pm : photo_manager) (fuel : Nat)
    (folder_path : std_string) (s : σ) : Except fault (List photo_info × σ) :=
  if !pm.is_connected then Except.ok ([], s)
  else
    match scan_for_photos E pm fuel folder_path [] s with
    | Except.error e => Except.error e
    | Except.ok (photos, s1) => Except.ok (std_sort filename_lt photos, s1)

/-- The inner loop of `photo_manager::list_videos` over the entries of a subdirectory. -/
def list_videos_subentries {σ : Type} (E : afc_env σ) (afc : afc_manager)
    (full_path : std_string) :
    List std_string → List photo_info → σ → Except fault (List photo_info × σ)
  | [], videos, s => Except.ok (videos, s)
  | subentry :: rest, videos, s =>
    if is_video_file subentry then
      let video_path := full_path ++ "/".toList ++ subentry
      match get_file_info E afc video_path s with
      | Except.error e => Except.error e
      | Except.ok (vinfo, s1) =>
        list_videos_subentries E afc full_path rest
          (videos ++ [file_info_to_photo_info vinfo]) s1
    else list_videos_subentries E afc full_path rest videos s

/-- The outer loop of `photo_manager::list_videos` over the entries of `/DCIM`. -/
def list_videos_entries {σ : Type} (E : afc_env σ) (afc : afc_manager) :
    List std_string → List photo_info → σ → Except fault (List photo_info × σ)
  | [], videos, s => Except.ok (videos, s)
  | entry :: rest, videos, s =>
    let full_path := "/DCIM/".toList ++ entry
    match get_file_info E afc full_path s with
    | Except.error e => Except.error e
    | Except.ok (finfo, s1) =>
      if finfo.is_directory then
        let subentries := list_directory E afc full_path s1
        match list_videos_subentries E afc full_path subentries.1 videos subentries.2 with
        | Except.error e => Except.error e
        | Except.ok (videos1, s2) => list_videos_entries E afc rest videos1 s2
      else if is_video_file entry then
        list_videos_entries E afc rest (videos ++ [file_info_to_photo_info finfo]) s1
      else list_videos_entries E afc rest videos s1

/-- The function `photo_manager::list_videos`. -/
def list_videos {σ : Type} (E : afc_env σ) (pm : photo_manager) (s : σ) :
    Except fault (List photo_info × σ) :=
  match pm.afc with
  | none => Except.ok ([], s)
  | some afc =>
    if !afc.is_connected then Except.ok ([], s)
    else
      let entries := list_directory E afc "/DCIM".toList s
      match list_videos_entries E afc entries.1 [] entries.2 with
      | Except.error e => Except.error e
      | Except.ok (videos, s1) => Except.ok (std_sort filename_lt videos, s1)

/-- The function `photo_manager::download_photo`. -/
def download_photo {σ : Type} (E : afc_env σ) (pm : photo_manager) (fuel : Nat)
    (photo_path destination : std_string) (s : σ) : Except fault (Bool × σ) :=
  match pm.afc with
  | none => Except.ok (false, s)
  | some afc =>
    if !afc.is_connected then Except.ok (false, s)
    else download_file E afc fuel photo_path destination s

/-- The tallies of `download_all_photos` (printed in its summary) and its return value. -/
structure download_summary where
  result : Bool
  success_count : Nat
  fail_count : Nat
  deriving DecidableEq, Repr

/-- The loop of `photo_manager::download_all_photos` over the photos that are left; the
result is `(success_count, fail_count)` at the exit of the loop. -/
def download_all_photos_loop {σ : Type} (E : afc_env σ) (pm : photo_manager) (fuel : Nat)
    (destination_folder : std_string) :
    List photo_info → Nat × Nat → σ → Except fault ((Nat × Nat) × σ)
  | [], counts, s => Except.ok (counts, s)
  | photo :: rest, counts, s =>
    match destination_folder.getLast? with
    | none => Except.error fault.undefined_behaviour
    | some back =>
      let dest_path :=
        (if back ≠ '/' ∧ back ≠ '\\' then destination_folder ++ "/".toList
         else destination_folder) ++ photo.filename
      match download_photo E pm fuel photo.full_path dest_path s with
      | Except.error e => Except.error e
      | Except.ok (true, s1) =>
        download_all_photos_loop E pm fuel destination_folder rest (counts.1 + 1, counts.2) s1
      | Except.ok (false, s1) =>
        download_all_photos_loop E pm fuel destination_folder rest (counts.1, counts.2 + 1) s1

/-- The function `photo_manager::download_all_photos`. -/
def download_all_photos {σ : Type} (E : afc_env σ) (pm : photo_manager) (fuel : Nat)
    (destination_folder : std_string) (s : σ) : Except fault (download_summary × σ) :=
  match list_all_photos E pm fuel s with
  | Except.error e => Except.error e
  | Except.ok (photos, s1) =>
    if photos.isEmpty then
      Except.ok ({ result := true, success_count := 0, fail_count := 0 }, s1)
    else
      match download_all_photos_loop E pm fuel destination_folder photos (0, 0) s1 with
      | Except.error e => Except.error e
      | Except.ok (counts, s2) =>
        Except.ok ({ result := (counts.2 == 0), success_count := counts.1,
                     fail_count := counts.2 }, s2)

/-! ## A peer that stores files faithfully -/

/-- The state of a faithful peer and of the local file system: the remote files, the
local files, the open remote handles (each with the path it was opened on and the read
offset reached) and the next handle to hand out. -/
structure store where
  remote_files : std_string → Option (List UInt8)
  local_files : std_string → Option (List UInt8)
  handles : Nat → Option (std_string × Nat)
  next_handle : Nat

/-- The map `f` with the value at `k` replaced by `v`. -/
def set_at {κ : Type} [DecidableEq κ] {α : Type} (f : κ → α) (k : κ) (v : α) : κ → α :=
  fun x => if x = k then v else f x

/-- A peer that stores written bytes faithfully, accepts every write in full and serves
the stored bytes back in order. A read at offset `offset` is answered with
`max 1 (serve offset)` bytes, capped by the length asked for and by what is left, so with
no byte exactly at the end of the file. Opening for writing creates or truncates the
file; opening for reading fails when the file does not exist. Directory listings and
stat replies are the fixed tables `dirs` and `stats`. The local file system is faithful
too: an output stream always opens, truncating, and every write to it is appended. -/
def faithful_peer (serve : Nat → Nat) (dirs stats : std_string → afc_list_reply) :
    afc_env store where
  afc_read_directory := fun s path => (dirs path, s)
  afc_get_file_info := fun s path => (stats path, s)
  afc_make_directory := fun s _ => (1, s)
  afc_remove_path := fun s _ => (1, s)
  afc_file_open := fun s path mode =>
    match mode with
    | afc_file_mode_t.AFC_FOPEN_WR =>
      ((AFC_E_SUCCESS, s.next_handle),
        { s with remote_files := set_at s.remote_files path (some []),
                 handles := set_at s.handles s.next_handle (some (path, 0)),
                 next_handle := s.next_handle + 1 })
    | afc_file_mode_t.AFC_FOPEN_RDONLY =>
      match s.remote_files path with
      | none => ((8, 0), s)
      | some _ =>
        ((AFC_E_SUCCESS, s.next_handle),
          { s with handles := set_at s.handles s.next_handle (some (path, 0)),
                   next_handle := s.next_handle + 1 })
  afc_file_read := fun s handle length =>
    match s.handles handle with
    | none => ((1, []), s)
    | some (path, offset) =>
      match s.remote_files path with
      | none => ((1, []), s)
      | some content =>
        let bytes := (content.drop offset).take (min (max 1 (serve offset)) length)
        ((AFC_E_SUCCESS, bytes),
          { s with handles := set_at s.handles handle (some (path, offset + bytes.length)) })
  afc_file_write := fun s handle data =>
    match s.handles handle with
    | none => ((1, 0), s)
    | some (path, _) =>
      match s.remote_files path with
      | none => ((1, 0), s)
      | some content =>
        ((AFC_E_SUCCESS, data.length),
          { s with remote_files := set_at s.remote_files path (some (content ++ data)) })
  afc_file_close := fun s handle => { s with handles := set_at s.handles handle none }
  ifstream_open := fun s path => (s.local_files path, s)
  ifstream_close := fun s _ => s
  ofstream_open := fun s path =>
    (true, { s with local_files := set_at s.local_files path (some []) })
  ofstream_write := fun s path data =>
    match s.local_files path with
    | none => (false, s)
    | some content =>
      (true, { s with local_files := set_at s.local_files path (some (content ++ data)) })
  ofstream_close := fun s _ => s

/-- A connected `afc_manager`. -/
def connected_afc : afc_manager :=
  { device := some 1, lockdown_client := some 1, afc_client := some 1, service := some 1,
    afc_connected := true }

/-- A `photo_manager` over a connected `afc_manager` of its own. -/
def connected_photo_manager : photo_manager :=
  { afc := some connected_afc, owns_afc := true }

/-- The stat reply for a directory. -/
def stat_directory : afc_list_reply :=
  { ret := AFC_E_SUCCESS,
    list := some ["st_size".toList, "64".toList, "st_ifmt".toList, "S_IFDIR".toList] }

/-- The stat reply for a regular file of `size` (a decimal string). -/
def stat_regular (size : String) : afc_list_reply :=
  { ret := AFC_E_SUCCESS,
    list := some ["st_size".toList, size.toList, "st_ifmt".toList, "S_IFREG".toList,
                  "st_mtime".toList, "1700000000".toList] }

/-- A failed peer call. -/
def reply_failed : afc_list_reply := { ret := 8, list := none }

/-- A small device tree: `/DCIM` holds `.`, `..`, the directory `100APPLE`, the photo
`b.jpg` and the video `top.mov`; `/DCIM/100APPLE` holds the photos `c.PNG` and `a.jpg`,
the video `clip.mp4` and the directory `deep`; `/DCIM/100APPLE/deep` holds `far.mov`. -/
def sample_dirs (path : std_string) : afc_list_reply :=
  if path = "/DCIM".toList then
    { ret := AFC_E_SUCCESS,
      list := some [".".toList, "..".toList, "100APPLE".toList, "b.jpg".toList,
                    "top.mov".toList] }
  else if path = "/DCIM/100APPLE".toList then
    { ret := AFC_E_SUCCESS,
      list := some [".".toList, "..".toList, "c.PNG".toList, "a.jpg".toList,
                    "clip.mp4".toList, "deep".toList] }
  else if path = "/DCIM/100APPLE/deep".toList then
    { ret := AFC_E_SUCCESS, list := some [".".toList, "..".toList, "far.mov".toList] }
  else reply_failed

/-- The stat replies of the tree of `sample_dirs`. -/
def sample_stats (path : std_string) : afc_list_reply :=
  if path = "/DCIM".toList ∨ path = "/DCIM/100APPLE".toList ∨
      path = "/DCIM/100APPLE/deep".toList then stat_directory
  else if path = "/DCIM/b.jpg".toList ∨ path = "/DCIM/top.mov".toList ∨
      path = "/DCIM/100APPLE/c.PNG".toList ∨ path = "/DCIM/100APPLE/a.jpg".toList ∨
      path = "/DCIM/100APPLE/clip.mp4".toList ∨
      path = "/DCIM/100APPLE/deep/far.mov".toList then stat_regular "3"
  else reply_failed

/-- The sample device: the tree of `sample_dirs`, served one byte more per read than the
offset. -/
def sample_peer : afc_env store := faithful_peer (fun offset => offset + 1) sample_dirs sample_stats

/-- A state of the sample device: the remote file `/DCIM/b.jpg` has three bytes, the
other remote files of the tree are absent (they cannot be opened), the local file
`in.bin` has three bytes, no handle is open. -/
def sample_store : store :=
  { remote_files := fun path => if path = "/DCIM/b.jpg".toList then some [1, 2, 3] else none,
    local_files := fun path => if path = "in.bin".toList then some [7, 8, 9] else none,
    handles := fun _ => none,
    next_handle := 1 }

/-! ## Records of calls -/

/-- The record `log1` holds the calls of `log` and otherwise only calls that satisfy `P`. -/
def calls_added (P : afc_call → Prop) (log log1 : List afc_call) : Prop :=
  ∀ c ∈ log1, c ∈ log ∨ P c

/-- The calls that `list_videos` may make: a stat of any path, a listing of `/DCIM`, a
listing of an immediate child of `/DCIM`. -/
def list_videos_call (c : afc_call) : Prop :=
  match c with
  | afc_call.read_directory p =>
    p = "/DCIM".toList ∨ ∃ entry, '/' ∉ entry ∧ p = "/DCIM/".toList ++ entry
  | afc_call.get_file_info _ => True
  | _ => False

/-- The download attempts on record: the paths of the remote files opened for reading,
oldest first (`download_file` opens its source first of all, once). -/
def download_attempts (log : List afc_call) : List std_string :=
  log.filterMap (fun c =>
    match c with
    | afc_call.file_open path afc_file_mode_t.AFC_FOPEN_RDONLY => some path
    | _ => none)

/-- The specification's bulk download: one download per photo, in list order, whatever
the outcome of the ones before; the destination is the folder, then `/` unless the folder
already ends in `/` or `\`, then the filename. The result is the list of the individual
outcomes. -/
def download_outcomes {σ : Type} (E : afc_env σ) (pm : photo_manager) (fuel : Nat)
    (destination_folder : std_string) :
    List photo_info → σ → Except fault (List Bool × σ)
  | [], s => Except.ok ([], s)
  | photo :: rest, s =>
    match destination_folder.getLast? with
    | none => Except.error fault.undefined_behaviour
    | some back =>
      let separator := if back = '/' ∨ back = '\\' then [] else "/".toList
      match download_photo E pm fuel photo.full_path
          (destination_folder ++ separator ++ photo.filename) s with
      | Except.error e => Except.error e
      | Except.ok (outcome, s1) =>
        match download_outcomes E pm fuel destination_folder rest s1 with
        | Except.error e => Except.error e
        | Except.ok (outcomes, s2) => Except.ok (outcome :: outcomes, s2)

/-- The photos of the sample device, as `list_all_photos` returns them. -/
def sample_photos : List photo_info :=
  [⟨"a.jpg".toList, "/DCIM/100APPLE/a.jpg".toList, 3, "1700000000".toList, "jpg".toList⟩,
   ⟨"b.jpg".toList, "/DCIM/b.jpg".toList, 3, "1700000000".toList, "jpg".toList⟩,
   ⟨"c.PNG".toList, "/DCIM/100APPLE/c.PNG".toList, 3, "1700000000".toList, "PNG".toList⟩]

/-- The calls that `list_all_photos` makes to the sample device. -/
def sample_listing_log : List afc_call :=
  [afc_call.read_directory "/DCIM".toList,
   afc_call.get_file_info "/DCIM/100APPLE".toList,
   afc_call.read_directory "/DCIM/100APPLE".toList,
   afc_call.get_file_info "/DCIM/100APPLE/c.PNG".toList,
   afc_call.get_file_info "/DCIM/100APPLE/a.jpg".toList,
   afc_call.get_file_info "/DCIM/100APPLE/clip.mp4".toList,
   afc_call.get_file_info "/DCIM/100APPLE/deep".toList,
   afc_call.read_directory "/DCIM/100APPLE/deep".toList,
   afc_call.get_file_info "/DCIM/100APPLE/deep/far.mov".toList,
   afc_call.get_file_info "/DCIM/b.jpg".toList,
   afc_call.get_file_info "/DCIM/top.mov".toList]

/-- The calls that `download_all_photos` makes to the sample device in the state
`sample_store`, with destination folder `out`: the listing, a failed download of `a.jpg`,
a download of `b.jpg` in two reads, a failed download of `c.PNG`. -/
def sample_download_log : List afc_call :=
  sample_listing_log ++
  [afc_call.file_open "/DCIM/100APPLE/a.jpg".toList afc_file_mode_t.AFC_FOPEN_RDONLY,
   afc_call.file_open "/DCIM/b.jpg".toList afc_file_mode_t.AFC_FOPEN_RDONLY,
   afc_call.ofstream_open "out/b.jpg".toList,
   afc_call.file_read 1 8192,
   afc_call.ofstream_write "out/b.jpg".toList [1],
   afc_call.file_read 1 8192,
   afc_call.ofstream_write "out/b.jpg".toList [2, 3],
   afc_call.file_read 1 8192,
   afc_call.file_close 1,
   afc_call.ofstream_close "out/b.jpg".toList,
   afc_call.file_open "/DCIM/100APPLE/c.PNG".toList afc_file_mode_t.AFC_FOPEN_RDONLY]

/-- The path of the child `entry` of the directory `path`: `path`, then `/` unless `path`
already ends in `/`, then `entry`. -/
def child_path (path entry : std_string) : std_string :=
  (if path.getLast? = some '/' then path else path ++ "/".toList) ++ entry

/-- The depth left below a directory of the sample device. -/
def sample_depth (path : std_string) : Nat :=
  if path = "/DCIM".toList then 2
  else if path = "/DCIM/100APPLE".toList then 1
  else 0

/-! ## `afc_manager.cpp`: the remaining operations and the connection -/

/-- The function `afc_manager::create_directory`. -/
def create_directory {σ : Type} (E : afc_env σ) (m : afc_manager) (path : std_string) (s : σ) :
    Bool × σ :=
  if !m.afc_connected then (false, s)
  else
    let r := E.afc_make_directory s path
    if r.1 ≠ AFC_E_SUCCESS then (false, r.2) else (true, r.2)

/-- The function `afc_manager::remove_path`. -/
def remove_path {σ : Type} (E : afc_env σ) (m : afc_manager) (path : std_string) (s : σ) :
    Bool × σ :=
  if !m.afc_connected then (false, s)
  else
    let r := E.afc_remove_path s path
    if r.1 ≠ AFC_E_SUCCESS then (false, r.2) else (true, r.2)

/-- The function `afc_manager::file_exists`. -/
def file_exists {σ : Type} (E : afc_env σ) (m : afc_manager) (path : std_string) (s : σ) :
    Bool × σ :=
  if !m.afc_connected then (false, s)
  else
    let r := E.afc_get_file_info s path
    if r.1.ret = AFC_E_SUCCESS ∧ r.1.list ≠ none then (true, r.2) else (false, r.2)

/-- The type `lockdownd_error_t` of libimobiledevice; `LOCKDOWN_E_SUCCESS` is `0`. -/
abbrev lockdownd_error_t := Nat

/-- See `lockdownd_error_t`. -/
def LOCKDOWN_E_SUCCESS : lockdownd_error_t := 0

/-- The calls of libimobiledevice that open and release the file service, over a state
`σ`. `lockdownd_start_service s client identifier` and `afc_client_new s device service`
yield the error code and the pointer left in the out-parameter (`&service`,
`&afc_client`); the two `free` calls take the pointer they release. -/
structure service_env (σ : Type) where
  lockdownd_start_service : σ → Option Nat → std_string → (lockdownd_error_t × Option Nat) × σ
  afc_client_new : σ → Option Nat → Option Nat → (afc_error_t × Option Nat) × σ
  afc_client_free : σ → Nat → σ
  lockdownd_service_descriptor_free : σ → Nat → σ

/-- A call made to a `service_env`. -/
inductive service_call where
  | start_service (client : Option Nat) (identifier : std_string)
  | client_new (device service : Option Nat)
  | client_free (client : Nat)
  | service_descriptor_free (service : Nat)
  deriving DecidableEq, Repr

/-- The environment `L` with a record of the calls made to it, oldest first. -/
def service_env.traced {σ : Type} (L : service_env σ) : service_env (σ × List service_call) where
  lockdownd_start_service := fun s client identifier =>
    ((L.lockdownd_start_service s.1 client identifier).1,
      ((L.lockdownd_start_service s.1 client identifier).2,
        s.2 ++ [service_call.start_service client identifier]))
  afc_client_new := fun s device service =>
    ((L.afc_client_new s.1 device service).1,
      ((L.afc_client_new s.1 device service).2,
        s.2 ++ [service_call.client_new device service]))
  afc_client_free := fun s client =>
    (L.afc_client_free s.1 client, s.2 ++ [service_call.client_free client])
  lockdownd_service_descriptor_free := fun s service =>
    (L.lockdownd_service_descriptor_free s.1 service,
      s.2 ++ [service_call.service_descriptor_free service])

/-- The constructor `afc_manager::afc_manager()`. -/
def afc_manager.init : afc_manager :=
  { device := none, lockdown_client := none, afc_client := none, service := none,
    afc_connected := false }

/-- The function `afc_manager::connect_afc`: the return value, the manager afterwards and
the environment afterwards. -/
def connect_afc {σ : Type} (L : service_env σ) (m : afc_manager) (dev lockdown : Option Nat)
    (s : σ) : (Bool × afc_manager) × σ :=
  if m.afc_connected then ((true, m), s)
  else if dev = none ∨ lockdown = none then ((false, m), s)
  else
    let m1 := { m with device := dev, lockdown_client := lockdown }
    let r := L.lockdownd_start_service s m1.lockdown_client "com.apple.afc".toList
    let m2 := { m1 with service := r.1.2 }
    if r.1.1 ≠ LOCKDOWN_E_SUCCESS then ((false, m2), r.2)
    else
      let c := L.afc_client_new r.2 m2.device m2.service
      let m3 := { m2 with afc_client := c.1.2 }
      if c.1.1 ≠ AFC_E_SUCCESS then
        match m3.service with
        | some service =>
          ((false, { m3 with service := none }),
            L.lockdownd_service_descriptor_free c.2 service)
        | none => ((false, m3), c.2)
      else ((true, { m3 with afc_connected := true }), c.2)

/-- The function `afc_manager::disconnect`: the manager afterwards and the environment
afterwards. -/
def afc_manager.disconnect {σ : Type} (L : service_env σ) (m : afc_manager) (s : σ) :
    afc_manager × σ :=
  let r1 :=
    match m.afc_client with
    | some client => ({ m with afc_client := none }, L.afc_client_free s client)
    | none => (m, s)
  let r2 :=
    match r1.1.service with
    | some service =>
      ({ r1.1 with service := none }, L.lockdownd_service_descriptor_free r1.2 service)
    | none => r1
  ({ r2.1 with afc_connected := false }, r2.2)

/-- The states of an `afc_manager` and its environment that can be reached from
construction by calls of `connect_afc` and `disconnect`, the environment being free to
change in between. -/
inductive afc_reachable {σ : Type} (L : service_env σ) : afc_manager × σ → Prop where
  | construct (s : σ) : afc_reachable L (afc_manager.init, s)
  | connect (m : afc_manager) (s : σ) (dev lockdown : Option Nat) :
      afc_reachable L (m, s) →
      afc_reachable L ((connect_afc L m dev lockdown s).1.2, (connect_afc L m dev lockdown s).2)
  | disconnect (m : afc_manager) (s : σ) :
      afc_reachable L (m, s) → afc_reachable L (m.disconnect L s)
  | environment (m : afc_manager) (s s1 : σ) :
      afc_reachable L (m, s) → afc_reachable L (m, s1)

/-- An environment in which a successful call leaves a non-null pointer in its
out-parameter and a failed one leaves it null. -/
def outcomes_well_formed {σ : Type} (L : service_env σ) : Prop :=
  (∀ s client identifier,
    ((L.lockdownd_start_service s client identifier).1.1 = LOCKDOWN_E_SUCCESS ↔
      (L.lockdownd_start_service s client identifier).1.2 ≠ none)) ∧
  (∀ s device service,
    ((L.afc_client_new s device service).1.1 = AFC_E_SUCCESS ↔
      (L.afc_client_new s device service).1.2 ≠ none))

/-- A scripted environment: the state is the list of outcomes still to come, `true` for
a success; a call that needs an outcome takes the next one (a failure when none is left).
A success hands out a non-null pointer, a failure leaves null. -/
def scripted_service : service_env (List Bool) where
  lockdownd_start_service := fun s _ _ =>
    match s with
    | true :: rest => ((LOCKDOWN_E_SUCCESS, some (rest.length + 1)), rest)
    | false :: rest => ((1, none), rest)
    | [] => ((1, none), [])
  afc_client_new := fun s _ _ =>
    match s with
    | true :: rest => ((AFC_E_SUCCESS, some (rest.length + 1)), rest)
    | false :: rest => ((1, none), rest)
    | [] => ((1, none), [])
  afc_client_free := fun s _ => s
  lockdownd_service_descriptor_free := fun s _ => s

/-- A peer whose stat call always succeeds and leaves a list that is not null but has
no item; otherwise the sample device. -/
def empty_stat_peer : afc_env store :=
  faithful_peer (fun offset => offset + 1) sample_dirs
    (fun _ => { ret := AFC_E_SUCCESS, list := some [] })

/-! ## Specifications of the transfer loops -/

/-- The reads of `download_file` from state `s` on reach a successful read of zero
bytes before any read error and before any failed local write: either the read at `s`
succeeds with no byte, or it succeeds with some bytes, the local write of them succeeds,
and the same holds from the state after that write. -/
inductive reads_end_cleanly {σ : Type} (E : afc_env σ) (handle : Nat)
    (destination_path : std_string) : σ → Prop where
  | end_of_file (s : σ) :
      (E.afc_file_read s handle 8192).1.1 = AFC_E_SUCCESS →
      (E.afc_file_read s handle 8192).1.2.length = 0 →
      reads_end_cleanly E handle destination_path s
  | chunk (s : σ) :
      (E.afc_file_read s handle 8192).1.1 = AFC_E_SUCCESS →
      (E.afc_file_read s handle 8192).1.2.length ≠ 0 →
      (E.ofstream_write (E.afc_file_read s handle 8192).2 destination_path
        (E.afc_file_read s handle 8192).1.2).1 = true →
      reads_end_cleanly E handle destination_path
        (E.ofstream_write (E.afc_file_read s handle 8192).2 destination_path
          (E.afc_file_read s handle 8192).1.2).2 →
      reads_end_cleanly E handle destination_path s

/-- The reads of `download_file` from state `s` on reach a read error or a failed local
write before any successful read of zero bytes. -/
inductive reads_fail {σ : Type} (E : afc_env σ) (handle : Nat)
    (destination_path : std_string) : σ → Prop where
  | read_error (s : σ) :
      (E.afc_file_read s handle 8192).1.1 ≠ AFC_E_SUCCESS →
      reads_fail E handle destination_path s
  | write_failure (s : σ) :
      (E.afc_file_read s handle 8192).1.1 = AFC_E_SUCCESS →
      (E.afc_file_read s handle 8192).1.2.length ≠ 0 →
      (E.ofstream_write (E.afc_file_read s handle 8192).2 destination_path
        (E.afc_file_read s handle 8192).1.2).1 = false →
      reads_fail E handle destination_path s
  | chunk (s : σ) :
      (E.afc_file_read s handle 8192).1.1 = AFC_E_SUCCESS →
      (E.afc_file_read s handle 8192).1.2.length ≠ 0 →
      (E.ofstream_write (E.afc_file_read s handle 8192).2 destination_path
        (E.afc_file_read s handle 8192).1.2).1 = true →
      reads_fail E handle destination_path
        (E.ofstream_write (E.afc_file_read s handle 8192).2 destination_path
          (E.afc_file_read s handle 8192).1.2).2 →
      reads_fail E handle destination_path s

/-- Every chunk write of the bytes `rest` from state `s` on succeeds with as many bytes
written as requested; a chunk is the next 8192 bytes, or what is left. -/
inductive all_writes_succeed {σ : Type} (E : afc_env σ) (handle : Nat) :
    List UInt8 → σ → Prop where
  | done (s : σ) : all_writes_succeed E handle [] s
  | chunk (rest : List UInt8) (s : σ) :
      rest ≠ [] →
      (E.afc_file_write s handle (rest.take 8192)).1.1 = AFC_E_SUCCESS →
      (E.afc_file_write s handle (rest.take 8192)).1.2 = (rest.take 8192).length →
      all_writes_succeed E handle (rest.drop 8192)
        (E.afc_file_write s handle (rest.take 8192)).2 →
      all_writes_succeed E handle rest s

/-- The `k`-th chunk write of the bytes `rest` from state `s` on is the first that fails
or writes another number of bytes than requested. -/
inductive first_failed_write {σ : Type} (E : afc_env σ) (handle : Nat) :
    List UInt8 → σ → Nat → Prop where
  | first (rest : List UInt8) (s : σ) :
      rest ≠ [] →
      ((E.afc_file_write s handle (rest.take 8192)).1.1 ≠ AFC_E_SUCCESS ∨
        (E.afc_file_write s handle (rest.take 8192)).1.2 ≠ (rest.take 8192).length) →
      first_failed_write E handle rest s 1
  | later (rest : List UInt8) (s : σ) (k : Nat) :
      rest ≠ [] →
      (E.afc_file_write s handle (rest.take 8192)).1.1 = AFC_E_SUCCESS →
      (E.afc_file_write s handle (rest.take 8192)).1.2 = (rest.take 8192).length →
      first_failed_write E handle (rest.drop 8192)
        (E.afc_file_write s handle (rest.take 8192)).2 k →
      first_failed_write E handle rest s (k + 1)

/-- The remote handles closed on record, oldest first. -/
def closed_handles (log : List afc_call) : List Nat :=
  log.filterMap (fun c =>
    match c with
    | afc_call.file_close handle => some handle
    | _ => none)

/-- The remote opens on record, oldest first. -/
def opened_files (log : List afc_call) : List (std_string × afc_file_mode_t) :=
  log.filterMap (fun c =>
    match c with
    | afc_call.file_open path mode => some (path, mode)
    | _ => none)

/-- The remote writes on record, oldest first. -/
def written_chunks (log : List afc_call) : List (Nat × List UInt8) :=
  log.filterMap (fun c =>
    match c with
    | afc_call.file_write handle data => some (handle, data)
    | _ => none)

/-- The sample device with a peer that reports one byte less written than requested on
every write. -/
def short_write_peer : afc_env store :=
  { sample_peer with
    afc_file_write := fun s _ data => ((AFC_E_SUCCESS, data.length - 1), s) }

/-! ## `syslog_manager.cpp`: connection and capture -/

/-- The type `syslog_relay_error_t` of libimobiledevice; `SYSLOG_RELAY_E_SUCCESS` is `0`. -/
abbrev syslog_relay_error_t := Nat

/-- See `syslog_relay_error_t`. -/
def SYSLOG_RELAY_E_SUCCESS : syslog_relay_error_t := 0

/-- The calls of libimobiledevice's log relay that the source makes, over a state `σ`.
`syslog_relay_client_start_service s device` yields the error code and the pointer left
in `&syslog_client`; `syslog_relay_start_capture` and `syslog_relay_stop_capture` take the
client pointer and yield the error code. -/
structure syslog_env (σ : Type) where
  syslog_relay_client_start_service : σ → Option Nat → (syslog_relay_error_t × Option Nat) × σ
  syslog_relay_start_capture : σ → Option Nat → syslog_relay_error_t × σ
  syslog_relay_stop_capture : σ → Option Nat → syslog_relay_error_t × σ
  syslog_relay_client_free : σ → Nat → σ

/-- A call made to a `syslog_env`. -/
inductive syslog_call where
  | client_start_service (device : Option Nat)
  | start_capture (client : Option Nat)
  | stop_capture (client : Option Nat)
  | client_free (client : Nat)
  deriving DecidableEq, Repr

/-- The environment `R` with a record of the calls made to it, oldest first. -/
def syslog_env.traced {σ : Type} (R : syslog_env σ) : syslog_env (σ × List syslog_call) where
  syslog_relay_client_start_service := fun s device =>
    ((R.syslog_relay_client_start_service s.1 device).1,
      ((R.syslog_relay_client_start_service s.1 device).2,
        s.2 ++ [syslog_call.client_start_service device]))
  syslog_relay_start_capture := fun s client =>
    ((R.syslog_relay_start_capture s.1 client).1,
      ((R.syslog_relay_start_capture s.1 client).2, s.2 ++ [syslog_call.start_capture client]))
  syslog_relay_stop_capture := fun s client =>
    ((R.syslog_relay_stop_capture s.1 client).1,
      ((R.syslog_relay_stop_capture s.1 client).2, s.2 ++ [syslog_call.stop_capture client]))
  syslog_relay_client_free := fun s client =>
    (R.syslog_relay_client_free s.1 client, s.2 ++ [syslog_call.client_free client])

/-- The constructor `syslog_manager::syslog_manager(dev)`. -/
def syslog_manager.init (dev : Option Nat) : syslog_manager :=
  { device := dev, syslog_client := none, syslog_connected := false, is_capturing := false,
    line_callback := none, current_line := [] }

/-- The function `syslog_manager::is_connected`. -/
def syslog_manager.is_connected (m : syslog_manager) : Bool := m.syslog_connected

/-- The function `syslog_manager::is_capturing_logs`. -/
def syslog_manager.is_capturing_logs (m : syslog_manager) : Bool := m.is_capturing

/-- The function `syslog_manager::connect_syslog`: the return value, the manager
afterwards and the environment afterwards. -/
def connect_syslog {σ : Type} (R : syslog_env σ) (m : syslog_manager) (s : σ) :
    (Bool × syslog_manager) × σ :=
  if m.device = none then ((false, m), s)
  else if m.syslog_connected then ((true, m), s)
  else
    let r := R.syslog_relay_client_start_service s m.device
    let m1 := { m with syslog_client := r.1.2 }
    if r.1.1 ≠ SYSLOG_RELAY_E_SUCCESS then ((false, m1), r.2)
    else ((true, { m1 with syslog_connected := true }), r.2)

/-- The function `syslog_manager::start_capture(callback)`; `callback` is the sink handed
in (`none`: an empty `std::function`). -/
def start_capture {σ : Type} (R : syslog_env σ) (m : syslog_manager) (callback : Option Nat)
    (s : σ) : (Bool × syslog_manager) × σ :=
  if !m.syslog_connected then ((false, m), s)
  else if m.is_capturing then ((true, m), s)
  else
    let m1 := { m with line_callback := callback, current_line := [] }
    let r := R.syslog_relay_start_capture s m1.syslog_client
    if r.1 ≠ SYSLOG_RELAY_E_SUCCESS then ((false, m1), r.2)
    else ((true, { m1 with is_capturing := true }), r.2)

/-- The function `syslog_manager::stop_capture`. -/
def stop_capture {σ : Type} (R : syslog_env σ) (m : syslog_manager) (s : σ) :
    (Bool × syslog_manager) × σ :=
  if !m.is_capturing then ((true, m), s)
  else
    let r := R.syslog_relay_stop_capture s m.syslog_client
    if r.1 ≠ SYSLOG_RELAY_E_SUCCESS then ((false, m), r.2)
    else ((true, { m with is_capturing := false }), r.2)

/-- The function `syslog_manager::disconnect`. -/
def syslog_manager.disconnect {σ : Type} (R : syslog_env σ) (m : syslog_manager) (s : σ) :
    syslog_manager × σ :=
  let r1 := if m.is_capturing then ((stop_capture R m s).1.2, (stop_capture R m s).2) else (m, s)
  match r1.1.syslog_connected, r1.1.syslog_client with
  | true, some client =>
    ({ r1.1 with syslog_client := none, syslog_connected := false },
      R.syslog_relay_client_free r1.2 client)
  | _, _ => r1

/-- The states of a `syslog_manager` and its environment that can be reached from
construction by calls of `connect_syslog`, `start_capture`, `stop_capture` and
`disconnect`, the environment being free to change in between. -/
inductive syslog_reachable {σ : Type} (R : syslog_env σ) : syslog_manager × σ → Prop where
  | construct (dev : Option Nat) (s : σ) : syslog_reachable R (syslog_manager.init dev, s)
  | connect (m : syslog_manager) (s : σ) :
      syslog_reachable R (m, s) →
      syslog_reachable R ((connect_syslog R m s).1.2, (connect_syslog R m s).2)
  | start (m : syslog_manager) (s : σ) (callback : Option Nat) :
      syslog_reachable R (m, s) →
      syslog_reachable R ((start_capture R m callback s).1.2, (start_capture R m callback s).2)
  | stop (m : syslog_manager) (s : σ) :
      syslog_reachable R (m, s) →
      syslog_reachable R ((stop_capture R m s).1.2, (stop_capture R m s).2)
  | disconnect (m : syslog_manager) (s : σ) :
      syslog_reachable R (m, s) → syslog_reachable R (m.disconnect R s)
  | environment (m : syslog_manager) (s s1 : σ) :
      syslog_reachable R (m, s) → syslog_reachable R (m, s1)

/-- A scripted log relay: the state is the list of outcomes still to come, `true` for a
success; a call that yields an outcome takes the next one (a failure when none is left).
A successful start of the service hands out a non-null client pointer, a failed one
leaves null. -/
def scripted_relay : syslog_env (List Bool) where
  syslog_relay_client_start_service := fun s _ =>
    match s with
    | true :: rest => ((SYSLOG_RELAY_E_SUCCESS, some (rest.length + 1)), rest)
    | false :: rest => ((1, none), rest)
    | [] => ((1, none), [])
  syslog_relay_start_capture := fun s _ =>
    match s with
    | true :: rest => (SYSLOG_RELAY_E_SUCCESS, rest)
    | false :: rest => (1, rest)
    | [] => (1, [])
  syslog_relay_stop_capture := fun s _ =>
    match s with
    | true :: rest => (SYSLOG_RELAY_E_SUCCESS, rest)
    | false :: rest => (1, rest)
    | [] => (1, [])
  syslog_relay_client_free := fun s _ => s

/-- The delimiters of the log stream: line feed and carriage return. -/
def is_delimiter (c : Char) : Bool := c = '\n' || c = '\r'

/-- The specification's filename of a path: the part after its last `/` or `\`, the whole
path when it contains neither. -/
def text_after_last_separator (path : std_string) : std_string :=
  (path.reverse.takeWhile (fun c => c ≠ '/' ∧ c ≠ '\\')).reverse

/-- A catalog record is well formed: its `file_type` is the text after the last `.` of
its filename and its `full_path` ends with its filename. -/
def record_well_formed (v : photo_info) : Prop :=
  v.file_type = text_after_last_dot v.filename ∧ ∃ pre, v.full_path = pre ++ v.filename

/-- A flat key/value list as the peer's stat call returns it: key, value, key, value ... -/
def flatten_pairs (kv : List (std_string × std_string)) : List std_string :=
  kv.flatMap (fun p => [p.1, p.2])

/-- The value of the last pair of `kv` whose key is `key`. -/
def last_value (key : std_string) : List (std_string × std_string) → Option std_string
  | [] => none
  | p :: rest =>
    match last_value key rest with
    | some v => some v
    | none => if p.1 = key then some p.2 else none

/-- The keys that `parse_file_info` recognizes. -/
def recognized_key (key : std_string) : Bool :=
  key = "st_size".toList || key = "st_mtime".toList || key = "st_ifmt".toList

/-- A device tree with a directory named like a video one level below `/DCIM`: `/DCIM`
holds the directory `100APPLE`, which holds the directory `dir.mov`. -/
def nested_dirs (path : std_string) : afc_list_reply :=
  if path = "/DCIM".toList then
    { ret := AFC_E_SUCCESS, list := some [".".toList, "..".toList, "100APPLE".toList] }
  else if path = "/DCIM/100APPLE".toList then
    { ret := AFC_E_SUCCESS, list := some [".".toList, "..".toList, "dir.mov".toList] }
  else if path = "/DCIM/100APPLE/dir.mov".toList then
    { ret := AFC_E_SUCCESS, list := some [".".toList, "..".toList] }
  else reply_failed

/-- The stat replies of the tree of `nested_dirs`: its three paths are directories. -/
def nested_stats (path : std_string) : afc_list_reply :=
  if path = "/DCIM".toList ∨ path = "/DCIM/100APPLE".toList ∨
      path = "/DCIM/100APPLE/dir.mov".toList then stat_directory
  else reply_failed

/-- The device with the tree of `nested_dirs`. -/
def nested_peer : afc_env store := faithful_peer (fun offset => offset + 1) nested_dirs nested_stats

/-- The local path that the specification gives for a download into `folder` of a photo
named `filename`: the folder, then `/` unless the folder already ends in `/` or `\`, then
the filename. -/
def local_destination (folder filename : std_string) : std_string :=
  folder ++ (if folder.getLast? = some '/' ∨ folder.getLast? = some '\\' then []
             else "/".toList) ++ filename

/-- The local files opened for writing on record, oldest first. -/
def local_opens (log : List afc_call) : List std_string :=
  log.filterMap (fun c =>
    match c with
    | afc_call.ofstream_open path => some path
    | _ => none)

/-- A device tree with two photos of the same name: `/DCIM` holds the directories `A`
and `B`, and each of them holds a file `x.jpg`. -/
def twin_dirs (path : std_string) : afc_list_reply :=
  if path = "/DCIM".toList then
    { ret := AFC_E_SUCCESS, list := some [".".toList, "..".toList, "A".toList, "B".toList] }
  else if path = "/DCIM/A".toList ∨ path = "/DCIM/B".toList then
    { ret := AFC_E_SUCCESS, list := some [".".toList, "..".toList, "x.jpg".toList] }
  else reply_failed

/-- The stat replies of the tree of `twin_dirs`. -/
def twin_stats (path : std_string) : afc_list_reply :=
  if path = "/DCIM".toList ∨ path = "/DCIM/A".toList ∨ path = "/DCIM/B".toList then
    stat_directory
  else if path = "/DCIM/A/x.jpg".toList ∨ path = "/DCIM/B/x.jpg".toList then stat_regular "2"
  else reply_failed

/-- The device with the tree of `twin_dirs`. -/
def twin_peer : afc_env store := faithful_peer (fun offset => offset + 1) twin_dirs twin_stats

/-- A state of the device of `twin_dirs`: both photos have two bytes, there is no local
file and no handle is open. -/
def twin_store : store :=
  { remote_files := fun path =>
      if path = "/DCIM/A/x.jpg".toList then some [1, 2]
      else if path = "/DCIM/B/x.jpg".toList then some [3, 4] else none,
    local_files := fun _ => none,
    handles := fun _ => none,
    next_handle := 1 }

/-- The entries of the directory `path` in a peer whose listings are the fixed table
`dirs`: the names listed, `.` and `..` left out; none when the listing fails. -/
def tree_entries (dirs : std_string → afc_list_reply) (path : std_string) : List std_string :=
  if (dirs path).ret ≠ AFC_E_SUCCESS then []
  else
    match (dirs path).list with
    | some list => list.filter (fun entry => entry ≠ ".".toList ∧ entry ≠ "..".toList)
    | none => []

/-- The metadata of `path` in a peer whose stat replies are the fixed table `stats`. -/
def tree_stat (stats : std_string → afc_list_reply) (path : std_string) :
    Except fault file_info :=
  if (stats path).ret = AFC_E_SUCCESS ∧ (stats path).list ≠ none then
    parse_file_info path (stats path).list
  else Except.ok (empty_file_info path)

/-- The specification's traversal of a finite directory tree, given by the tables `dirs`
and `stats`: `photos_in_preorder dirs stats path entries out` holds when `out` is the list
of the records of the photos found at and below the entries `entries` of the directory
`path`, in depth-first pre-order of the listing order. An entry that is a directory
contributes the photos of its whole subtree (and no record of its own) before those of
its later siblings; an entry that is not a directory contributes its record when its name
is a photo name, and nothing otherwise. -/
inductive photos_in_preorder (dirs stats : std_string → afc_list_reply) :
    std_string → List std_string → List photo_info → Prop
  | done (path : std_string) : photos_in_preorder dirs stats path [] []
  | directory (path entry : std_string) (rest : List std_string) (finfo : file_info)
      (sub more : List photo_info) :
      tree_stat stats (child_path path entry) = Except.ok finfo →
      finfo.is_directory = true →
      photos_in_preorder dirs stats (child_path path entry)
        (tree_entries dirs (child_path path entry)) sub →
      photos_in_preorder dirs stats path rest more →
      photos_in_preorder dirs stats path (entry :: rest) (sub ++ more)
  | photo (path entry : std_string) (rest : List std_string) (finfo : file_info)
      (more : List photo_info) :
      tree_stat stats (child_path path entry) = Except.ok finfo →
      finfo.is_directory = false →
      is_photo_file entry = true →
      photos_in_preorder dirs stats path rest more →
      photos_in_preorder dirs stats path (entry :: rest) (file_info_to_photo_info finfo :: more)
  | other (path entry : std_string) (rest : List std_string) (finfo : file_info)
      (more : List photo_info) :
      tree_stat stats (child_path path entry) = Except.ok finfo →
      finfo.is_directory = false →
      is_photo_file entry = false →
      photos_in_preorder dirs stats path rest more →
      photos_in_preorder dirs stats path (entry :: rest) more

/-! ## Theorems -/

theorem feed_units_append (u v : List Char) (m : syslog_manager) :
    feed_units (u ++ v) m =
      ((feed_units v (feed_units u m).1).1, (feed_units u m).2 ++ (feed_units v (feed_units u m).1).2) := by
  induction u generalizing m with
  | nil => simp [feed_units]
  | cons c u ih => simp [feed_units, ih, List.append_assoc]

theorem syslog_callback_wrapper_nonempty (c : Char) (m : syslog_manager) :
    ∀ d ∈ (syslog_callback_wrapper c m).2, d.2 ≠ [] := by
  intro d hd
  unfold syslog_callback_wrapper at hd
  split at hd
  · split at hd
    · rename_i hne _
      simp at hd; subst hd
      intro h
      have h2 : m.current_line = [] := h
      simp [h2] at hne
    · simp at hd
  · simp at hd

/-- C3: whatever units are fed to `syslog_callback_wrapper`, from whatever manager state
(any accumulator, sink registered or not), no line handed to the sink is empty. -/
theorem C3_no_empty_line_delivered (units : List Char) (m : syslog_manager) :
    ∀ d ∈ (feed_units units m).2, d.2 ≠ [] := by
  induction units generalizing m with
  | nil => simp [feed_units]
  | cons c rest ih =>
    intro d hd
    simp only [feed_units, List.mem_append] at hd
    rcases hd with h | h
    · exact syslog_callback_wrapper_nonempty c m d h
    · exact ih _ d h

/-- C3 on the units `"\n\ra\n\n\rb\r"`, fed to a capturing manager with an empty
accumulator: the line `a` is delivered, and it is not empty. -/
theorem C3_no_empty_line_delivered_witness :
    ((0, "a".toList) : Nat × std_string).2 ≠ [] :=
  C3_no_empty_line_delivered "\n\ra\n\n\rb\r".toList (capturing_manager 0 [])
    (0, "a".toList) (by decide)

/-- C2 (as stated, refuted): feeding `"abc\ndef\r\r\nghi"` from an empty accumulator with
sink `0` registered does not deliver the three lines `abc`, `def`, `ghi`. -/
theorem C2_counterexample :
    (feed_units "abc\ndef\r\r\nghi".toList (capturing_manager 0 [])).2
      ≠ [(0, "abc".toList), (0, "def".toList), (0, "ghi".toList)] := by
  decide

/-- C2 (amended): feeding `"abc\ndef\r\r\nghi"` one unit at a time, from an empty
accumulator with a sink registered, delivers exactly `abc` then `def` to that sink, no
empty line, and leaves `ghi` in the accumulator, undelivered. -/
theorem C2_delivers_abc_def (sink : Nat) :
    feed_units "abc\ndef\r\r\nghi".toList (capturing_manager sink [])
      = (capturing_manager sink "ghi".toList, [(sink, "abc".toList), (sink, "def".toList)]) := by
  rfl

theorem tolower_toupper (c : Char) : tolower (toupper c) = tolower c := by
  unfold toupper
  split
  · rename_i h
    have hc : c = Char.ofNat c.toNat := (Char.ofNat_toNat c).symm
    obtain ⟨h1, h2⟩ := h
    generalize c.toNat = n at *
    subst hc
    interval_cases n <;> decide
  · rfl

theorem tolower_tolower (c : Char) : tolower (tolower c) = tolower c := by
  unfold tolower
  split
  · rename_i h
    have hc : c = Char.ofNat c.toNat := (Char.ofNat_toNat c).symm
    obtain ⟨h1, h2⟩ := h
    generalize c.toNat = n at *
    subst hc
    interval_cases n <;> decide
  · simp [*]

theorem toupper_eq_dot (c : Char) : toupper c = '.' ↔ c = '.' := by
  unfold toupper
  split
  · rename_i h
    have hc : c = Char.ofNat c.toNat := (Char.ofNat_toNat c).symm
    obtain ⟨h1, h2⟩ := h
    generalize c.toNat = n at *
    subst hc
    interval_cases n <;> decide
  · rfl

theorem tolower_eq_dot (c : Char) : tolower c = '.' ↔ c = '.' := by
  unfold tolower
  split
  · rename_i h
    have hc : c = Char.ofNat c.toNat := (Char.ofNat_toNat c).symm
    obtain ⟨h1, h2⟩ := h
    generalize c.toNat = n at *
    subst hc
    interval_cases n <;> decide
  · rfl

theorem case_variant_tolower {c1 c2 : Char} (h : case_variant c1 c2) :
    tolower c2 = tolower c1 := by
  rcases h with h | h | h <;> subst h
  · rfl
  · exact tolower_toupper c1
  · exact tolower_tolower c1

theorem case_variant_dot {c1 c2 : Char} (h : case_variant c1 c2) :
    c2 = '.' ↔ c1 = '.' := by
  rcases h with h | h | h <;> subst h
  · rfl
  · exact toupper_eq_dot c1
  · exact tolower_eq_dot c1

theorem find_last_of_dot_none (f : std_string) :
    find_last_of f ['.'] = none ↔ '.' ∉ f := by
  induction f with
  | nil => simp [find_last_of]
  | cons x xs ih =>
    simp only [find_last_of]
    cases h : find_last_of xs ['.'] with
    | some i =>
      have : ¬ ('.' ∉ xs) := fun hn => by rw [ih.mpr hn] at h; cases h
      simp at this
      simp [this]
    | none =>
      have hx := ih.mp h
      by_cases hxd : x = '.'
      · simp [hxd]
      · simp [hxd, hx, Ne.symm hxd]

theorem find_last_of_dot_some (f : std_string) (i : Nat)
    (h : find_last_of f ['.'] = some i) :
    f = f.take i ++ '.' :: f.drop (i + 1) ∧ '.' ∉ f.drop (i + 1) := by
  induction f generalizing i with
  | nil => simp [find_last_of] at h
  | cons x xs ih =>
    simp only [find_last_of] at h
    cases h2 : find_last_of xs ['.'] with
    | some j =>
      rw [h2] at h
      simp at h
      subst h
      obtain ⟨e1, e2⟩ := ih j h2
      refine ⟨?_, ?_⟩
      · simp only [List.take_succ_cons, List.drop_succ_cons, List.cons_append]
        rw [← e1]
      · simpa using e2
    | none =>
      rw [h2] at h
      have hx := (find_last_of_dot_none xs).mp h2
      by_cases hxd : x = '.'
      · simp [hxd] at h
        subst h
        simp [hxd, hx]
      · simp [hxd] at h

theorem text_after_last_dot_split (pre suf : std_string) (h : '.' ∉ suf) :
    text_after_last_dot (pre ++ '.' :: suf) = suf := by
  unfold text_after_last_dot
  have hmem : '.' ∈ pre ++ '.' :: suf := by simp
  rw [if_pos hmem]
  have : (pre ++ '.' :: suf).reverse = suf.reverse ++ '.' :: pre.reverse := by simp
  rw [this, List.takeWhile_append_of_pos]
  · simp [List.takeWhile]
  · intro c hc
    have hc2 : c ∈ suf := List.mem_reverse.mp hc
    simp
    intro e; subst e; exact h hc2

theorem get_file_extension_eq (f : std_string) :
    get_file_extension f = text_after_last_dot f := by
  unfold get_file_extension
  cases h : find_last_of f ['.'] with
  | none =>
    have := (find_last_of_dot_none f).mp h
    simp [text_after_last_dot, this]
  | some i =>
    obtain ⟨e1, e2⟩ := find_last_of_dot_some f i h
    have e3 : text_after_last_dot f = f.drop (i + 1) := by
      conv_lhs => rw [e1]
      exact text_after_last_dot_split _ _ e2
    simp only
    split
    · exact e3.symm
    · rename_i hlt
      rw [e3]
      symm
      apply List.drop_eq_nil_of_le
      omega

theorem is_photo_file_iff (f : std_string) :
    is_photo_file f = true ↔ (text_after_last_dot f).map tolower ∈ photo_extensions := by
  simp [is_photo_file, photo_extensions, get_file_extension_eq, or_assoc]

theorem is_video_file_iff (f : std_string) :
    is_video_file f = true ↔ (text_after_last_dot f).map tolower ∈ video_extensions := by
  simp [is_video_file, video_extensions, get_file_extension_eq, or_assoc]

theorem text_after_last_dot_of_no_ext (f : std_string)
    (h : '.' ∉ f ∨ f.getLast? = some '.') : text_after_last_dot f = [] := by
  rcases h with h | h
  · simp [text_after_last_dot, h]
  · unfold text_after_last_dot
    split
    · rw [List.getLast?_eq_head?_reverse] at h
      cases hr : f.reverse with
      | nil => simp
      | cons a l =>
        rw [hr] at h
        simp at h
        subst h
        simp [List.takeWhile]
    · rfl

/-- C5: with `text_after_last_dot f` the text after the last `.` of `f`, `is_photo_file f`
holds exactly when its lower-cased form is on the photo allow-list and `is_video_file f`
exactly when it is on the video allow-list; a filename with no `.` or ending in `.` has an
empty extension and is neither a photo nor a video. -/
theorem C5_classification_by_extension (f : std_string) :
    (is_photo_file f = true ↔ (text_after_last_dot f).map tolower ∈ photo_extensions) ∧
    (is_video_file f = true ↔ (text_after_last_dot f).map tolower ∈ video_extensions) ∧
    (('.' ∉ f ∨ f.getLast? = some '.') →
      text_after_last_dot f = [] ∧ is_photo_file f = false ∧ is_video_file f = false) := by
  refine ⟨is_photo_file_iff f, is_video_file_iff f, ?_⟩
  intro h
  have he := text_after_last_dot_of_no_ext f h
  refine ⟨he, ?_, ?_⟩
  · rw [← Bool.not_eq_true, is_photo_file_iff, he]; decide
  · rw [← Bool.not_eq_true, is_video_file_iff, he]; decide

/-- C5 at `IMG_0001.` (empty extension). -/
theorem C5_classification_by_extension_witness :
    text_after_last_dot "IMG_0001.".toList = [] ∧ is_photo_file "IMG_0001.".toList = false ∧
      is_video_file "IMG_0001.".toList = false :=
  (C5_classification_by_extension "IMG_0001.".toList).2.2 (Or.inr (by decide))

theorem find_last_of_dot_case_variant {f g : std_string}
    (h : List.Forall₂ case_variant f g) :
    find_last_of g ['.'] = find_last_of f ['.'] := by
  induction h with
  | nil => rfl
  | cons hc _ ih =>
    simp only [find_last_of, ih]
    have := case_variant_dot hc
    simp [this]

theorem case_variant_map_drop {f g : std_string}
    (h : List.Forall₂ case_variant f g) (n : Nat) :
    (g.drop n).map tolower = (f.drop n).map tolower := by
  induction h generalizing n with
  | nil => simp
  | cons hc _ ih =>
    cases n with
    | zero =>
      simp only [List.drop_zero, List.map_cons]
      rw [case_variant_tolower hc]
      have := ih 0
      simp only [List.drop_zero] at this
      rw [this]
    | succ n => simpa using ih n

theorem get_file_extension_case_variant {f g : std_string}
    (h : List.Forall₂ case_variant f g) :
    (get_file_extension g).map tolower = (get_file_extension f).map tolower := by
  unfold get_file_extension
  rw [find_last_of_dot_case_variant h, h.length_eq]
  cases find_last_of f ['.'] with
  | none => rfl
  | some i =>
    simp only
    split
    · exact case_variant_map_drop h _
    · rfl

theorem case_variant_list_refl (f : std_string) : List.Forall₂ case_variant f f := by
  induction f with
  | nil => exact List.Forall₂.nil
  | cons c f ih => exact List.Forall₂.cons (Or.inl rfl) ih

/-- C6: changing the ASCII letter case of units of the extension does not change the
classification. If `ext2` is `ext1` with the case of any of its units changed, then
`pre ++ ext1` and `pre ++ ext2` are classified alike, for every `pre` (in particular for a
`pre` that ends with the last `.` of the filename). -/
theorem C6_case_insensitive (pre ext1 ext2 : std_string)
    (h : List.Forall₂ case_variant ext1 ext2) :
    is_photo_file (pre ++ ext1) = is_photo_file (pre ++ ext2) ∧
    is_video_file (pre ++ ext1) = is_video_file (pre ++ ext2) := by
  have hall : List.Forall₂ case_variant (pre ++ ext1) (pre ++ ext2) :=
    List.rel_append (case_variant_list_refl pre) h
  have he := get_file_extension_case_variant hall
  simp only [is_photo_file, is_video_file, he, and_self]

/-- C6 at `IMG_0001.JpG` against `IMG_0001.jpg`. -/
theorem C6_case_insensitive_witness :
    is_photo_file ("IMG_0001.".toList ++ "jpg".toList)
        = is_photo_file ("IMG_0001.".toList ++ "JpG".toList) ∧
    is_video_file ("IMG_0001.".toList ++ "jpg".toList)
        = is_video_file ("IMG_0001.".toList ++ "JpG".toList) :=
  C6_case_insensitive "IMG_0001.".toList "jpg".toList "JpG".toList
    (List.Forall₂.cons (Or.inr (Or.inl (by decide))) (List.Forall₂.cons (Or.inl rfl)
      (List.Forall₂.cons (Or.inr (Or.inl (by decide))) List.Forall₂.nil)))

/-- C4: while connected, `list_directory` returns the names the peer reported, without
`.` and `..` and otherwise in the peer's order (nothing when the peer left the list
null), so the result contains neither `.` nor `..`; when the peer reports an error the
result is empty. -/
theorem C4_list_directory_filters {σ : Type} (E : afc_env σ) (m : afc_manager)
    (path : std_string) (s : σ) (hc : m.afc_connected = true) :
    ((E.afc_read_directory s path).1.ret = AFC_E_SUCCESS →
      (list_directory E m path s).1 =
        (((E.afc_read_directory s path).1.list).getD []).filter
          (fun entry => entry ≠ ".".toList ∧ entry ≠ "..".toList)) ∧
    ((E.afc_read_directory s path).1.ret ≠ AFC_E_SUCCESS →
      (list_directory E m path s).1 = []) ∧
    ".".toList ∉ (list_directory E m path s).1 ∧
    "..".toList ∉ (list_directory E m path s).1 := by
  unfold list_directory
  simp only [hc, Bool.not_true, Bool.false_eq_true, if_false]
  by_cases hr : (E.afc_read_directory s path).1.ret = AFC_E_SUCCESS
  · simp only [hr, ne_eq, not_true_eq_false, if_false]
    cases hl : (E.afc_read_directory s path).1.list with
    | none => simp
    | some list => simp [List.mem_filter]
  · simp [hr]

/-- C4 on the sample device: `/DCIM` is reported with `.` and `..`. -/
theorem C4_list_directory_filters_witness :
    (list_directory sample_peer connected_afc "/DCIM".toList sample_store).1 =
        ((sample_dirs "/DCIM".toList).list.getD []).filter
          (fun entry => entry ≠ ".".toList ∧ entry ≠ "..".toList) ∧
    ".".toList ∉ (list_directory sample_peer connected_afc "/DCIM".toList sample_store).1 ∧
    "..".toList ∉ (list_directory sample_peer connected_afc "/DCIM".toList sample_store).1 :=
  ⟨(C4_list_directory_filters sample_peer connected_afc "/DCIM".toList sample_store rfl).1
      (by decide),
    (C4_list_directory_filters sample_peer connected_afc "/DCIM".toList sample_store rfl).2.2⟩

theorem string_lt_asymm (a b : std_string) (h : string_lt a b = true) :
    string_lt b a = false := by
  induction a generalizing b with
  | nil => cases b <;> simp [string_lt] at *
  | cons x xs ih =>
    cases b with
    | nil => simp [string_lt] at h
    | cons y ys =>
      simp only [string_lt] at h ⊢
      by_cases hxy : x < y
      · have hyx : ¬ y < x := lt_asymm hxy
        simp [hxy, hyx]
      · by_cases hyx : y < x
        · simp [hxy, hyx] at h
        · simp only [hxy, hyx, if_false] at h ⊢
          exact ih ys h

theorem ordered_insert_chain {α : Type} (comp : α → α → Bool)
    (hasymm : ∀ a b, comp a b = true → comp b a = false) (x : α) (l : List α)
    (h : List.Chain' (fun a b => comp b a = false) l) :
    List.Chain' (fun a b => comp b a = false) (ordered_insert comp x l) := by
  induction l with
  | nil => simp [ordered_insert]
  | cons y ys ih =>
    simp only [ordered_insert]
    by_cases hxy : comp x y = true
    · simp only [hxy, if_true]
      exact List.Chain'.cons (hasymm x y hxy) h
    · simp only [hxy, if_false]
      have ih2 := ih h.tail
      cases ys with
      | nil =>
        simp only [ordered_insert]
        exact List.Chain'.cons (by simpa using hxy) (List.chain'_singleton x)
      | cons z zs =>
        simp only [ordered_insert] at ih2 ⊢
        by_cases hxz : comp x z = true
        · simp only [hxz, if_true] at ih2 ⊢
          exact List.Chain'.cons (by simpa using hxy) ih2
        · simp only [hxz, if_false] at ih2 ⊢
          exact List.Chain'.cons (List.chain'_cons.mp h).1 ih2

theorem std_sort_chain {α : Type} (comp : α → α → Bool)
    (hasymm : ∀ a b, comp a b = true → comp b a = false) (l : List α) :
    List.Chain' (fun a b => comp b a = false) (std_sort comp l) := by
  induction l with
  | nil => simp [std_sort]
  | cons x xs ih =>
    simp only [std_sort, List.foldr_cons]
    exact ordered_insert_chain comp hasymm x _ ih

theorem ordered_insert_perm {α : Type} (comp : α → α → Bool) (x : α) (l : List α) :
    List.Perm (ordered_insert comp x l) (x :: l) := by
  induction l with
  | nil => simp [ordered_insert]
  | cons y ys ih =>
    simp only [ordered_insert]
    split
    · exact List.Perm.refl _
    · exact ((List.Perm.cons y ih).trans (List.Perm.swap x y ys))

theorem std_sort_perm {α : Type} (comp : α → α → Bool) (l : List α) :
    List.Perm (std_sort comp l) l := by
  induction l with
  | nil => simp [std_sort]
  | cons x xs ih =>
    simp only [std_sort, List.foldr_cons]
    exact (ordered_insert_perm comp x _).trans (List.Perm.cons x ih)

theorem std_sort_filename_chain (photos : List photo_info) :
    List.Chain' (fun a b => string_le a.filename b.filename = true)
      (std_sort filename_lt photos) := by
  have h := std_sort_chain filename_lt
    (fun a b hab => string_lt_asymm a.filename b.filename hab) photos
  refine List.Chain'.imp ?_ h
  intro a b hab
  simp only [filename_lt] at hab
  simp [string_le, hab]

/-- C7: whatever the peer reports and in whatever order, the sequence that
`list_all_photos` returns is non-decreasing by filename: every adjacent pair `a`, `b`
has `a.filename <= b.filename` (the filenames are compared, not the full paths). -/
theorem C7_list_all_photos_sorted {σ : Type} (E : afc_env σ) (pm : photo_manager)
    (fuel : Nat) (s s1 : σ) (photos : List photo_info)
    (h : list_all_photos E pm fuel s = Except.ok (photos, s1)) :
    List.Chain' (fun a b => string_le a.filename b.filename = true) photos := by
  unfold list_all_photos at h
  split at h
  · cases h; exact List.chain'_nil
  · split at h
    · cases h
    · cases h; exact std_sort_filename_chain _

/-- C7 on the sample device, whose scan meets `c.PNG`, `a.jpg`, `b.jpg` in that order. -/
theorem C7_list_all_photos_sorted_witness :
    List.Chain' (fun a b => string_le a.filename b.filename = true)
      [(⟨"a.jpg".toList, "/DCIM/100APPLE/a.jpg".toList, 3, "1700000000".toList,
          "jpg".toList⟩ : photo_info),
       ⟨"b.jpg".toList, "/DCIM/b.jpg".toList, 3, "1700000000".toList, "jpg".toList⟩,
       ⟨"c.PNG".toList, "/DCIM/100APPLE/c.PNG".toList, 3, "1700000000".toList,
          "PNG".toList⟩] :=
  C7_list_all_photos_sorted sample_peer connected_photo_manager 5 sample_store sample_store
    _ rfl

theorem parse_file_info_loop_full_path (list : List std_string) (info info1 : file_info)
    (h : parse_file_info_loop list info = Except.ok info1) :
    info1.full_path = info.full_path ∧ info1.filename = info.filename := by
  induction list, info using parse_file_info_loop.induct with
  | case1 info => simp [parse_file_info_loop] at h; subst h; exact ⟨rfl, rfl⟩
  | case2 _ info => simp [parse_file_info_loop] at h
  | case3 value rest info n hn ih =>
    simp only [parse_file_info_loop, hn, if_true] at h
    exact ih h
  | case4 value rest info e hn =>
    simp only [parse_file_info_loop, hn, if_true] at h
    cases h
  | case5 value rest info h1 ih =>
    simp only [parse_file_info_loop, h1, if_true, if_false] at h
    exact ih h
  | case6 value rest info h1 h2 ih =>
    simp only [parse_file_info_loop, h1, h2, if_true, if_false] at h
    exact ih h
  | case7 key value rest info h1 h2 h3 ih =>
    simp only [parse_file_info_loop, h1, h2, h3, if_true, if_false] at h
    exact ih h

theorem get_file_info_full_path {σ : Type} (E : afc_env σ) (m : afc_manager)
    (path : std_string) (s s1 : σ) (finfo : file_info)
    (h : get_file_info E m path s = Except.ok (finfo, s1)) :
    finfo.full_path = path := by
  unfold get_file_info at h
  split at h
  · cases h; rfl
  · dsimp only at h
    split at h
    · split at h
      · rename_i info hp
        cases h
        unfold parse_file_info at hp
        split at hp
        · exact (parse_file_info_loop_full_path _ _ _ hp).1
        · cases hp; rfl
      · cases h
    · cases h; rfl

theorem list_directory_mem {σ : Type} (E : afc_env σ) (m : afc_manager)
    (path : std_string) (s : σ) (entry : std_string)
    (h : entry ∈ (list_directory E m path s).1) :
    ∃ list, (E.afc_read_directory s path).1.list = some list ∧ entry ∈ list := by
  unfold list_directory at h
  split at h
  · simp at h
  · dsimp only at h
    split at h
    · simp at h
    · split at h
      · rename_i list hl
        exact ⟨list, hl, (List.mem_filter.mp h).1⟩
      · simp at h

theorem calls_added_refl (P : afc_call → Prop) (log : List afc_call) :
    calls_added P log log := fun _ hc => Or.inl hc

theorem calls_added_trans {P : afc_call → Prop} {l1 l2 l3 : List afc_call}
    (h12 : calls_added P l1 l2) (h23 : calls_added P l2 l3) : calls_added P l1 l3 := by
  intro c hc
  rcases h23 c hc with h | h
  · exact h12 c h
  · exact Or.inr h

theorem calls_added_snoc {P : afc_call → Prop} (log : List afc_call) (c : afc_call)
    (h : P c) : calls_added P log (log ++ [c]) := by
  intro d hd
  rcases List.mem_append.mp hd with h1 | h1
  · exact Or.inl h1
  · simp at h1; subst h1; exact Or.inr h

theorem traced_get_file_info_calls {σ : Type} (E : afc_env σ) (m : afc_manager)
    (path : std_string) (s s1 : σ × List afc_call) (finfo : file_info)
    (h : get_file_info E.traced m path s = Except.ok (finfo, s1)) :
    s1.2 = s.2 ∨ s1.2 = s.2 ++ [afc_call.get_file_info path] := by
  unfold get_file_info at h
  split at h
  · cases h; exact Or.inl rfl
  · dsimp only at h
    split at h
    · split at h
      · cases h; exact Or.inr rfl
      · cases h
    · cases h; exact Or.inr rfl

theorem traced_list_directory_calls {σ : Type} (E : afc_env σ) (m : afc_manager)
    (path : std_string) (s : σ × List afc_call) :
    (list_directory E.traced m path s).2.2 = s.2 ∨
    (list_directory E.traced m path s).2.2 = s.2 ++ [afc_call.read_directory path] := by
  unfold list_directory
  split
  · exact Or.inl rfl
  · dsimp only
    split
    · exact Or.inr rfl
    · split <;> exact Or.inr rfl

theorem traced_list_directory_mem {σ : Type} (E : afc_env σ) (m : afc_manager)
    (path : std_string) (s : σ × List afc_call) (entry : std_string)
    (h : entry ∈ (list_directory E.traced m path s).1) :
    ∃ list, (E.afc_read_directory s.1 path).1.list = some list ∧ entry ∈ list :=
  list_directory_mem E.traced m path s entry h

theorem list_videos_subentries_paths {σ : Type} (F : afc_env σ) (afc : afc_manager)
    (full_path : std_string) (subentries : List std_string) (videos videos1 : List photo_info)
    (s s1 : σ)
    (h : list_videos_subentries F afc full_path subentries videos s = Except.ok (videos1, s1)) :
    ∀ v ∈ videos1, v ∈ videos ∨
      ∃ sub ∈ subentries, v.full_path = full_path ++ "/".toList ++ sub := by
  induction subentries generalizing videos s with
  | nil =>
    simp only [list_videos_subentries] at h
    cases h
    intro v hv; exact Or.inl hv
  | cons subentry rest ih =>
    simp only [list_videos_subentries] at h
    split at h
    · split at h
      · cases h
      · rename_i vinfo s2 hg
        intro v hv
        rcases ih _ _ h v hv with h1 | ⟨sub, hsub, hp⟩
        · rcases List.mem_append.mp h1 with h2 | h2
          · exact Or.inl h2
          · simp only [List.mem_singleton] at h2
            subst h2
            refine Or.inr ⟨subentry, List.mem_cons_self _ _, ?_⟩
            exact get_file_info_full_path F afc _ s s2 vinfo hg
        · exact Or.inr ⟨sub, List.mem_cons_of_mem _ hsub, hp⟩
    · intro v hv
      rcases ih _ _ h v hv with h1 | ⟨sub, hsub, hp⟩
      · exact Or.inl h1
      · exact Or.inr ⟨sub, List.mem_cons_of_mem _ hsub, hp⟩

theorem list_videos_entries_paths {σ : Type} (F : afc_env σ) (afc : afc_manager)
    (hnames : ∀ (s : σ) (path : std_string) (list : List std_string),
      (F.afc_read_directory s path).1.list = some list → ∀ e ∈ list, '/' ∉ e)
    (entries : List std_string) (videos videos1 : List photo_info) (s s1 : σ)
    (h : list_videos_entries F afc entries videos s = Except.ok (videos1, s1)) :
    ∀ v ∈ videos1, v ∈ videos ∨
      (∃ entry ∈ entries, v.full_path = "/DCIM/".toList ++ entry) ∨
      (∃ entry ∈ entries, ∃ sub, '/' ∉ sub ∧
        v.full_path = "/DCIM/".toList ++ entry ++ "/".toList ++ sub) := by
  induction entries generalizing videos s with
  | nil =>
    simp only [list_videos_entries] at h
    cases h
    intro v hv; exact Or.inl hv
  | cons entry rest ih =>
    have lift : ∀ (vs : List photo_info) (v : photo_info),
        (v ∈ vs ∨ (∃ e ∈ rest, v.full_path = "/DCIM/".toList ++ e) ∨
          (∃ e ∈ rest, ∃ sub, '/' ∉ sub ∧
            v.full_path = "/DCIM/".toList ++ e ++ "/".toList ++ sub)) →
        (v ∈ vs ∨ (∃ e ∈ entry :: rest, v.full_path = "/DCIM/".toList ++ e) ∨
          (∃ e ∈ entry :: rest, ∃ sub, '/' ∉ sub ∧
            v.full_path = "/DCIM/".toList ++ e ++ "/".toList ++ sub)) := by
      intro vs v hv
      rcases hv with h1 | ⟨e, he, hp⟩ | ⟨e, he, hp⟩
      · exact Or.inl h1
      · exact Or.inr (Or.inl ⟨e, List.mem_cons_of_mem _ he, hp⟩)
      · exact Or.inr (Or.inr ⟨e, List.mem_cons_of_mem _ he, hp⟩)
    simp only [list_videos_entries] at h
    split at h
    · cases h
    · rename_i finfo s2 hg
      split at h
      · split at h
        · cases h
        · rename_i videos2 s3 hsub
          intro v hv
          rcases lift _ v (ih _ _ h v hv) with h1 | h1
          · rcases list_videos_subentries_paths F afc _ _ _ _ _ _ hsub v h1 with h2 | ⟨sub, hs, hp⟩
            · exact Or.inl h2
            · obtain ⟨list, hl, hmem⟩ := list_directory_mem F afc _ _ sub hs
              exact Or.inr (Or.inr ⟨entry, List.mem_cons_self _ _, sub,
                hnames _ _ list hl sub hmem, hp⟩)
          · exact Or.inr h1
      · split at h
        · intro v hv
          rcases lift _ v (ih _ _ h v hv) with h1 | h1
          · rcases List.mem_append.mp h1 with h2 | h2
            · exact Or.inl h2
            · simp only [List.mem_singleton] at h2
              subst h2
              exact Or.inr (Or.inl ⟨entry, List.mem_cons_self _ _,
                get_file_info_full_path F afc _ s s2 finfo hg⟩)
          · exact Or.inr h1
        · intro v hv
          exact lift _ v (ih _ _ h v hv)

theorem list_videos_subentries_calls {σ : Type} (E : afc_env σ) (afc : afc_manager)
    (full_path : std_string) (subentries : List std_string) (videos videos1 : List photo_info)
    (s s1 : σ × List afc_call)
    (h : list_videos_subentries E.traced afc full_path subentries videos s
      = Except.ok (videos1, s1)) :
    calls_added list_videos_call s.2 s1.2 := by
  induction subentries generalizing videos s with
  | nil =>
    simp only [list_videos_subentries] at h
    cases h
    exact calls_added_refl _ _
  | cons subentry rest ih =>
    simp only [list_videos_subentries] at h
    split at h
    · split at h
      · cases h
      · rename_i vinfo s2 hg
        refine calls_added_trans ?_ (ih _ _ h)
        rcases traced_get_file_info_calls E afc _ s s2 vinfo hg with e | e
        · rw [e]; exact calls_added_refl _ _
        · rw [e]; exact calls_added_snoc _ _ trivial
    · exact ih _ _ h

theorem list_videos_entries_calls {σ : Type} (E : afc_env σ) (afc : afc_manager)
    (entries : List std_string) (hentries : ∀ e ∈ entries, '/' ∉ e)
    (videos videos1 : List photo_info) (s s1 : σ × List afc_call)
    (h : list_videos_entries E.traced afc entries videos s = Except.ok (videos1, s1)) :
    calls_added list_videos_call s.2 s1.2 := by
  induction entries generalizing videos s with
  | nil =>
    simp only [list_videos_entries] at h
    cases h
    exact calls_added_refl _ _
  | cons entry rest ih =>
    have hrest : ∀ e ∈ rest, '/' ∉ e := fun e he => hentries e (List.mem_cons_of_mem _ he)
    simp only [list_videos_entries] at h
    split at h
    · cases h
    · rename_i finfo s2 hg
      have hstat : calls_added list_videos_call s.2 s2.2 := by
        rcases traced_get_file_info_calls E afc _ s s2 finfo hg with e | e
        · rw [e]; exact calls_added_refl _ _
        · rw [e]; exact calls_added_snoc _ _ trivial
      split at h
      · split at h
        · cases h
        · rename_i videos2 s3 hsub
          have hlist : calls_added list_videos_call s2.2
              (list_directory E.traced afc ("/DCIM/".toList ++ entry) s2).2.2 := by
            rcases traced_list_directory_calls E afc ("/DCIM/".toList ++ entry) s2 with e | e
            · rw [e]; exact calls_added_refl _ _
            · rw [e]
              exact calls_added_snoc _ _
                (Or.inr ⟨entry, hentries entry (List.mem_cons_self _ _), rfl⟩)
          exact calls_added_trans hstat (calls_added_trans hlist
            (calls_added_trans (list_videos_subentries_calls E afc _ _ _ _ _ _ hsub)
              (ih hrest _ _ h)))
      · split at h
        · exact calls_added_trans hstat (ih hrest _ _ h)
        · exact calls_added_trans hstat (ih hrest _ _ h)

theorem count_slash_of_not_mem (name : std_string) (h : '/' ∉ name) :
    List.count '/' name = 0 := List.count_eq_zero.mpr h

/-- C8: `list_videos` does not go deeper than two levels. For every peer whose entry
names contain no `/`, every record returned has the full path `/DCIM/<name>` or
`/DCIM/<dir>/<name>` (so at most three `/`: a video three or more levels below `/DCIM` is
never returned), and the only directories it asks the peer to list are `/DCIM` and
immediate children of `/DCIM`. The calls are those recorded by `E.traced`, started from
an empty record. -/
theorem C8_list_videos_depth_bound {σ : Type} (E : afc_env σ) (pm : photo_manager) (s : σ)
    (videos : List photo_info) (s1 : σ × List afc_call)
    (hnames : ∀ (s : σ) (path : std_string) (list : List std_string),
      (E.afc_read_directory s path).1.list = some list → ∀ e ∈ list, '/' ∉ e)
    (h : list_videos E.traced pm (s, []) = Except.ok (videos, s1)) :
    (∀ v ∈ videos,
      (∃ name, '/' ∉ name ∧ v.full_path = "/DCIM/".toList ++ name) ∨
      (∃ dir name, '/' ∉ dir ∧ '/' ∉ name ∧
        v.full_path = "/DCIM/".toList ++ dir ++ "/".toList ++ name)) ∧
    (∀ v ∈ videos, List.count '/' v.full_path ≤ 3) ∧
    (∀ p, afc_call.read_directory p ∈ s1.2 →
      p = "/DCIM".toList ∨ ∃ entry, '/' ∉ entry ∧ p = "/DCIM/".toList ++ entry) := by
  have hnamesT : ∀ (s : σ × List afc_call) (path : std_string) (list : List std_string),
      (E.traced.afc_read_directory s path).1.list = some list → ∀ e ∈ list, '/' ∉ e :=
    fun s path list hl => hnames s.1 path list hl
  unfold list_videos at h
  have hshape : ∀ v ∈ videos,
      (∃ name, '/' ∉ name ∧ v.full_path = "/DCIM/".toList ++ name) ∨
      (∃ dir name, '/' ∉ dir ∧ '/' ∉ name ∧
        v.full_path = "/DCIM/".toList ++ dir ++ "/".toList ++ name) := by
    split at h
    · cases h; intro v hv; cases hv
    · rename_i afc _
      split at h
      · cases h; intro v hv; cases hv
      · dsimp only at h
        split at h
        · cases h
        · rename_i videos0 s2 hl
          cases h
          intro v hv
          have hv0 : v ∈ videos0 := (std_sort_perm filename_lt videos0).mem_iff.mp hv
          have hent : ∀ e ∈ (list_directory E.traced afc "/DCIM".toList (s, [])).1, '/' ∉ e := by
            intro e he
            obtain ⟨list, hl1, hm⟩ := list_directory_mem E.traced afc _ _ e he
            exact hnamesT _ _ list hl1 e hm
          rcases list_videos_entries_paths E.traced afc hnamesT _ _ _ _ _ hl v hv0 with
            h1 | ⟨e, he, hp⟩ | ⟨e, he, sub, hsub, hp⟩
          · cases h1
          · exact Or.inl ⟨e, hent e he, hp⟩
          · exact Or.inr ⟨e, sub, hent e he, hsub, hp⟩
  refine ⟨hshape, ?_, ?_⟩
  · intro v hv
    rcases hshape v hv with ⟨name, hn, hp⟩ | ⟨dir, name, hd, hn, hp⟩
    · rw [hp, List.count_append, count_slash_of_not_mem name hn]
      decide
    · rw [hp, List.count_append, List.count_append, List.count_append,
        count_slash_of_not_mem name hn, count_slash_of_not_mem dir hd]
      decide
  · intro p hp
    have hcalls : calls_added list_videos_call [] s1.2 := by
      split at h
      · cases h; exact calls_added_refl _ _
      · rename_i afc _
        split at h
        · cases h; exact calls_added_refl _ _
        · dsimp only at h
          split at h
          · cases h
          · rename_i videos0 s2 hl
            cases h
            have hent : ∀ e ∈ (list_directory E.traced afc "/DCIM".toList (s, [])).1,
                '/' ∉ e := by
              intro e he
              obtain ⟨list, hl1, hm⟩ := list_directory_mem E.traced afc _ _ e he
              exact hnamesT _ _ list hl1 e hm
            have hfirst : calls_added list_videos_call []
                (list_directory E.traced afc "/DCIM".toList (s, [])).2.2 := by
              rcases traced_list_directory_calls E afc "/DCIM".toList (s, []) with e | e
              · rw [e]; exact calls_added_refl _ _
              · rw [e]; exact calls_added_snoc _ _ (Or.inl rfl)
            exact calls_added_trans hfirst
              (list_videos_entries_calls E afc _ hent _ _ _ _ hl)
    rcases hcalls _ hp with h1 | h1
    · cases h1
    · exact h1

theorem sample_dirs_names (s : store) (path : std_string) (list : List std_string)
    (hl : (sample_peer.afc_read_directory s path).1.list = some list) :
    ∀ e ∈ list, '/' ∉ e := by
  simp only [sample_peer, faithful_peer, sample_dirs] at hl
  split at hl
  · cases hl; decide
  · split at hl
    · cases hl; decide
    · split at hl
      · cases hl; decide
      · cases hl

/-- C8 on the sample device, which has the video `far.mov` three levels below `/DCIM`:
the two videos returned sit one and two levels below `/DCIM`, and `/DCIM/100APPLE/deep`
is not listed. -/
theorem C8_list_videos_depth_bound_witness :
    (List.count '/' "/DCIM/100APPLE/clip.mp4".toList ≤ 3 ∧
      List.count '/' "/DCIM/top.mov".toList ≤ 3) ∧
    ("/DCIM/100APPLE".toList = "/DCIM".toList ∨
      ∃ entry, '/' ∉ entry ∧ "/DCIM/100APPLE".toList = "/DCIM/".toList ++ entry) :=
  have h := C8_list_videos_depth_bound sample_peer connected_photo_manager sample_store
    [⟨"clip.mp4".toList, "/DCIM/100APPLE/clip.mp4".toList, 3, "1700000000".toList,
        "mp4".toList⟩,
     ⟨"top.mov".toList, "/DCIM/top.mov".toList, 3, "1700000000".toList, "mov".toList⟩]
    (sample_store,
      [afc_call.read_directory "/DCIM".toList,
       afc_call.get_file_info "/DCIM/100APPLE".toList,
       afc_call.read_directory "/DCIM/100APPLE".toList,
       afc_call.get_file_info "/DCIM/100APPLE/clip.mp4".toList,
       afc_call.get_file_info "/DCIM/b.jpg".toList,
       afc_call.get_file_info "/DCIM/top.mov".toList])
    sample_dirs_names rfl
  ⟨⟨h.2.1 _ (List.mem_cons_self _ _), h.2.1 _ (List.mem_cons_of_mem _ (List.mem_cons_self _ _))⟩,
    h.2.2 _ (by decide)⟩

theorem download_attempts_append (l1 l2 : List afc_call) :
    download_attempts (l1 ++ l2) = download_attempts l1 ++ download_attempts l2 := by
  simp [download_attempts, List.filterMap_append]

theorem traced_get_file_info_attempts {σ : Type} (E : afc_env σ) (m : afc_manager)
    (path : std_string) (s s1 : σ × List afc_call) (finfo : file_info)
    (h : get_file_info E.traced m path s = Except.ok (finfo, s1)) :
    download_attempts s1.2 = download_attempts s.2 := by
  rcases traced_get_file_info_calls E m path s s1 finfo h with e | e
  · rw [e]
  · rw [e, download_attempts_append]; simp [download_attempts]

theorem traced_list_directory_attempts {σ : Type} (E : afc_env σ) (m : afc_manager)
    (path : std_string) (s : σ × List afc_call) :
    download_attempts (list_directory E.traced m path s).2.2 = download_attempts s.2 := by
  rcases traced_list_directory_calls E m path s with e | e
  · rw [e]
  · rw [e, download_attempts_append]; simp [download_attempts]

theorem scan_for_photos_loop_attempts {σ : Type} (E : afc_env σ) (afc : afc_manager)
    (recurse : std_string → List photo_info → σ × List afc_call →
      Except fault (List photo_info × (σ × List afc_call)))
    (hrec : ∀ path photos s photos1 s1, recurse path photos s = Except.ok (photos1, s1) →
      download_attempts s1.2 = download_attempts s.2)
    (path : std_string) (entries : List std_string) (photos photos1 : List photo_info)
    (s s1 : σ × List afc_call)
    (h : scan_for_photos_loop E.traced afc recurse path entries photos s
      = Except.ok (photos1, s1)) :
    download_attempts s1.2 = download_attempts s.2 := by
  induction entries generalizing photos s with
  | nil =>
    simp only [scan_for_photos_loop] at h
    cases h; rfl
  | cons entry rest ih =>
    simp only [scan_for_photos_loop] at h
    split at h
    · cases h
    · try dsimp only at h
      split at h
      · cases h
      · rename_i finfo s2 hg
        have e1 := traced_get_file_info_attempts E afc _ s s2 finfo hg
        split at h
        · split at h
          · cases h
          · rename_i photos2 s3 hr
            rw [ih _ _ h, hrec _ _ _ _ _ hr, e1]
        · split at h
          · rw [ih _ _ h, e1]
          · rw [ih _ _ h, e1]

theorem scan_for_photos_attempts {σ : Type} (E : afc_env σ) (pm : photo_manager)
    (fuel : Nat) (path : std_string) (photos photos1 : List photo_info)
    (s s1 : σ × List afc_call)
    (h : scan_for_photos E.traced pm fuel path photos s = Except.ok (photos1, s1)) :
    download_attempts s1.2 = download_attempts s.2 := by
  induction fuel generalizing path photos photos1 s s1 with
  | zero => simp [scan_for_photos] at h
  | succ fuel ih =>
    simp only [scan_for_photos] at h
    split at h
    · cases h; rfl
    · rename_i afc _
      split at h
      · cases h; rfl
      · try dsimp only at h
        rw [scan_for_photos_loop_attempts E afc _ (fun p ph s ph1 s1 hh => ih p ph ph1 s s1 hh)
          _ _ _ _ _ _ h]
        exact traced_list_directory_attempts E afc path s

theorem list_all_photos_attempts {σ : Type} (E : afc_env σ) (pm : photo_manager)
    (fuel : Nat) (photos : List photo_info) (s s1 : σ × List afc_call)
    (h : list_all_photos E.traced pm fuel s = Except.ok (photos, s1)) :
    download_attempts s1.2 = download_attempts s.2 := by
  unfold list_all_photos at h
  split at h
  · cases h; rfl
  · split at h
    · cases h
    · rename_i photos0 s2 hs
      cases h
      exact scan_for_photos_attempts E pm fuel _ _ _ _ _ hs

theorem list_all_photos_connected {σ : Type} (E : afc_env σ) (pm : photo_manager)
    (fuel : Nat) (photos : List photo_info) (s s1 : σ)
    (h : list_all_photos E pm fuel s = Except.ok (photos, s1)) (hne : photos ≠ []) :
    pm.is_connected = true := by
  unfold list_all_photos at h
  split at h
  · cases h; exact absurd rfl hne
  · rename_i hc
    simpa using hc

theorem download_loop_attempts {σ : Type} (E : afc_env σ) (handle : Nat)
    (destination_path : std_string) (fuel : Nat) (s s1 : σ × List afc_call) (r : Bool)
    (h : download_loop E.traced handle destination_path fuel s = Except.ok (r, s1)) :
    download_attempts s1.2 = download_attempts s.2 := by
  induction fuel generalizing s with
  | zero => simp [download_loop] at h
  | succ fuel ih =>
    simp only [download_loop] at h
    split at h
    · cases h
      simp [afc_env.traced, download_attempts_append, download_attempts]
    · split at h
      · cases h
        simp [afc_env.traced, download_attempts_append, download_attempts]
      · split at h
        · cases h
          simp [afc_env.traced, download_attempts_append, download_attempts]
        · rw [ih _ h]
          simp [afc_env.traced, download_attempts_append, download_attempts]

theorem download_file_attempts {σ : Type} (E : afc_env σ) (m : afc_manager) (fuel : Nat)
    (source_path destination_path : std_string) (s s1 : σ × List afc_call) (r : Bool)
    (hc : m.afc_connected = true)
    (h : download_file E.traced m fuel source_path destination_path s = Except.ok (r, s1)) :
    download_attempts s1.2 = download_attempts s.2 ++ [source_path] := by
  unfold download_file at h
  simp only [hc, Bool.not_true, Bool.false_eq_true, if_false] at h
  split at h
  · cases h
    simp [afc_env.traced, download_attempts_append, download_attempts]
  · split at h
    · cases h
      simp [afc_env.traced, download_attempts_append, download_attempts]
    · split at h
      · cases h
      · rename_i success s2 hl
        cases h
        have := download_loop_attempts E _ _ _ _ _ _ hl
        simp only [afc_env.traced, download_attempts_append] at this ⊢
        rw [this]
        simp [download_attempts]

theorem download_photo_attempts {σ : Type} (E : afc_env σ) (pm : photo_manager) (fuel : Nat)
    (photo_path destination : std_string) (s s1 : σ × List afc_call) (r : Bool)
    (hc : pm.is_connected = true)
    (h : download_photo E.traced pm fuel photo_path destination s = Except.ok (r, s1)) :
    download_attempts s1.2 = download_attempts s.2 ++ [photo_path] := by
  unfold download_photo at h
  unfold photo_manager.is_connected at hc
  split at h
  · simp_all
  · rename_i afc hafc
    simp only [hafc, afc_manager.is_connected] at hc
    simp only [afc_manager.is_connected, hc, Bool.not_true, Bool.false_eq_true, if_false] at h
    exact download_file_attempts E afc fuel _ _ _ _ r hc h

theorem download_all_photos_loop_spec {σ : Type} (E : afc_env σ) (pm : photo_manager)
    (fuel : Nat) (destination_folder : std_string) (photos : List photo_info)
    (counts counts1 : Nat × Nat) (s s1 : σ × List afc_call)
    (hc : pm.is_connected = true)
    (h : download_all_photos_loop E.traced pm fuel destination_folder photos counts s
      = Except.ok (counts1, s1)) :
    counts1.1 + counts1.2 = counts.1 + counts.2 + photos.length ∧
    download_attempts s1.2 =
      download_attempts s.2 ++ photos.map (fun photo => photo.full_path) := by
  induction photos generalizing counts s with
  | nil =>
    simp only [download_all_photos_loop] at h
    cases h
    simp
  | cons photo rest ih =>
    simp only [download_all_photos_loop] at h
    split at h
    · cases h
    · try dsimp only at h
      split at h
      · cases h
      · rename_i s2 hd
        obtain ⟨e1, e2⟩ := ih _ _ h
        have e3 := download_photo_attempts E pm fuel _ _ _ _ _ hc hd
        refine ⟨?_, ?_⟩
        · simp only [List.length_cons] at e1 ⊢; omega
        · rw [e2, e3]; simp
      · rename_i s2 hd
        obtain ⟨e1, e2⟩ := ih _ _ h
        have e3 := download_photo_attempts E pm fuel _ _ _ _ _ hc hd
        refine ⟨?_, ?_⟩
        · simp only [List.length_cons] at e1 ⊢; omega
        · rw [e2, e3]; simp

/-- C9: for a non-empty destination folder, a completed `download_all_photos` has
attempted exactly one download for each entry of the list that `list_all_photos` returned
at invocation, in list order and whatever the outcome of the downloads before (the
attempts on record are the earlier ones followed by the full paths of that list), and
`success_count + fail_count` is the length of that list. The calls are those recorded by
`E.traced`. -/
theorem C9_one_attempt_per_photo {σ : Type} (E : afc_env σ) (pm : photo_manager)
    (fuel : Nat) (destination_folder : std_string) (s s1 s2 : σ × List afc_call)
    (photos : List photo_info) (summary : download_summary)
    (hdest : destination_folder ≠ [])
    (hlist : list_all_photos E.traced pm fuel s = Except.ok (photos, s1))
    (hdone : download_all_photos E.traced pm fuel destination_folder s
      = Except.ok (summary, s2)) :
    download_attempts s2.2 =
      download_attempts s.2 ++ photos.map (fun photo => photo.full_path) ∧
    summary.success_count + summary.fail_count = photos.length := by
  have _ := hdest
  unfold download_all_photos at hdone
  rw [hlist] at hdone
  try dsimp only at hdone
  have e0 := list_all_photos_attempts E pm fuel photos s s1 hlist
  split at hdone
  · rename_i hempty
    cases hdone
    have : photos = [] := by simpa using hempty
    subst this
    simp [e0]
  · rename_i hne
    have hne2 : photos ≠ [] := by
      intro e; subst e; simp at hne
    have hc := list_all_photos_connected E.traced pm fuel photos s s1 hlist hne2
    split at hdone
    · cases hdone
    · rename_i counts s3 hl
      cases hdone
      obtain ⟨e1, e2⟩ := download_all_photos_loop_spec E pm fuel _ _ _ _ _ _ hc hl
      refine ⟨by rw [e2, e0], ?_⟩
      simpa using e1

/-- C9 on the sample device: three photos listed, three attempts in list order, the
first and the third of which fail. -/
theorem C9_one_attempt_per_photo_witness :
    download_attempts sample_download_log =
      download_attempts [] ++ sample_photos.map (fun photo => photo.full_path) ∧
    (download_summary.mk false 1 2).success_count + (download_summary.mk false 1 2).fail_count
      = sample_photos.length :=
  C9_one_attempt_per_photo sample_peer connected_photo_manager 5 "out".toList
    (sample_store, []) (sample_store, sample_listing_log) (_, sample_download_log)
    sample_photos (download_summary.mk false 1 2) (by decide) rfl rfl

theorem download_all_photos_loop_outcomes {σ : Type} (E : afc_env σ) (pm : photo_manager)
    (fuel : Nat) (destination_folder : std_string) (photos : List photo_info)
    (counts counts1 : Nat × Nat) (s s1 : σ)
    (h : download_all_photos_loop E pm fuel destination_folder photos counts s
      = Except.ok (counts1, s1)) :
    ∃ outcomes, download_outcomes E pm fuel destination_folder photos s
        = Except.ok (outcomes, s1) ∧
      outcomes.length = photos.length ∧
      counts1.1 = counts.1 + outcomes.count true ∧
      counts1.2 = counts.2 + outcomes.count false := by
  induction photos generalizing counts s with
  | nil =>
    simp only [download_all_photos_loop] at h
    cases h
    exact ⟨[], rfl, rfl, rfl, rfl⟩
  | cons photo rest ih =>
    simp only [download_all_photos_loop] at h
    split at h
    · cases h
    · rename_i back hback
      have hpath : (if back ≠ '/' ∧ back ≠ '\\' then destination_folder ++ "/".toList
            else destination_folder) ++ photo.filename
          = destination_folder ++ (if back = '/' ∨ back = '\\' then [] else "/".toList)
              ++ photo.filename := by
        by_cases h1 : back = '/'
        · simp [h1]
        · by_cases h2 : back = '\\'
          · simp [h2]
          · simp [h1, h2]
      rw [hpath] at h
      split at h
      · cases h
      · rename_i s2 hd
        obtain ⟨outcomes, e1, e2, e3, e4⟩ := ih _ _ h
        refine ⟨true :: outcomes, ?_, ?_, ?_, ?_⟩
        · simp only [download_outcomes, hback, hd, e1]
        · simp [e2]
        · rw [e3, List.count_cons_self]; omega
        · simp [e4]
      · rename_i s2 hd
        obtain ⟨outcomes, e1, e2, e3, e4⟩ := ih _ _ h
        refine ⟨false :: outcomes, ?_, ?_, ?_, ?_⟩
        · simp only [download_outcomes, hback, hd, e1]
        · simp [e2]
        · simp [e3]
        · rw [e4, List.count_cons_self]; omega

/-- C10: a completed `download_all_photos` returns true exactly when none of the
individual downloads failed: the downloads it made are those of `download_outcomes` on
the list that `list_all_photos` returned, its tallies count their outcomes, and the
result is true iff no outcome is false (iff `fail_count` is `0`). When `list_all_photos`
yields the empty list it returns true and leaves the environment as the listing left it,
so no download is attempted; for a manager that is not connected it returns true without
any call to the environment. -/
theorem C10_result_iff_no_failure {σ : Type} (E : afc_env σ) (pm : photo_manager)
    (fuel : Nat) (destination_folder : std_string) (s : σ) :
    (∀ (photos : List photo_info) (s1 s2 : σ) (summary : download_summary),
      list_all_photos E pm fuel s = Except.ok (photos, s1) →
      download_all_photos E pm fuel destination_folder s = Except.ok (summary, s2) →
      (∃ outcomes, download_outcomes E pm fuel destination_folder photos s1
          = Except.ok (outcomes, s2) ∧
        outcomes.length = photos.length ∧
        summary.success_count = outcomes.count true ∧
        summary.fail_count = outcomes.count false ∧
        (summary.result = true ↔ false ∉ outcomes)) ∧
      (summary.result = true ↔ summary.fail_count = 0)) ∧
    (∀ s1 : σ, list_all_photos E pm fuel s = Except.ok ([], s1) →
      download_all_photos E pm fuel destination_folder s
        = Except.ok (download_summary.mk true 0 0, s1)) ∧
    (pm.is_connected = false →
      download_all_photos E pm fuel destination_folder s
        = Except.ok (download_summary.mk true 0 0, s)) := by
  have hempty : ∀ s1 : σ, list_all_photos E pm fuel s = Except.ok ([], s1) →
      download_all_photos E pm fuel destination_folder s
        = Except.ok (download_summary.mk true 0 0, s1) := by
    intro s1 hlist
    unfold download_all_photos
    rw [hlist]
    rfl
  refine ⟨?_, hempty, ?_⟩
  · intro photos s1 s2 summary hlist hdone
    unfold download_all_photos at hdone
    rw [hlist] at hdone
    dsimp only at hdone
    split at hdone
    · rename_i hemp
      cases hdone
      have : photos = [] := by simpa using hemp
      subst this
      exact ⟨⟨[], rfl, rfl, rfl, rfl, by simp⟩, by simp⟩
    · split at hdone
      · cases hdone
      · rename_i counts s3 hl
        cases hdone
        obtain ⟨outcomes, e1, e2, e3, e4⟩ :=
          download_all_photos_loop_outcomes E pm fuel _ _ _ _ _ _ hl
        simp only [Nat.zero_add] at e3 e4
        refine ⟨⟨outcomes, e1, e2, e3, e4, ?_⟩, by simp⟩
        simp only [beq_iff_eq, e4, List.count_eq_zero]
  · intro hc
    apply hempty
    unfold list_all_photos
    simp only [hc, Bool.not_false, if_true]

/-- C10 on the sample device: two of the three downloads fail and the result is false. -/
theorem C10_result_iff_no_failure_witness :
    ((download_summary.mk false 1 2).result = true ↔
      (download_summary.mk false 1 2).fail_count = 0) :=
  ((C10_result_iff_no_failure sample_peer connected_photo_manager 5 "out".toList
    sample_store).1 sample_photos sample_store _ (download_summary.mk false 1 2) rfl rfl).2

theorem take_append_drop_length {α : Type} (l : List α) (n : Nat) :
    l.take n ++ l.drop (l.take n).length = l := by
  by_cases h : n ≤ l.length
  · rw [List.length_take, Nat.min_eq_left h, List.take_append_drop]
  · have h2 : l.length ≤ n := by omega
    rw [List.take_of_length_le h2, List.drop_length, List.append_nil]

theorem set_at_same {κ : Type} [DecidableEq κ] {α : Type} (f : κ → α) (k : κ) (v : α) :
    set_at f k v k = v := by
  simp [set_at]

theorem upload_loop_faithful (serve : Nat → Nat) (dirs stats : std_string → afc_list_reply)
    (handle : Nat) (path : std_string) (fuel : Nat) (rest acc : List UInt8) (s : store)
    (off : Nat) (hh : s.handles handle = some (path, off))
    (hf : s.remote_files path = some acc) (hfuel : rest.length < fuel) :
    ∃ s1, upload_loop (faithful_peer serve dirs stats) handle fuel rest s = (true, s1) ∧
      s1.remote_files path = some (acc ++ rest) ∧ s1.local_files = s.local_files ∧
      s1.next_handle = s.next_handle := by
  induction fuel generalizing rest acc s with
  | zero => omega
  | succ fuel ih =>
    unfold upload_loop
    by_cases hrest : rest = []
    · subst hrest
      refine ⟨s, ?_, ?_, rfl, rfl⟩
      · simp
      · simpa using hf
    · have hpos : 0 < (rest.take 8192).length := by
        rw [List.length_take]
        have : 0 < rest.length := List.length_pos.mpr hrest
        omega
      have hcond : (rest.take 8192).length = 8192 ∨ (rest.take 8192).length > 0 :=
        Or.inr hpos
      simp only [hcond, if_true]
      have hw : (faithful_peer serve dirs stats).afc_file_write s handle (rest.take 8192)
          = ((AFC_E_SUCCESS, (rest.take 8192).length),
              { s with remote_files :=
                  set_at s.remote_files path (some (acc ++ rest.take 8192)) }) := by
        simp only [faithful_peer, hh, hf]
      rw [hw]
      simp only [ne_eq, not_true_eq_false, or_self, if_false]
      have hlen : (rest.drop 8192).length < fuel := by
        rw [List.length_drop]
        have : 0 < rest.length := List.length_pos.mpr hrest
        omega
      obtain ⟨s1, e1, e2, e3, e4⟩ := ih (rest.drop 8192) (acc ++ rest.take 8192)
        { s with remote_files := set_at s.remote_files path (some (acc ++ rest.take 8192)) }
        hh (set_at_same _ _ _) hlen
      refine ⟨s1, e1, ?_, e3, e4⟩
      rw [e2, List.append_assoc, List.take_append_drop]

theorem download_loop_faithful (serve : Nat → Nat) (dirs stats : std_string → afc_list_reply)
    (handle : Nat) (path dst : std_string) (fuel : Nat) (content acc : List UInt8) (s : store)
    (off : Nat) (hh : s.handles handle = some (path, off))
    (hf : s.remote_files path = some content) (hl : s.local_files dst = some acc)
    (hfuel : content.length - off < fuel) :
    ∃ s1, download_loop (faithful_peer serve dirs stats) handle dst fuel s
        = Except.ok (true, s1) ∧
      s1.local_files dst = some (acc ++ content.drop off) := by
  induction fuel generalizing acc s off with
  | zero => omega
  | succ fuel ih =>
    unfold download_loop
    obtain ⟨bytes, hbytes⟩ : ∃ bytes, bytes =
      (content.drop off).take (min (max 1 (serve off)) 8192) := ⟨_, rfl⟩
    obtain ⟨sr, hsr⟩ : ∃ sr : store, sr =
      { s with handles := set_at s.handles handle (some (path, off + bytes.length)) } :=
      ⟨_, rfl⟩
    have hr : (faithful_peer serve dirs stats).afc_file_read s handle 8192
        = ((AFC_E_SUCCESS, bytes), sr) := by
      simp only [faithful_peer, hh, hf, hbytes, hsr]
    rw [hr]
    simp only [ne_eq, not_true_eq_false, if_false]
    by_cases hz : bytes.length = 0
    · simp only [hz, if_true]
      refine ⟨_, rfl, ?_⟩
      have hn : 0 < min (max 1 (serve off)) 8192 := by omega
      rw [hbytes, List.length_take] at hz
      have hd : (content.drop off).length = 0 := by omega
      have : content.drop off = [] := List.length_eq_zero.mp hd
      simp [hsr, hl, this]
    · simp only [hz, if_false]
      obtain ⟨sw, hsw⟩ : ∃ sw : store, sw =
        { sr with local_files := set_at sr.local_files dst (some (acc ++ bytes)) } :=
        ⟨_, rfl⟩
      have hl2 : sr.local_files dst = some acc := by rw [hsr]; exact hl
      have hw : (faithful_peer serve dirs stats).ofstream_write sr dst bytes = (true, sw) := by
        simp only [faithful_peer, hl2, hsw]
      rw [hw]
      simp only [Bool.not_true, Bool.false_eq_true, if_false]
      have hfuel2 : content.length - (off + bytes.length) < fuel := by
        have hle : bytes.length ≤ content.length - off := by
          rw [hbytes, List.length_take, List.length_drop]; omega
        omega
      have hh2 : sw.handles handle = some (path, off + bytes.length) := by
        rw [hsw, hsr]; exact set_at_same _ _ _
      have hf2 : sw.remote_files path = some content := by
        rw [hsw, hsr]; exact hf
      have hl3 : sw.local_files dst = some (acc ++ bytes) := by
        rw [hsw]; exact set_at_same _ _ _
      obtain ⟨s1, e1, e2⟩ := ih (acc ++ bytes) sw (off + bytes.length) hh2 hf2 hl3 hfuel2
      refine ⟨s1, e1, ?_⟩
      rw [e2, List.append_assoc, ← List.drop_drop, hbytes, take_append_drop_length]

/-- C1: round trip. Against the faithful peer (whatever sizes `serve` gives its reads,
each at most the 8192 bytes asked for and the last one empty), for every byte sequence
`b` of any length: uploading the local file `source` with content `b` to `remote` returns
true, downloading `remote` to `destination` then returns true (the read loop ends within
`b.length + 1` iterations), and the local file `destination` then has content `b`. -/
theorem C1_upload_download_round_trip (serve : Nat → Nat)
    (dirs stats : std_string → afc_list_reply) (m : afc_manager) (b : List UInt8)
    (source remote destination : std_string) (s : store) (fuel : Nat)
    (hc : m.afc_connected = true) (hsource : s.local_files source = some b)
    (hfuel : b.length < fuel) :
    (upload_file (faithful_peer serve dirs stats) m source remote s).1 = true ∧
    ∃ s2, download_file (faithful_peer serve dirs stats) m fuel remote destination
          (upload_file (faithful_peer serve dirs stats) m source remote s).2
        = Except.ok (true, s2) ∧
      s2.local_files destination = some b := by
  obtain ⟨so, hso⟩ : ∃ so : store, so =
    { s with remote_files := set_at s.remote_files remote (some []),
             handles := set_at s.handles s.next_handle (some (remote, 0)),
             next_handle := s.next_handle + 1 } := ⟨_, rfl⟩
  have hopen : (faithful_peer serve dirs stats).afc_file_open s remote
      afc_file_mode_t.AFC_FOPEN_WR = ((AFC_E_SUCCESS, s.next_handle), so) := by
    simp only [faithful_peer, hso]
  have hin : (faithful_peer serve dirs stats).ifstream_open s source = (some b, s) := by
    simp only [faithful_peer, hsource]
  obtain ⟨s1, e1, e2, _, _⟩ := upload_loop_faithful serve dirs stats s.next_handle remote
    (b.length + 1) b [] so 0 (by rw [hso]; exact set_at_same _ _ _)
    (by rw [hso]; exact set_at_same _ _ _) (Nat.lt_succ_self _)
  have hup : upload_file (faithful_peer serve dirs stats) m source remote s
      = (true, (faithful_peer serve dirs stats).ifstream_close
          ((faithful_peer serve dirs stats).afc_file_close s1 s.next_handle) source) := by
    unfold upload_file
    simp only [hc, Bool.not_true, Bool.false_eq_true, if_false, hin, hopen, ne_eq,
      not_true_eq_false, e1]
  rw [hup]
  refine ⟨rfl, ?_⟩
  obtain ⟨su, hsu⟩ : ∃ su : store, su = (faithful_peer serve dirs stats).ifstream_close
      ((faithful_peer serve dirs stats).afc_file_close s1 s.next_handle) source := ⟨_, rfl⟩
  rw [← hsu]
  have hremote : su.remote_files remote = some b := by
    rw [hsu]
    simp only [faithful_peer]
    simpa using e2
  obtain ⟨sd, hsd⟩ : ∃ sd : store, sd =
    { su with handles := set_at su.handles su.next_handle (some (remote, 0)),
              next_handle := su.next_handle + 1 } := ⟨_, rfl⟩
  have hopen2 : (faithful_peer serve dirs stats).afc_file_open su remote
      afc_file_mode_t.AFC_FOPEN_RDONLY = ((AFC_E_SUCCESS, su.next_handle), sd) := by
    simp only [faithful_peer, hremote, hsd]
  obtain ⟨sl, hsl⟩ : ∃ sl : store, sl =
    { sd with local_files := set_at sd.local_files destination (some []) } := ⟨_, rfl⟩
  have hlocal : (faithful_peer serve dirs stats).ofstream_open sd destination = (true, sl) := by
    simp only [faithful_peer, hsl]
  obtain ⟨s3, e3, e4⟩ := download_loop_faithful serve dirs stats su.next_handle remote
    destination fuel b [] sl 0
    (by rw [hsl, hsd]; exact set_at_same _ _ _)
    (by rw [hsl, hsd]; exact hremote)
    (by rw [hsl]; exact set_at_same _ _ _)
    (by omega)
  refine ⟨(faithful_peer serve dirs stats).ofstream_close
      ((faithful_peer serve dirs stats).afc_file_close s3 su.next_handle) destination, ?_, ?_⟩
  · unfold download_file
    simp only [hc, Bool.not_true, Bool.false_eq_true, if_false, hopen2, ne_eq,
      not_true_eq_false, hlocal, e3]
  · simp only [faithful_peer]
    simpa using e4

/-- C1 on the sample device: the three bytes of the local file `in.bin` go to the remote
file `/DCIM/up.bin` and come back into the local file `back.bin`. -/
theorem C1_upload_download_round_trip_witness :
    (upload_file sample_peer connected_afc "in.bin".toList "/DCIM/up.bin".toList
      sample_store).1 = true ∧
    ∃ s2, download_file sample_peer connected_afc 4 "/DCIM/up.bin".toList "back.bin".toList
          (upload_file sample_peer connected_afc "in.bin".toList "/DCIM/up.bin".toList
            sample_store).2
        = Except.ok (true, s2) ∧
      s2.local_files "back.bin".toList = some [7, 8, 9] :=
  C1_upload_download_round_trip (fun offset => offset + 1) sample_dirs sample_stats
    connected_afc [7, 8, 9] "in.bin".toList "/DCIM/up.bin".toList "back.bin".toList
    sample_store 4 rfl rfl (by decide)

theorem string_lt_iff (a b : std_string) : string_lt a b = true ↔ a < b := by
  induction a generalizing b with
  | nil =>
    cases b with
    | nil => simp [string_lt]
    | cons y ys =>
      simp only [string_lt, true_iff]
      exact List.Lex.nil
  | cons x xs ih =>
    cases b with
    | nil => simp [string_lt]
    | cons y ys =>
      simp only [string_lt]
      by_cases hxy : x < y
      · simp only [hxy, if_true, true_iff]
        exact List.Lex.rel hxy
      · by_cases hyx : y < x
        · simp only [hxy, hyx, if_true, if_false, Bool.false_eq_true, false_iff]
          intro h
          cases h with
          | cons _ => exact lt_irrefl _ hyx
          | rel h1 => exact hxy h1
        · simp only [hxy, hyx, if_false]
          have hEq : x = y := le_antisymm (not_lt.mp hyx) (not_lt.mp hxy)
          subst hEq
          rw [ih]
          exact (List.Lex.cons_iff).symm

theorem upload_loop_fuel {σ : Type} (E : afc_env σ) (handle : Nat) (fuel1 fuel2 : Nat)
    (rest : List UInt8) (s : σ) (h1 : rest.length < fuel1) (h2 : rest.length < fuel2) :
    upload_loop E handle fuel1 rest s = upload_loop E handle fuel2 rest s := by
  induction fuel1 generalizing fuel2 rest s with
  | zero => omega
  | succ fuel1 ih =>
    cases fuel2 with
    | zero => omega
    | succ fuel2 =>
      unfold upload_loop
      by_cases hrest : rest = []
      · subst hrest; simp
      · have hpos : 0 < rest.length := List.length_pos.mpr hrest
        have hlen : (rest.drop 8192).length < rest.length := by
          rw [List.length_drop]; omega
        dsimp only
        rw [ih fuel2 (rest.drop 8192) _ (by omega) (by omega)]

theorem child_path_eq (path entry : std_string) (back : Char)
    (hback : path.getLast? = some back) :
    (if back ≠ '/' then path ++ "/".toList else path) ++ entry = child_path path entry := by
  unfold child_path
  rw [hback]
  by_cases h : back = '/'
  · simp [h]
  · simp [h]

theorem child_path_ne_nil (path entry : std_string) (h : path ≠ []) :
    child_path path entry ≠ [] := by
  unfold child_path
  split <;> simp [h]

theorem scan_for_photos_loop_returns {σ : Type} (E : afc_env σ) (afc : afc_manager)
    (recurse : std_string → List photo_info → σ → Except fault (List photo_info × σ))
    (path : std_string) (hpath : path ≠ [])
    (hstat : ∀ (p : std_string) (s : σ), ∃ r, get_file_info E afc p s = Except.ok r)
    (entries : List std_string)
    (hrec : ∀ entry ∈ entries, ∀ (s s1 : σ) (finfo : file_info) (photos : List photo_info),
      get_file_info E afc (child_path path entry) s = Except.ok (finfo, s1) →
      finfo.is_directory = true →
      ∃ r, recurse (child_path path entry) photos s1 = Except.ok r)
    (photos : List photo_info) (s : σ) :
    ∃ r, scan_for_photos_loop E afc recurse path entries photos s = Except.ok r := by
  induction entries generalizing photos s with
  | nil => exact ⟨_, rfl⟩
  | cons entry rest ih =>
    have ih2 := ih (fun e he => hrec e (List.mem_cons_of_mem _ he))
    obtain ⟨back, hback⟩ : ∃ back, path.getLast? = some back := by
      cases hl : path.getLast? with
      | none => exact absurd (List.getLast?_eq_none_iff.mp hl) hpath
      | some back => exact ⟨back, rfl⟩
    simp only [scan_for_photos_loop, hback, child_path_eq path entry back hback]
    obtain ⟨⟨finfo, s1⟩, hg⟩ := hstat (child_path path entry) s
    simp only [hg]
    by_cases hdir : finfo.is_directory = true
    · simp only [hdir, if_true]
      obtain ⟨⟨photos1, s2⟩, hr⟩ := hrec entry (List.mem_cons_self _ _) s s1 finfo photos hg hdir
      rw [hr]
      exact ih2 _ _
    · simp only [hdir, Bool.false_eq_true, if_false]
      split
      · exact ih2 _ _
      · exact ih2 _ _

/-- The recursion of `scan_for_photos` ends on every peer whose directories get less deep:
if every stat reply can be parsed and every listed entry that stats as a directory has a
smaller `depth` than the directory it was listed in, `scan_for_photos` returns for every
non-empty `path`, given more fuel than `depth path`. -/
theorem scan_for_photos_returns {σ : Type} (E : afc_env σ) (pm : photo_manager)
    (depth : std_string → Nat)
    (hstat : ∀ (afc : afc_manager) (p : std_string) (s : σ),
      ∃ r, get_file_info E afc p s = Except.ok r)
    (hdepth : ∀ (afc : afc_manager) (path entry : std_string) (s0 s s1 : σ)
      (finfo : file_info), entry ∈ (list_directory E afc path s0).1 →
      get_file_info E afc (child_path path entry) s = Except.ok (finfo, s1) →
      finfo.is_directory = true → depth (child_path path entry) < depth path)
    (fuel : Nat) (path : std_string) (photos : List photo_info) (s : σ)
    (hpath : path ≠ []) (hfuel : depth path < fuel) :
    ∃ r, scan_for_photos E pm fuel path photos s = Except.ok r := by
  induction fuel generalizing path photos s with
  | zero => omega
  | succ fuel ih =>
    simp only [scan_for_photos]
    split
    · exact ⟨_, rfl⟩
    · rename_i afc _
      split
      · exact ⟨_, rfl⟩
      · apply scan_for_photos_loop_returns E afc _ path hpath (hstat afc)
        intro entry hentry s2 s3 finfo photos2 hg hdir
        have hd := hdepth afc path entry s s2 s3 finfo hentry hg hdir
        exact ih _ _ _ (child_path_ne_nil path entry hpath) (by omega)

/-- See `scan_for_photos_returns`: under the same conditions `list_all_photos` returns. -/
theorem list_all_photos_returns {σ : Type} (E : afc_env σ) (pm : photo_manager)
    (depth : std_string → Nat)
    (hstat : ∀ (afc : afc_manager) (p : std_string) (s : σ),
      ∃ r, get_file_info E afc p s = Except.ok r)
    (hdepth : ∀ (afc : afc_manager) (path entry : std_string) (s0 s s1 : σ)
      (finfo : file_info), entry ∈ (list_directory E afc path s0).1 →
      get_file_info E afc (child_path path entry) s = Except.ok (finfo, s1) →
      finfo.is_directory = true → depth (child_path path entry) < depth path)
    (fuel : Nat) (s : σ) (hfuel : depth "/DCIM".toList < fuel) :
    ∃ r, list_all_photos E pm fuel s = Except.ok r := by
  unfold list_all_photos
  split
  · exact ⟨_, rfl⟩
  · obtain ⟨⟨photos, s1⟩, h⟩ := scan_for_photos_returns E pm depth hstat hdepth fuel
      "/DCIM".toList [] s (by decide) hfuel
    rw [h]
    exact ⟨_, rfl⟩

theorem sample_get_file_info_returns (afc : afc_manager) (p : std_string) (s : store) :
    ∃ r, get_file_info sample_peer afc p s = Except.ok r := by
  unfold get_file_info
  split
  · exact ⟨_, rfl⟩
  · have hs : (sample_peer.afc_get_file_info s p) = (sample_stats p, s) := rfl
    simp only [hs]
    unfold sample_stats
    split
    · exact ⟨_, rfl⟩
    · split
      · exact ⟨_, rfl⟩
      · exact ⟨_, rfl⟩

theorem sample_parse_regular (p : std_string) :
    parse_file_info p (stat_regular "3").list =
      Except.ok { filename := (empty_file_info p).filename, full_path := p, file_size := 3,
                  modified_time := "1700000000".toList, is_directory := false } := rfl

theorem sample_get_file_info_directory (afc : afc_manager) (p : std_string) (s s1 : store)
    (finfo : file_info) (h : get_file_info sample_peer afc p s = Except.ok (finfo, s1))
    (hdir : finfo.is_directory = true) :
    p = "/DCIM".toList ∨ p = "/DCIM/100APPLE".toList ∨ p = "/DCIM/100APPLE/deep".toList := by
  unfold get_file_info at h
  split at h
  · cases h; simp [empty_file_info] at hdir
  · have hs : (sample_peer.afc_get_file_info s p) = (sample_stats p, s) := rfl
    simp only [hs] at h
    unfold sample_stats at h
    split at h
    · assumption
    · split at h
      · rw [if_pos (by decide), sample_parse_regular] at h
        cases h
        cases hdir
      · rw [if_neg (by decide)] at h
        cases h
        cases hdir

theorem sample_depth_decreases (afc : afc_manager) (path entry : std_string)
    (s0 s s1 : store) (finfo : file_info)
    (hentry : entry ∈ (list_directory sample_peer afc path s0).1)
    (hg : get_file_info sample_peer afc (child_path path entry) s = Except.ok (finfo, s1))
    (hdir : finfo.is_directory = true) :
    sample_depth (child_path path entry) < sample_depth path := by
  have hchild := sample_get_file_info_directory afc _ s s1 finfo hg hdir
  obtain ⟨list, hl, hmem⟩ := list_directory_mem sample_peer afc path s0 entry hentry
  have hs : (sample_peer.afc_read_directory s0 path) = (sample_dirs path, s0) := rfl
  simp only [hs, sample_dirs] at hl
  split at hl
  · rename_i hp
    subst hp
    cases hl
    simp only [List.mem_cons, List.mem_singleton, List.not_mem_nil, or_false] at hmem
    rcases hmem with h | h | h | h | h <;> subst h <;> revert hchild <;> decide
  · split at hl
    · rename_i hp
      subst hp
      cases hl
      simp only [List.mem_cons, List.mem_singleton, List.not_mem_nil, or_false] at hmem
      rcases hmem with h | h | h | h | h | h <;> subst h <;> revert hchild <;> decide
    · split at hl
      · rename_i hp
        subst hp
        cases hl
        simp only [List.mem_cons, List.mem_singleton, List.not_mem_nil, or_false] at hmem
        rcases hmem with h | h | h <;> subst h <;> revert hchild <;> decide
      · cases hl

/-- On the sample device `list_all_photos` returns whenever the fuel exceeds `2`, the
depth of its tree below `/DCIM`. -/
theorem sample_list_all_photos_returns (pm : photo_manager) (fuel : Nat) (s : store)
    (hfuel : 2 < fuel) : ∃ r, list_all_photos sample_peer pm fuel s = Except.ok r :=
  list_all_photos_returns sample_peer pm sample_depth sample_get_file_info_returns
    sample_depth_decreases fuel s hfuel

/-- C12 (as stated, refuted): connected, with a stat call that succeeds and leaves a
list that is not null but empty, `file_exists` returns true although the metadata
dictionary is empty. -/
theorem C12_counterexample :
    ¬ ((file_exists empty_stat_peer connected_afc "/DCIM/x".toList sample_store).1 = true ↔
      ((empty_stat_peer.afc_get_file_info sample_store "/DCIM/x".toList).1.ret
          = AFC_E_SUCCESS ∧
        ∃ list, (empty_stat_peer.afc_get_file_info sample_store "/DCIM/x".toList).1.list
            = some list ∧ list ≠ [])) := by
  intro h
  obtain ⟨_, list, h2, h3⟩ := h.mp rfl
  cases h2
  exact h3 rfl

/-- C12 (amended): while connected, `file_exists` returns true exactly when the peer's
stat call succeeds and leaves a list that is not null (an empty one included); every
failure yields false, so a path whose stat call reports it absent and a path whose stat
call fails otherwise both give false. -/
theorem C12_file_exists {σ : Type} (E : afc_env σ) (m : afc_manager) (path : std_string)
    (s : σ) (hc : m.afc_connected = true) :
    ((file_exists E m path s).1 = true ↔
      ((E.afc_get_file_info s path).1.ret = AFC_E_SUCCESS ∧
        (E.afc_get_file_info s path).1.list ≠ none)) ∧
    ((E.afc_get_file_info s path).1.ret ≠ AFC_E_SUCCESS → (file_exists E m path s).1 = false) ∧
    (file_exists E m path s).2 = (E.afc_get_file_info s path).2 := by
  unfold file_exists
  simp only [hc, Bool.not_true, Bool.false_eq_true, if_false]
  by_cases h : (E.afc_get_file_info s path).1.ret = AFC_E_SUCCESS ∧
      (E.afc_get_file_info s path).1.list ≠ none
  · simp only [h, and_self, if_true, ne_eq, not_false_eq_true, true_and, iff_true]
    simp [h.1]
  · simp only [h, if_false, Bool.false_eq_true, false_iff, not_false_eq_true, true_and,
      implies_true, and_self]

/-- C12 on the sample device: `/DCIM/b.jpg` exists and `/DCIM/none` does not. -/
theorem C12_file_exists_witness :
    ((file_exists sample_peer connected_afc "/DCIM/none".toList sample_store).1 = true ↔
      ((sample_peer.afc_get_file_info sample_store "/DCIM/none".toList).1.ret = AFC_E_SUCCESS ∧
        (sample_peer.afc_get_file_info sample_store "/DCIM/none".toList).1.list ≠ none)) ∧
    (file_exists sample_peer connected_afc "/DCIM/none".toList sample_store).1 = false :=
  ⟨(C12_file_exists sample_peer connected_afc "/DCIM/none".toList sample_store rfl).1,
    (C12_file_exists sample_peer connected_afc "/DCIM/none".toList sample_store rfl).2.1
      (by decide)⟩

/-- C16: while the file client is not connected every operation fails and leaves the
environment as it was, so neither the peer nor the local file system is touched:
`list_directory` returns the empty list, and `create_directory`, `remove_path`,
`download_file` (with any fuel), `upload_file` and `file_exists` return false, for every
argument. -/
theorem C16_disconnected_operations_fail {σ : Type} (E : afc_env σ) (m : afc_manager)
    (path path2 : std_string) (fuel : Nat) (s : σ) (hc : m.afc_connected = false) :
    list_directory E m path s = ([], s) ∧
    create_directory E m path s = (false, s) ∧
    remove_path E m path s = (false, s) ∧
    download_file E m fuel path path2 s = Except.ok (false, s) ∧
    upload_file E m path path2 s = (false, s) ∧
    file_exists E m path s = (false, s) := by
  simp [list_directory, create_directory, remove_path, download_file, upload_file,
    file_exists, hc]

/-- C16 on the traced sample device with a manager fresh from its constructor: no call is
recorded. -/
theorem C16_disconnected_operations_fail_witness :
    list_directory sample_peer.traced afc_manager.init "/DCIM".toList (sample_store, [])
      = ([], (sample_store, [])) ∧
    create_directory sample_peer.traced afc_manager.init "/DCIM".toList (sample_store, [])
      = (false, (sample_store, [])) ∧
    remove_path sample_peer.traced afc_manager.init "/DCIM".toList (sample_store, [])
      = (false, (sample_store, [])) ∧
    download_file sample_peer.traced afc_manager.init 0 "/DCIM".toList "out".toList
        (sample_store, []) = Except.ok (false, (sample_store, [])) ∧
    upload_file sample_peer.traced afc_manager.init "/DCIM".toList "out".toList
        (sample_store, []) = (false, (sample_store, [])) ∧
    file_exists sample_peer.traced afc_manager.init "/DCIM".toList (sample_store, [])
      = (false, (sample_store, [])) :=
  C16_disconnected_operations_fail sample_peer.traced afc_manager.init "/DCIM".toList
    "out".toList 0 (sample_store, []) rfl

/-- C17: when `connect_afc` starts the file service successfully, getting the descriptor
`d`, and the creation of the client over it fails, it returns false, the calls it makes
are the start of the service, the creation of the client and one release of `d`, and
the manager is left not connected with a null service descriptor. -/
theorem C17_connect_releases_service {σ : Type} (L : service_env σ) (m : afc_manager)
    (dev lockdown : Option Nat) (s : σ) (log : List service_call) (d : Nat)
    (hc : m.afc_connected = false) (hdev : dev ≠ none) (hlock : lockdown ≠ none)
    (hstart : (L.lockdownd_start_service s lockdown "com.apple.afc".toList).1
      = (LOCKDOWN_E_SUCCESS, some d))
    (hnew : (L.afc_client_new (L.lockdownd_start_service s lockdown "com.apple.afc".toList).2
      dev (some d)).1.1 ≠ AFC_E_SUCCESS) :
    (connect_afc L.traced m dev lockdown (s, log)).1.1 = false ∧
    (connect_afc L.traced m dev lockdown (s, log)).2.2 =
      log ++ [service_call.start_service lockdown "com.apple.afc".toList,
              service_call.client_new dev (some d),
              service_call.service_descriptor_free d] ∧
    (connect_afc L.traced m dev lockdown (s, log)).1.2.afc_connected = false ∧
    (connect_afc L.traced m dev lockdown (s, log)).1.2.service = none ∧
    (connect_afc L.traced m dev lockdown (s, log)).1.2.is_connected = false := by
  have h1 : (L.traced.lockdownd_start_service (s, log) lockdown "com.apple.afc".toList).1
      = (LOCKDOWN_E_SUCCESS, some d) := hstart
  have h2 : (L.traced.afc_client_new
      (L.traced.lockdownd_start_service (s, log) lockdown "com.apple.afc".toList).2
      dev (some d)).1.1 ≠ AFC_E_SUCCESS := hnew
  unfold connect_afc
  simp only [hc, Bool.false_eq_true, if_false, hdev, hlock, or_self, h1, ne_eq,
    not_true_eq_false, h2, not_false_eq_true, if_true]
  simp [service_env.traced, afc_manager.is_connected, hc]

/-- C17 on the script "start succeeds, client creation fails". -/
theorem C17_connect_releases_service_witness :
    (connect_afc scripted_service.traced afc_manager.init (some 1) (some 2)
      ([true, false], [])).1.1 = false ∧
    (connect_afc scripted_service.traced afc_manager.init (some 1) (some 2)
      ([true, false], [])).2.2 =
      [] ++ [service_call.start_service (some 2) "com.apple.afc".toList,
              service_call.client_new (some 1) (some 2),
              service_call.service_descriptor_free 2] ∧
    (connect_afc scripted_service.traced afc_manager.init (some 1) (some 2)
      ([true, false], [])).1.2.afc_connected = false ∧
    (connect_afc scripted_service.traced afc_manager.init (some 1) (some 2)
      ([true, false], [])).1.2.service = none ∧
    (connect_afc scripted_service.traced afc_manager.init (some 1) (some 2)
      ([true, false], [])).1.2.is_connected = false :=
  C17_connect_releases_service scripted_service afc_manager.init (some 1) (some 2)
    [true, false] [] 2 rfl (by decide) (by decide) rfl (by decide)

/-- C18: `disconnect()` on a connected manager with client `c` and service descriptor
`d` makes two calls, the release of `c` and then the release of `d`, and leaves the
manager not connected with both pointers null; a second `disconnect()` right after, and
`disconnect()` on any manager that is not connected and has both pointers null, make no
call and change nothing. -/
theorem C18_disconnect_idempotent {σ : Type} (L : service_env σ) (m : afc_manager) (s : σ)
    (log : List service_call) (c d : Nat)
    (hclient : m.afc_client = some c) (hservice : m.service = some d)
    (hc : m.afc_connected = true) :
    m.disconnect L.traced (s, log) =
      ({ m with afc_client := none, service := none, afc_connected := false },
        (L.lockdownd_service_descriptor_free (L.afc_client_free s c) d,
          log ++ [service_call.client_free c, service_call.service_descriptor_free d])) ∧
    (m.disconnect L.traced (s, log)).1.disconnect L.traced (m.disconnect L.traced (s, log)).2
      = m.disconnect L.traced (s, log) ∧
    (∀ (m0 : afc_manager) (st : σ × List service_call), m0.afc_client = none →
      m0.service = none → m0.afc_connected = false → m0.disconnect L.traced st = (m0, st)) := by
  have hthird : ∀ (m0 : afc_manager) (st : σ × List service_call), m0.afc_client = none →
      m0.service = none → m0.afc_connected = false → m0.disconnect L.traced st = (m0, st) := by
    intro m0 st h1 h2 h3
    cases m0
    simp only at h1 h2 h3
    subst h1 h2 h3
    rfl
  have hfirst : m.disconnect L.traced (s, log) =
      ({ m with afc_client := none, service := none, afc_connected := false },
        (L.lockdownd_service_descriptor_free (L.afc_client_free s c) d,
          log ++ [service_call.client_free c, service_call.service_descriptor_free d])) := by
    have _ := hc
    cases m
    simp only at hclient hservice
    subst hclient hservice
    simp [afc_manager.disconnect, service_env.traced]
  refine ⟨hfirst, ?_, hthird⟩
  rw [hfirst]
  exact hthird _ _ rfl rfl rfl

/-- C18 on a connected manager with client `5` and service descriptor `6`. -/
theorem C18_disconnect_idempotent_witness :
    (({ device := some 1, lockdown_client := some 2, afc_client := some 5, service := some 6,
        afc_connected := true } : afc_manager).disconnect scripted_service.traced ([], [])).2.2
      = [service_call.client_free 5, service_call.service_descriptor_free 6] :=
  congrArg (fun r => r.2.2)
    (C18_disconnect_idempotent scripted_service
      { device := some 1, lockdown_client := some 2, afc_client := some 5, service := some 6,
        afc_connected := true } [] [] 5 6 rfl rfl rfl).1

theorem connect_afc_invariant {σ : Type} (L : service_env σ) (hwf : outcomes_well_formed L)
    (m : afc_manager) (dev lockdown : Option Nat) (s : σ)
    (h : (m.afc_connected = true ∧ m.afc_client ≠ none ∧ m.service ≠ none) ∨
      (m.afc_connected = false ∧ m.afc_client = none ∧ m.service = none)) :
    ((connect_afc L m dev lockdown s).1.2.afc_connected = true ∧
        (connect_afc L m dev lockdown s).1.2.afc_client ≠ none ∧
        (connect_afc L m dev lockdown s).1.2.service ≠ none) ∨
    ((connect_afc L m dev lockdown s).1.2.afc_connected = false ∧
        (connect_afc L m dev lockdown s).1.2.afc_client = none ∧
        (connect_afc L m dev lockdown s).1.2.service = none) := by
  obtain ⟨hs, hn⟩ := hwf
  unfold connect_afc
  split
  · exact h
  · rename_i hnc
    rcases h with ⟨h1, _, _⟩ | ⟨h1, h2, h3⟩
    · exact absurd h1 hnc
    · split
      · exact Or.inr ⟨h1, h2, h3⟩
      · dsimp only
        split
        · rename_i hfail
          have := (hs s lockdown "com.apple.afc".toList).not.mp hfail
          simp only [ne_eq, not_not] at this
          exact Or.inr ⟨h1, h2, this⟩
        · rename_i hok
          simp only [ne_eq, not_not] at hok
          split
          · rename_i hfail2
            have hcl := (hn _ _ _).not.mp hfail2
            simp only [ne_eq, not_not] at hcl
            split
            · exact Or.inr ⟨h1, hcl, rfl⟩
            · rename_i hnone
              exact Or.inr ⟨h1, hcl, hnone⟩
          · rename_i hok2
            simp only [ne_eq, not_not] at hok2
            exact Or.inl ⟨rfl, (hn _ _ _).mp hok2, (hs _ _ _).mp hok⟩

theorem disconnect_invariant {σ : Type} (L : service_env σ) (m : afc_manager) (s : σ) :
    (m.disconnect L s).1.afc_connected = false ∧ (m.disconnect L s).1.afc_client = none ∧
      (m.disconnect L s).1.service = none := by
  cases m with
  | mk device lockdown_client afc_client service afc_connected =>
    cases afc_client <;> cases service <;> simp [afc_manager.disconnect]

theorem afc_reachable_invariant {σ : Type} (L : service_env σ)
    (hwf : outcomes_well_formed L) (p : afc_manager × σ) (h : afc_reachable L p) :
    (p.1.afc_connected = true ∧ p.1.afc_client ≠ none ∧ p.1.service ≠ none) ∨
    (p.1.afc_connected = false ∧ p.1.afc_client = none ∧ p.1.service = none) := by
  induction h with
  | construct s => exact Or.inr ⟨rfl, rfl, rfl⟩
  | connect m s dev lockdown _ ih => exact connect_afc_invariant L hwf m dev lockdown s ih
  | disconnect m s _ _ => exact Or.inr (disconnect_invariant L m s)
  | environment m s s1 _ ih => exact ih

/-- C19: in an environment where a successful call yields a non-null pointer and a
failed one leaves it null, every state of `afc_manager` reached from construction by
`connect_afc` and `disconnect` calls is either fully connected or fully disconnected:
`is_connected()` is true iff the client pointer and the service descriptor are both
non-null, and false iff both are null. -/
theorem C19_connected_or_disconnected {σ : Type} (L : service_env σ) (m : afc_manager)
    (s : σ) (hwf : outcomes_well_formed L) (h : afc_reachable L (m, s)) :
    (m.is_connected = true ↔ (m.afc_client ≠ none ∧ m.service ≠ none)) ∧
    (m.is_connected = false ↔ (m.afc_client = none ∧ m.service = none)) := by
  have hinv := afc_reachable_invariant L hwf (m, s) h
  simp only [afc_manager.is_connected]
  dsimp only at hinv
  rcases hinv with ⟨h1, h2, h3⟩ | ⟨h1, h2, h3⟩
  · simp [h1, h2, h3]
  · simp [h1, h2, h3]

theorem scripted_service_well_formed : outcomes_well_formed scripted_service := by
  refine ⟨?_, ?_⟩
  · intro s client identifier
    cases s with
    | nil => simp [scripted_service, LOCKDOWN_E_SUCCESS]
    | cons b rest => cases b <;> simp [scripted_service, LOCKDOWN_E_SUCCESS]
  · intro s device service
    cases s with
    | nil => simp [scripted_service, AFC_E_SUCCESS]
    | cons b rest => cases b <;> simp [scripted_service, AFC_E_SUCCESS]

/-- C19 on the script "start succeeds, client creation fails, start succeeds, client
creation succeeds" for two `connect_afc` calls: the manager reached is connected with
both pointers set. -/
theorem C19_connected_or_disconnected_witness :
    ((connect_afc scripted_service
        (connect_afc scripted_service afc_manager.init (some 1) (some 2)
          [true, false, true, true]).1.2 (some 1) (some 2)
        (connect_afc scripted_service afc_manager.init (some 1) (some 2)
          [true, false, true, true]).2).1.2.is_connected = true ↔
      ((connect_afc scripted_service
          (connect_afc scripted_service afc_manager.init (some 1) (some 2)
            [true, false, true, true]).1.2 (some 1) (some 2)
          (connect_afc scripted_service afc_manager.init (some 1) (some 2)
            [true, false, true, true]).2).1.2.afc_client ≠ none ∧
        (connect_afc scripted_service
          (connect_afc scripted_service afc_manager.init (some 1) (some 2)
            [true, false, true, true]).1.2 (some 1) (some 2)
          (connect_afc scripted_service afc_manager.init (some 1) (some 2)
            [true, false, true, true]).2).1.2.service ≠ none)) :=
  (C19_connected_or_disconnected scripted_service _ _ scripted_service_well_formed
    (afc_reachable.connect _ _ (some 1) (some 2)
      (afc_reachable.connect _ _ (some 1) (some 2)
        (afc_reachable.construct [true, false, true, true])))).1

theorem reads_end_cleanly_not_fail {σ : Type} (E : afc_env σ) (handle : Nat)
    (dst : std_string) (s : σ) (h : reads_end_cleanly E handle dst s) :
    ¬ reads_fail E handle dst s := by
  induction h with
  | end_of_file s h1 h2 =>
    intro hf
    cases hf with
    | read_error _ g1 => exact g1 h1
    | write_failure _ _ g2 _ => exact g2 h2
    | chunk _ _ g2 _ _ => exact g2 h2
  | chunk s h1 h2 h3 _ ih =>
    intro hf
    cases hf with
    | read_error _ g1 => exact g1 h1
    | write_failure _ _ _ g3 => rw [h3] at g3; cases g3
    | chunk _ _ _ _ g4 => exact ih g4

theorem download_loop_result {σ : Type} (E : afc_env σ) (handle : Nat) (dst : std_string)
    (fuel : Nat) (s s1 : σ) (r : Bool)
    (h : download_loop E handle dst fuel s = Except.ok (r, s1)) :
    (r = true ∧ reads_end_cleanly E handle dst s) ∨
    (r = false ∧ reads_fail E handle dst s) := by
  induction fuel generalizing s with
  | zero => simp [download_loop] at h
  | succ fuel ih =>
    simp only [download_loop] at h
    split at h
    · rename_i h1
      cases h
      exact Or.inr ⟨rfl, reads_fail.read_error s h1⟩
    · rename_i h1
      simp only [ne_eq, not_not] at h1
      split at h
      · rename_i h2
        cases h
        exact Or.inl ⟨rfl, reads_end_cleanly.end_of_file s h1 h2⟩
      · rename_i h2
        split at h
        · rename_i h3
          cases h
          simp only [Bool.not_eq_true', ] at h3
          exact Or.inr ⟨rfl, reads_fail.write_failure s h1 h2 h3⟩
        · rename_i h3
          simp only [Bool.not_eq_true', Bool.not_eq_false] at h3
          rcases ih _ h with ⟨e, hc⟩ | ⟨e, hf⟩
          · exact Or.inl ⟨e, reads_end_cleanly.chunk s h1 h2 h3 hc⟩
          · exact Or.inr ⟨e, reads_fail.chunk s h1 h2 h3 hf⟩

theorem download_loop_returns_true {σ : Type} (E : afc_env σ) (handle : Nat)
    (dst : std_string) (s : σ) (h : reads_end_cleanly E handle dst s) :
    ∃ fuel0, ∀ fuel, fuel0 ≤ fuel → ∃ s1,
      download_loop E handle dst fuel s = Except.ok (true, s1) := by
  induction h with
  | end_of_file s h1 h2 =>
    refine ⟨1, ?_⟩
    intro fuel hfuel
    obtain ⟨f, rfl⟩ : ∃ f, fuel = f + 1 := ⟨fuel - 1, by omega⟩
    exact ⟨_, by
      simp only [download_loop, h1, h2, ne_eq, not_true_eq_false, if_false, if_true]
      rfl⟩
  | chunk s h1 h2 h3 _ ih =>
    obtain ⟨fuel0, hf⟩ := ih
    refine ⟨fuel0 + 1, ?_⟩
    intro fuel hfuel
    obtain ⟨f, rfl⟩ : ∃ f, fuel = f + 1 := ⟨fuel - 1, by omega⟩
    obtain ⟨s1, e⟩ := hf f (by omega)
    refine ⟨s1, ?_⟩
    simp only [download_loop, h1, h2, h3, ne_eq, not_true_eq_false, if_false, Bool.not_true,
      Bool.false_eq_true]
    exact e

theorem download_loop_returns_false {σ : Type} (E : afc_env σ) (handle : Nat)
    (dst : std_string) (s : σ) (h : reads_fail E handle dst s) :
    ∃ fuel0, ∀ fuel, fuel0 ≤ fuel → ∃ s1,
      download_loop E handle dst fuel s = Except.ok (false, s1) := by
  induction h with
  | read_error s h1 =>
    refine ⟨1, ?_⟩
    intro fuel hfuel
    obtain ⟨f, rfl⟩ : ∃ f, fuel = f + 1 := ⟨fuel - 1, by omega⟩
    exact ⟨_, by
      simp only [download_loop, h1, ne_eq, not_false_eq_true, if_true]
      rfl⟩
  | write_failure s h1 h2 h3 =>
    refine ⟨1, ?_⟩
    intro fuel hfuel
    obtain ⟨f, rfl⟩ : ∃ f, fuel = f + 1 := ⟨fuel - 1, by omega⟩
    exact ⟨_, by
      simp only [download_loop, h1, h2, h3, ne_eq, not_true_eq_false, if_false,
      Bool.not_false, if_true]
      rfl⟩
  | chunk s h1 h2 h3 _ ih =>
    obtain ⟨fuel0, hf⟩ := ih
    refine ⟨fuel0 + 1, ?_⟩
    intro fuel hfuel
    obtain ⟨f, rfl⟩ : ∃ f, fuel = f + 1 := ⟨fuel - 1, by omega⟩
    obtain ⟨s1, e⟩ := hf f (by omega)
    refine ⟨s1, ?_⟩
    simp only [download_loop, h1, h2, h3, ne_eq, not_true_eq_false, if_false, Bool.not_true,
      Bool.false_eq_true]
    exact e

/-- C13: while connected, a `download_file` that returns has returned true exactly when
the remote open succeeded, the local destination opened, and the reads of at most 8192
bytes reached a successful read of zero bytes before any read error and any failed local
write. It returns false at once when the remote open fails or the local destination does
not open; when the reads reach a read error or a failed write it returns false, and when
they end cleanly it returns true, given the loop iterations this takes. -/
theorem C13_download_result {σ : Type} (E : afc_env σ) (m : afc_manager)
    (source destination : std_string) (s : σ) (hc : m.afc_connected = true) :
    (∀ (fuel : Nat) (r : Bool) (s1 : σ),
      download_file E m fuel source destination s = Except.ok (r, s1) →
      (r = true ↔
        ((E.afc_file_open s source afc_file_mode_t.AFC_FOPEN_RDONLY).1.1 = AFC_E_SUCCESS ∧
          (E.ofstream_open (E.afc_file_open s source afc_file_mode_t.AFC_FOPEN_RDONLY).2
            destination).1 = true ∧
          reads_end_cleanly E
            (E.afc_file_open s source afc_file_mode_t.AFC_FOPEN_RDONLY).1.2 destination
            (E.ofstream_open (E.afc_file_open s source afc_file_mode_t.AFC_FOPEN_RDONLY).2
              destination).2))) ∧
    ((E.afc_file_open s source afc_file_mode_t.AFC_FOPEN_RDONLY).1.1 ≠ AFC_E_SUCCESS →
      ∀ fuel, ∃ s1, download_file E m fuel source destination s = Except.ok (false, s1)) ∧
    ((E.afc_file_open s source afc_file_mode_t.AFC_FOPEN_RDONLY).1.1 = AFC_E_SUCCESS →
      (E.ofstream_open (E.afc_file_open s source afc_file_mode_t.AFC_FOPEN_RDONLY).2
        destination).1 = false →
      ∀ fuel, ∃ s1, download_file E m fuel source destination s = Except.ok (false, s1)) ∧
    ((E.afc_file_open s source afc_file_mode_t.AFC_FOPEN_RDONLY).1.1 = AFC_E_SUCCESS →
      (E.ofstream_open (E.afc_file_open s source afc_file_mode_t.AFC_FOPEN_RDONLY).2
        destination).1 = true →
      reads_fail E (E.afc_file_open s source afc_file_mode_t.AFC_FOPEN_RDONLY).1.2 destination
        (E.ofstream_open (E.afc_file_open s source afc_file_mode_t.AFC_FOPEN_RDONLY).2
          destination).2 →
      ∃ fuel0, ∀ fuel, fuel0 ≤ fuel →
        ∃ s1, download_file E m fuel source destination s = Except.ok (false, s1)) ∧
    ((E.afc_file_open s source afc_file_mode_t.AFC_FOPEN_RDONLY).1.1 = AFC_E_SUCCESS →
      (E.ofstream_open (E.afc_file_open s source afc_file_mode_t.AFC_FOPEN_RDONLY).2
        destination).1 = true →
      reads_end_cleanly E (E.afc_file_open s source afc_file_mode_t.AFC_FOPEN_RDONLY).1.2
        destination
        (E.ofstream_open (E.afc_file_open s source afc_file_mode_t.AFC_FOPEN_RDONLY).2
          destination).2 →
      ∃ fuel0, ∀ fuel, fuel0 ≤ fuel →
        ∃ s1, download_file E m fuel source destination s = Except.ok (true, s1)) := by
  refine ⟨?_, ?_, ?_, ?_, ?_⟩
  · intro fuel r s1 h
    unfold download_file at h
    simp only [hc, Bool.not_true, Bool.false_eq_true, if_false] at h
    split at h
    · rename_i ho
      cases h
      simp [ho]
    · rename_i ho
      simp only [ne_eq, not_not] at ho
      split at h
      · rename_i hl
        cases h
        simp only [Bool.not_eq_true'] at hl
        simp [hl]
      · rename_i hl
        simp only [Bool.not_eq_true', Bool.not_eq_false] at hl
        split at h
        · cases h
        · rename_i success s2 hloop
          cases h
          rcases download_loop_result E _ _ _ _ _ _ hloop with ⟨e, hcl⟩ | ⟨e, hf⟩
          · subst e
            simp only [true_iff]
            exact ⟨ho, hl, hcl⟩
          · subst e
            simp only [Bool.false_eq_true, false_iff, not_and]
            intro _ _ hcl
            exact reads_end_cleanly_not_fail E _ _ _ hcl hf
  · intro ho fuel
    exact ⟨_, by
      simp only [download_file, hc, Bool.not_true, Bool.false_eq_true, if_false, ho,
      ne_eq, not_false_eq_true, if_true]
      rfl⟩
  · intro ho hl fuel
    exact ⟨_, by
      simp only [download_file, hc, Bool.not_true, Bool.false_eq_true, if_false, ho,
      ne_eq, not_true_eq_false, hl, Bool.not_false, if_true]
      rfl⟩
  · intro ho hl hf
    obtain ⟨fuel0, h0⟩ := download_loop_returns_false E _ _ _ hf
    refine ⟨fuel0, ?_⟩
    intro fuel hfuel
    obtain ⟨s1, e⟩ := h0 fuel hfuel
    exact ⟨_, by
      simp only [download_file, hc, Bool.not_true, Bool.false_eq_true, if_false, ho,
      ne_eq, not_true_eq_false, hl, e]
      rfl⟩
  · intro ho hl hcl
    obtain ⟨fuel0, h0⟩ := download_loop_returns_true E _ _ _ hcl
    refine ⟨fuel0, ?_⟩
    intro fuel hfuel
    obtain ⟨s1, e⟩ := h0 fuel hfuel
    exact ⟨_, by
      simp only [download_file, hc, Bool.not_true, Bool.false_eq_true, if_false, ho,
      ne_eq, not_true_eq_false, hl, e]
      rfl⟩

/-- C13 on the sample device: the download of `/DCIM/b.jpg` returns true, so its reads
ended cleanly. -/
theorem C13_download_result_witness :
    (true = true ↔
      ((sample_peer.afc_file_open sample_store "/DCIM/b.jpg".toList
          afc_file_mode_t.AFC_FOPEN_RDONLY).1.1 = AFC_E_SUCCESS ∧
        (sample_peer.ofstream_open (sample_peer.afc_file_open sample_store
          "/DCIM/b.jpg".toList afc_file_mode_t.AFC_FOPEN_RDONLY).2 "out.bin".toList).1 = true ∧
        reads_end_cleanly sample_peer
          (sample_peer.afc_file_open sample_store "/DCIM/b.jpg".toList
            afc_file_mode_t.AFC_FOPEN_RDONLY).1.2 "out.bin".toList
          (sample_peer.ofstream_open (sample_peer.afc_file_open sample_store
            "/DCIM/b.jpg".toList afc_file_mode_t.AFC_FOPEN_RDONLY).2 "out.bin".toList).2)) :=
  (C13_download_result sample_peer connected_afc "/DCIM/b.jpg".toList "out.bin".toList
    sample_store rfl).1 5 true _ rfl

theorem written_chunks_append (l1 l2 : List afc_call) :
    written_chunks (l1 ++ l2) = written_chunks l1 ++ written_chunks l2 := by
  simp [written_chunks, List.filterMap_append]

theorem closed_handles_append (l1 l2 : List afc_call) :
    closed_handles (l1 ++ l2) = closed_handles l1 ++ closed_handles l2 := by
  simp [closed_handles, List.filterMap_append]

theorem opened_files_append (l1 l2 : List afc_call) :
    opened_files (l1 ++ l2) = opened_files l1 ++ opened_files l2 := by
  simp [opened_files, List.filterMap_append]

theorem upload_loop_succeeds {σ : Type} (E : afc_env σ) (handle : Nat) (rest : List UInt8)
    (s : σ) (h : all_writes_succeed E handle rest s) (fuel : Nat) (hfuel : rest.length < fuel) :
    (upload_loop E handle fuel rest s).1 = true := by
  induction h generalizing fuel with
  | done s =>
    cases fuel with
    | zero => rfl
    | succ f => simp [upload_loop]
  | chunk rest s hne h1 h2 _ ih =>
    cases fuel with
    | zero => omega
    | succ f =>
      have hpos : 0 < rest.length := List.length_pos.mpr hne
      have hpos2 : (rest.take 8192).length > 0 := by
        rw [List.length_take]; omega
      have hlen : (rest.drop 8192).length < f := by
        rw [List.length_drop]; omega
      simp only [upload_loop, hpos2, or_true, if_true, h1, h2, ne_eq, not_true_eq_false,
        or_self, if_false]
      exact ih f hlen

theorem upload_loop_fails {σ : Type} (E : afc_env σ) (handle : Nat) (rest : List UInt8)
    (s : σ) (k : Nat) (h : first_failed_write E handle rest s k) (fuel : Nat)
    (hfuel : rest.length < fuel) (log : List afc_call) :
    (upload_loop E.traced handle fuel rest (s, log)).1 = false ∧
    ∃ new, (upload_loop E.traced handle fuel rest (s, log)).2.2 = log ++ new ∧
      (written_chunks new).length = k ∧ closed_handles new = [] ∧ opened_files new = [] := by
  induction h generalizing fuel log with
  | first rest s hne hfail =>
    cases fuel with
    | zero => omega
    | succ f =>
      have hpos : 0 < rest.length := List.length_pos.mpr hne
      have hpos2 : (rest.take 8192).length > 0 := by
        rw [List.length_take]; omega
      have hfail2 : (E.traced.afc_file_write (s, log) handle (rest.take 8192)).1.1
            ≠ AFC_E_SUCCESS ∨
          (E.traced.afc_file_write (s, log) handle (rest.take 8192)).1.2
            ≠ (rest.take 8192).length := hfail
      simp only [upload_loop, hpos2, or_true, if_true, hfail2]
      exact ⟨trivial, [afc_call.file_write handle (rest.take 8192)], rfl, rfl, rfl, rfl⟩
  | later rest s k hne h1 h2 _ ih =>
    cases fuel with
    | zero => omega
    | succ f =>
      have hpos : 0 < rest.length := List.length_pos.mpr hne
      have hpos2 : (rest.take 8192).length > 0 := by
        rw [List.length_take]; omega
      have hlen : (rest.drop 8192).length < f := by
        rw [List.length_drop]; omega
      have g1 : (E.traced.afc_file_write (s, log) handle (rest.take 8192)).1.1
          = AFC_E_SUCCESS := h1
      have g2 : (E.traced.afc_file_write (s, log) handle (rest.take 8192)).1.2
          = (rest.take 8192).length := h2
      have g3 : (E.traced.afc_file_write (s, log) handle (rest.take 8192)).2
          = ((E.afc_file_write s handle (rest.take 8192)).2,
              log ++ [afc_call.file_write handle (rest.take 8192)]) := rfl
      simp only [upload_loop, hpos2, or_true, if_true, g1, g2, ne_eq, not_true_eq_false,
        or_self, if_false, g3]
      obtain ⟨e1, new, e2, e3, e4, e5⟩ := ih f hlen
        (log ++ [afc_call.file_write handle (rest.take 8192)])
      refine ⟨e1, afc_call.file_write handle (rest.take 8192) :: new, ?_, ?_, ?_, ?_⟩
      · rw [e2]; simp
      · simp [written_chunks] at e3 ⊢
        exact e3
      · simpa [closed_handles] using e4
      · simpa [opened_files] using e5

theorem writes_succeed_or_fail {σ : Type} (E : afc_env σ) (handle : Nat) (n : Nat) :
    ∀ (rest : List UInt8) (s : σ), rest.length ≤ n →
      all_writes_succeed E handle rest s ∨ ∃ k, first_failed_write E handle rest s k := by
  induction n with
  | zero =>
    intro rest s hlen
    have : rest = [] := List.length_eq_zero.mp (by omega)
    subst this
    exact Or.inl (all_writes_succeed.done s)
  | succ n ih =>
    intro rest s hlen
    by_cases hne : rest = []
    · subst hne
      exact Or.inl (all_writes_succeed.done s)
    · have hpos : 0 < rest.length := List.length_pos.mpr hne
      by_cases h1 : (E.afc_file_write s handle (rest.take 8192)).1.1 = AFC_E_SUCCESS
      · by_cases h2 : (E.afc_file_write s handle (rest.take 8192)).1.2
            = (rest.take 8192).length
        · have hlen2 : (rest.drop 8192).length ≤ n := by
            rw [List.length_drop]; omega
          rcases ih (rest.drop 8192) (E.afc_file_write s handle (rest.take 8192)).2 hlen2
            with h | ⟨k, h⟩
          · exact Or.inl (all_writes_succeed.chunk rest s hne h1 h2 h)
          · exact Or.inr ⟨k + 1, first_failed_write.later rest s k hne h1 h2 h⟩
        · exact Or.inr ⟨1, first_failed_write.first rest s hne (Or.inr h2)⟩
      · exact Or.inr ⟨1, first_failed_write.first rest s hne (Or.inl h1)⟩

theorem upload_loop_traced_result {σ : Type} (E : afc_env σ) (handle : Nat) (fuel : Nat)
    (rest : List UInt8) (s : σ) (log : List afc_call) :
    (upload_loop E.traced handle fuel rest (s, log)).1 = (upload_loop E handle fuel rest s).1 := by
  induction fuel generalizing rest s log with
  | zero => rfl
  | succ f ih =>
    simp only [upload_loop]
    split
    · have g1 : (E.traced.afc_file_write (s, log) handle (rest.take 8192)).1
          = (E.afc_file_write s handle (rest.take 8192)).1 := rfl
      have g3 : (E.traced.afc_file_write (s, log) handle (rest.take 8192)).2
          = ((E.afc_file_write s handle (rest.take 8192)).2,
              log ++ [afc_call.file_write handle (rest.take 8192)]) := rfl
      rw [g1, g3]
      split
      · rfl
      · exact ih _ _ _
    · rfl

/-- C14: while connected, `upload_file` returns true exactly when the local source
opens, the remote open succeeds and every chunk write succeeds with as many bytes
written as requested. When the `k`-th chunk write is the first that fails or is short,
`upload_file` returns false and has issued exactly `k` writes, so none after the failed
one (the writes are those recorded by `E.traced`). -/
theorem C14_upload_result {σ : Type} (E : afc_env σ) (m : afc_manager)
    (source destination : std_string) (s : σ) (hc : m.afc_connected = true) :
    ((upload_file E m source destination s).1 = true ↔
      ∃ content, (E.ifstream_open s source).1 = some content ∧
        (E.afc_file_open (E.ifstream_open s source).2 destination
          afc_file_mode_t.AFC_FOPEN_WR).1.1 = AFC_E_SUCCESS ∧
        all_writes_succeed E
          (E.afc_file_open (E.ifstream_open s source).2 destination
            afc_file_mode_t.AFC_FOPEN_WR).1.2 content
          (E.afc_file_open (E.ifstream_open s source).2 destination
            afc_file_mode_t.AFC_FOPEN_WR).2) ∧
    (∀ (content : List UInt8) (k : Nat) (log : List afc_call),
      (E.ifstream_open s source).1 = some content →
      (E.afc_file_open (E.ifstream_open s source).2 destination
        afc_file_mode_t.AFC_FOPEN_WR).1.1 = AFC_E_SUCCESS →
      first_failed_write E
        (E.afc_file_open (E.ifstream_open s source).2 destination
          afc_file_mode_t.AFC_FOPEN_WR).1.2 content
        (E.afc_file_open (E.ifstream_open s source).2 destination
          afc_file_mode_t.AFC_FOPEN_WR).2 k →
      (upload_file E.traced m source destination (s, log)).1 = false ∧
      (written_chunks (upload_file E.traced m source destination (s, log)).2.2).length
        = (written_chunks log).length + k) := by
  refine ⟨?_, ?_⟩
  · unfold upload_file
    simp only [hc, Bool.not_true, Bool.false_eq_true, if_false]
    cases hi : (E.ifstream_open s source).1 with
    | none => simp
    | some content =>
      simp only [Option.some.injEq, exists_eq_left']
      by_cases ho : (E.afc_file_open (E.ifstream_open s source).2 destination
          afc_file_mode_t.AFC_FOPEN_WR).1.1 = AFC_E_SUCCESS
      · simp only [ho, ne_eq, not_true_eq_false, if_false, true_and]
        constructor
        · intro hr
          rcases writes_succeed_or_fail E _ content.length content _ (Nat.le_refl _)
            with h | ⟨k, h⟩
          · exact h
          · have hf := (upload_loop_fails E _ content _ k h (content.length + 1)
              (Nat.lt_succ_self _) []).1
            rw [upload_loop_traced_result] at hf
            rw [hf] at hr
            cases hr
        · intro h
          exact upload_loop_succeeds E _ content _ h _ (Nat.lt_succ_self _)
      · simp [ho]
  · intro content k log hi ho hfail
    have gi : (E.traced.ifstream_open (s, log) source)
        = ((E.ifstream_open s source).1,
            ((E.ifstream_open s source).2, log ++ [afc_call.ifstream_open source])) := rfl
    have go : (E.traced.afc_file_open
          ((E.ifstream_open s source).2, log ++ [afc_call.ifstream_open source]) destination
          afc_file_mode_t.AFC_FOPEN_WR)
        = ((E.afc_file_open (E.ifstream_open s source).2 destination
              afc_file_mode_t.AFC_FOPEN_WR).1,
            ((E.afc_file_open (E.ifstream_open s source).2 destination
              afc_file_mode_t.AFC_FOPEN_WR).2,
              log ++ [afc_call.ifstream_open source] ++
                [afc_call.file_open destination afc_file_mode_t.AFC_FOPEN_WR])) := rfl
    obtain ⟨e1, new, e2, e3, _, _⟩ := upload_loop_fails E _ content _ k hfail
      (content.length + 1) (Nat.lt_succ_self _)
      (log ++ [afc_call.ifstream_open source] ++
        [afc_call.file_open destination afc_file_mode_t.AFC_FOPEN_WR])
    unfold upload_file
    simp only [hc, Bool.not_true, Bool.false_eq_true, if_false, gi, hi, go, ho, ne_eq,
      not_true_eq_false]
    refine ⟨e1, ?_⟩
    have hfin : ∀ (st : σ × List afc_call) (h : Nat) (p : std_string),
        (E.traced.ifstream_close (E.traced.afc_file_close st h) p).2
          = st.2 ++ [afc_call.file_close h] ++ [afc_call.ifstream_close p] :=
      fun _ _ _ => rfl
    rw [hfin, e2]
    simp only [written_chunks_append, List.length_append, e3]
    simp [written_chunks]

/-- C14 on a peer that writes short: the first chunk write of the three bytes of `in.bin`
is short, `upload_file` returns false and one write is on record. -/
theorem C14_upload_result_witness :
    (upload_file short_write_peer.traced connected_afc "in.bin".toList "/DCIM/up.bin".toList
      (sample_store, [])).1 = false ∧
    (written_chunks (upload_file short_write_peer.traced connected_afc "in.bin".toList
      "/DCIM/up.bin".toList (sample_store, [])).2.2).length = (written_chunks []).length + 1 :=
  (C14_upload_result short_write_peer connected_afc "in.bin".toList "/DCIM/up.bin".toList
    sample_store rfl).2 [7, 8, 9] 1 [] rfl rfl
    (first_failed_write.first _ _ (by decide) (Or.inr (by decide)))

theorem download_loop_handles {σ : Type} (E : afc_env σ) (handle : Nat)
    (destination_path : std_string) (fuel : Nat) (s s1 : σ × List afc_call) (r : Bool)
    (h : download_loop E.traced handle destination_path fuel s = Except.ok (r, s1)) :
    closed_handles s1.2 = closed_handles s.2 ∧ opened_files s1.2 = opened_files s.2 := by
  induction fuel generalizing s with
  | zero => simp [download_loop] at h
  | succ fuel ih =>
    simp only [download_loop] at h
    split at h
    · cases h
      simp [afc_env.traced, closed_handles_append, opened_files_append, closed_handles,
        opened_files]
    · split at h
      · cases h
        simp [afc_env.traced, closed_handles_append, opened_files_append, closed_handles,
          opened_files]
      · split at h
        · cases h
          simp [afc_env.traced, closed_handles_append, opened_files_append, closed_handles,
            opened_files]
        · obtain ⟨e1, e2⟩ := ih _ h
          rw [e1, e2]
          simp [afc_env.traced, closed_handles_append, opened_files_append, closed_handles,
            opened_files]

theorem upload_loop_handles {σ : Type} (E : afc_env σ) (handle : Nat) (fuel : Nat)
    (rest : List UInt8) (s : σ × List afc_call) :
    closed_handles (upload_loop E.traced handle fuel rest s).2.2 = closed_handles s.2 ∧
    opened_files (upload_loop E.traced handle fuel rest s).2.2 = opened_files s.2 := by
  induction fuel generalizing rest s with
  | zero => exact ⟨rfl, rfl⟩
  | succ fuel ih =>
    simp only [upload_loop]
    split
    · split
      · simp [afc_env.traced, closed_handles_append, opened_files_append, closed_handles,
          opened_files]
      · obtain ⟨e1, e2⟩ := ih (rest.drop 8192)
          (E.traced.afc_file_write s handle (rest.take 8192)).2
        rw [e1, e2]
        simp [afc_env.traced, closed_handles_append, opened_files_append, closed_handles,
          opened_files]
    · exact ⟨rfl, rfl⟩

/-- C15: in `download_file` and in `upload_file`, while connected, exactly one remote
open is issued per call (none when upload's local source does not open); when that open
succeeds the handle it returned is closed exactly once before the function returns,
whatever the exit path, and when it fails, or upload's local source does not open, no
close is issued. The calls are those recorded by `E.traced`. -/
theorem C15_handle_closed_once {σ : Type} (E : afc_env σ) (m : afc_manager)
    (source destination : std_string) (s : σ) (log : List afc_call)
    (hc : m.afc_connected = true) :
    (∀ (fuel : Nat) (r : Bool) (s1 : σ × List afc_call),
      download_file E.traced m fuel source destination (s, log) = Except.ok (r, s1) →
      opened_files s1.2 = opened_files log ++ [(source, afc_file_mode_t.AFC_FOPEN_RDONLY)] ∧
      ((E.afc_file_open s source afc_file_mode_t.AFC_FOPEN_RDONLY).1.1 = AFC_E_SUCCESS →
        closed_handles s1.2 = closed_handles log ++
          [(E.afc_file_open s source afc_file_mode_t.AFC_FOPEN_RDONLY).1.2]) ∧
      ((E.afc_file_open s source afc_file_mode_t.AFC_FOPEN_RDONLY).1.1 ≠ AFC_E_SUCCESS →
        closed_handles s1.2 = closed_handles log)) ∧
    ((E.ifstream_open s source).1 = none →
      opened_files (upload_file E.traced m source destination (s, log)).2.2
        = opened_files log ∧
      closed_handles (upload_file E.traced m source destination (s, log)).2.2
        = closed_handles log) ∧
    ((E.ifstream_open s source).1 ≠ none →
      opened_files (upload_file E.traced m source destination (s, log)).2.2
        = opened_files log ++ [(destination, afc_file_mode_t.AFC_FOPEN_WR)] ∧
      ((E.afc_file_open (E.ifstream_open s source).2 destination
          afc_file_mode_t.AFC_FOPEN_WR).1.1 = AFC_E_SUCCESS →
        closed_handles (upload_file E.traced m source destination (s, log)).2.2
          = closed_handles log ++
            [(E.afc_file_open (E.ifstream_open s source).2 destination
              afc_file_mode_t.AFC_FOPEN_WR).1.2]) ∧
      ((E.afc_file_open (E.ifstream_open s source).2 destination
          afc_file_mode_t.AFC_FOPEN_WR).1.1 ≠ AFC_E_SUCCESS →
        closed_handles (upload_file E.traced m source destination (s, log)).2.2
          = closed_handles log)) := by
  have hclose : ∀ (st : σ × List afc_call) (h : Nat),
      (E.traced.afc_file_close st h).2 = st.2 ++ [afc_call.file_close h] := fun _ _ => rfl
  have hoclose : ∀ (st : σ × List afc_call) (p : std_string),
      (E.traced.ofstream_close st p).2 = st.2 ++ [afc_call.ofstream_close p] := fun _ _ => rfl
  have hiclose : ∀ (st : σ × List afc_call) (p : std_string),
      (E.traced.ifstream_close st p).2 = st.2 ++ [afc_call.ifstream_close p] := fun _ _ => rfl
  refine ⟨?_, ?_, ?_⟩
  · intro fuel r s1 h
    have go : E.traced.afc_file_open (s, log) source afc_file_mode_t.AFC_FOPEN_RDONLY
        = ((E.afc_file_open s source afc_file_mode_t.AFC_FOPEN_RDONLY).1,
            ((E.afc_file_open s source afc_file_mode_t.AFC_FOPEN_RDONLY).2,
              log ++ [afc_call.file_open source afc_file_mode_t.AFC_FOPEN_RDONLY])) := rfl
    unfold download_file at h
    simp only [hc, Bool.not_true, Bool.false_eq_true, if_false, go] at h
    split at h
    · rename_i ho
      cases h
      simp [ho, opened_files_append, closed_handles_append, opened_files, closed_handles]
    · rename_i ho
      simp only [ne_eq, not_not] at ho
      have gl : ∀ st : σ × List afc_call, (E.traced.ofstream_open st destination).2.2
          = st.2 ++ [afc_call.ofstream_open destination] := fun _ => rfl
      split at h
      · cases h
        rw [hclose, gl]
        simp [ho, opened_files_append, closed_handles_append, opened_files, closed_handles]
      · split at h
        · cases h
        · rename_i success s2 hloop
          cases h
          obtain ⟨e1, e2⟩ := download_loop_handles E _ _ _ _ _ _ hloop
          rw [hoclose, hclose]
          simp only [opened_files_append, closed_handles_append, e1, e2, gl]
          simp [ho, opened_files, closed_handles]
  · intro hi
    have gi : (E.traced.ifstream_open (s, log) source)
        = ((E.ifstream_open s source).1,
            ((E.ifstream_open s source).2, log ++ [afc_call.ifstream_open source])) := rfl
    unfold upload_file
    simp only [hc, Bool.not_true, Bool.false_eq_true, if_false, gi, hi]
    simp [opened_files_append, closed_handles_append, opened_files, closed_handles]
  · intro hi
    obtain ⟨content, hcontent⟩ : ∃ content, (E.ifstream_open s source).1 = some content := by
      cases hx : (E.ifstream_open s source).1 with
      | none => exact absurd hx hi
      | some content => exact ⟨content, rfl⟩
    have gi : (E.traced.ifstream_open (s, log) source)
        = ((E.ifstream_open s source).1,
            ((E.ifstream_open s source).2, log ++ [afc_call.ifstream_open source])) := rfl
    have go : (E.traced.afc_file_open
          ((E.ifstream_open s source).2, log ++ [afc_call.ifstream_open source]) destination
          afc_file_mode_t.AFC_FOPEN_WR)
        = ((E.afc_file_open (E.ifstream_open s source).2 destination
              afc_file_mode_t.AFC_FOPEN_WR).1,
            ((E.afc_file_open (E.ifstream_open s source).2 destination
              afc_file_mode_t.AFC_FOPEN_WR).2,
              log ++ [afc_call.ifstream_open source] ++
                [afc_call.file_open destination afc_file_mode_t.AFC_FOPEN_WR])) := rfl
    unfold upload_file
    simp only [hc, Bool.not_true, Bool.false_eq_true, if_false, gi, hcontent, go]
    by_cases ho : (E.afc_file_open (E.ifstream_open s source).2 destination
        afc_file_mode_t.AFC_FOPEN_WR).1.1 = AFC_E_SUCCESS
    · simp only [ho, ne_eq, not_true_eq_false, if_false, hiclose, hclose]
      obtain ⟨e1, e2⟩ := upload_loop_handles E
        (E.afc_file_open (E.ifstream_open s source).2 destination
          afc_file_mode_t.AFC_FOPEN_WR).1.2 (content.length + 1) content
        ((E.afc_file_open (E.ifstream_open s source).2 destination
            afc_file_mode_t.AFC_FOPEN_WR).2,
          log ++ [afc_call.ifstream_open source] ++
            [afc_call.file_open destination afc_file_mode_t.AFC_FOPEN_WR])
      simp only [opened_files_append, closed_handles_append, e1, e2]
      simp [opened_files, closed_handles]
    · simp only [ho, ne_eq, not_false_eq_true, if_true, hiclose]
      simp [opened_files_append, closed_handles_append, opened_files, closed_handles]

/-- C15 on the peer that writes short: the upload of `in.bin` fails at its first write,
one remote open is on record and the handle it returned is closed once. -/
theorem C15_handle_closed_once_witness :
    opened_files (upload_file short_write_peer.traced connected_afc "in.bin".toList
        "/DCIM/up.bin".toList (sample_store, [])).2.2
      = opened_files [] ++ [("/DCIM/up.bin".toList, afc_file_mode_t.AFC_FOPEN_WR)] ∧
    ((short_write_peer.afc_file_open (short_write_peer.ifstream_open sample_store
        "in.bin".toList).2 "/DCIM/up.bin".toList afc_file_mode_t.AFC_FOPEN_WR).1.1
        = AFC_E_SUCCESS →
      closed_handles (upload_file short_write_peer.traced connected_afc "in.bin".toList
          "/DCIM/up.bin".toList (sample_store, [])).2.2
        = closed_handles [] ++
          [(short_write_peer.afc_file_open (short_write_peer.ifstream_open sample_store
            "in.bin".toList).2 "/DCIM/up.bin".toList afc_file_mode_t.AFC_FOPEN_WR).1.2]) ∧
    ((short_write_peer.afc_file_open (short_write_peer.ifstream_open sample_store
        "in.bin".toList).2 "/DCIM/up.bin".toList afc_file_mode_t.AFC_FOPEN_WR).1.1
        ≠ AFC_E_SUCCESS →
      closed_handles (upload_file short_write_peer.traced connected_afc "in.bin".toList
          "/DCIM/up.bin".toList (sample_store, [])).2.2
        = closed_handles []) :=
  (C15_handle_closed_once short_write_peer connected_afc "in.bin".toList
    "/DCIM/up.bin".toList sample_store [] rfl).2.2 (by decide)

/-- C22: `stop_capture` on a manager that is not capturing returns true and leaves the
manager and the environment as they were, so the peer's stop call is not made. -/
theorem C22_stop_capture_idle {σ : Type} (R : syslog_env σ) (m : syslog_manager) (s : σ)
    (h : m.is_capturing = false) : stop_capture R m s = ((true, m), s) := by
  simp [stop_capture, h]

/-- C22 on a connected manager that is not capturing, over the traced scripted relay: no
call is recorded. -/
theorem C22_stop_capture_idle_witness :
    stop_capture scripted_relay.traced
        { device := some 1, syslog_client := some 3, syslog_connected := true,
          is_capturing := false, line_callback := none, current_line := [] } ([true], [])
      = ((true, { device := some 1, syslog_client := some 3, syslog_connected := true,
                  is_capturing := false, line_callback := none, current_line := [] }),
          ([true], [])) :=
  C22_stop_capture_idle scripted_relay.traced _ _ rfl

/-- C23: `stop_capture` on a capturing manager returns false and leaves
`is_capturing_logs()` true when the peer's stop call fails, and returns true with the
flag cleared when it succeeds; so the flag is cleared exactly when the stop call
succeeds. -/
theorem C23_stop_capture_result {σ : Type} (R : syslog_env σ) (m : syslog_manager) (s : σ)
    (h : m.is_capturing = true) :
    ((R.syslog_relay_stop_capture s m.syslog_client).1 ≠ SYSLOG_RELAY_E_SUCCESS →
      (stop_capture R m s).1.1 = false ∧
      (stop_capture R m s).1.2.is_capturing_logs = true) ∧
    ((R.syslog_relay_stop_capture s m.syslog_client).1 = SYSLOG_RELAY_E_SUCCESS →
      (stop_capture R m s).1.1 = true ∧
      (stop_capture R m s).1.2.is_capturing_logs = false) ∧
    ((stop_capture R m s).1.2.is_capturing_logs = false ↔
      (R.syslog_relay_stop_capture s m.syslog_client).1 = SYSLOG_RELAY_E_SUCCESS) := by
  unfold stop_capture
  simp only [h, Bool.not_true, Bool.false_eq_true, if_false, syslog_manager.is_capturing_logs]
  by_cases hr : (R.syslog_relay_stop_capture s m.syslog_client).1 = SYSLOG_RELAY_E_SUCCESS
  · simp [hr]
  · simp [hr, h]

/-- C23 on the capturing manager with a peer whose stop call fails. -/
theorem C23_stop_capture_result_witness :
    (stop_capture scripted_relay (capturing_manager 7 []) [false]).1.1 = false ∧
    (stop_capture scripted_relay (capturing_manager 7 []) [false]).1.2.is_capturing_logs
      = true :=
  (C23_stop_capture_result scripted_relay (capturing_manager 7 []) [false] rfl).1
    (by decide)

/-- C24 (the code at the failing input): a manager is constructed, connected, put in
capture, and then disconnected while the peer's stop call fails. The state reached is
reachable, `is_capturing_logs()` is true in it and `is_connected()` is false. -/
theorem C24_disconnect_leaves_capturing :
    syslog_reachable scripted_relay
      ((start_capture scripted_relay
          (connect_syslog scripted_relay (syslog_manager.init (some 1))
            [true, true, false]).1.2 (some 7)
          (connect_syslog scripted_relay (syslog_manager.init (some 1))
            [true, true, false]).2).1.2.disconnect scripted_relay
        (start_capture scripted_relay
          (connect_syslog scripted_relay (syslog_manager.init (some 1))
            [true, true, false]).1.2 (some 7)
          (connect_syslog scripted_relay (syslog_manager.init (some 1))
            [true, true, false]).2).2) ∧
    ((start_capture scripted_relay
          (connect_syslog scripted_relay (syslog_manager.init (some 1))
            [true, true, false]).1.2 (some 7)
          (connect_syslog scripted_relay (syslog_manager.init (some 1))
            [true, true, false]).2).1.2.disconnect scripted_relay
        (start_capture scripted_relay
          (connect_syslog scripted_relay (syslog_manager.init (some 1))
            [true, true, false]).1.2 (some 7)
          (connect_syslog scripted_relay (syslog_manager.init (some 1))
            [true, true, false]).2).2).1
      = { device := some 1, syslog_client := none, syslog_connected := false,
          is_capturing := true, line_callback := some 7, current_line := [] } :=
  ⟨syslog_reachable.disconnect _ _
      (syslog_reachable.start _ _ (some 7)
        (syslog_reachable.connect _ _ (syslog_reachable.construct (some 1) _))),
    by decide⟩

/-- C25 (as stated, refuted): with no sink registered and the accumulator holding `abc`,
a line feed does not leave the accumulator empty. -/
theorem C25_counterexample :
    (syslog_callback_wrapper '\n'
      { device := some 1, syslog_client := some 1, syslog_connected := true,
        is_capturing := true, line_callback := none,
        current_line := "abc".toList }).1.current_line ≠ [] := by
  decide

/-- C25 (amended): on a line-feed or carriage-return unit, `syslog_callback_wrapper`
delivers the accumulator and clears it when the accumulator is non-empty and a sink is
registered; otherwise it delivers nothing and leaves the manager, accumulator included,
as it was. -/
theorem C25_delimiter_effect (c : Char) (m : syslog_manager) (h : c = '\n' ∨ c = '\r') :
    (∀ sink, m.current_line ≠ [] → m.line_callback = some sink →
      syslog_callback_wrapper c m = ({ m with current_line := [] }, [(sink, m.current_line)])) ∧
    ((m.current_line = [] ∨ m.line_callback = none) →
      syslog_callback_wrapper c m = (m, [])) := by
  unfold syslog_callback_wrapper
  simp only [h, if_true]
  constructor
  · intro sink hne hs
    have : m.current_line.isEmpty = false := by
      cases hl : m.current_line with
      | nil => exact absurd hl hne
      | cons a l => rfl
    rw [this, hs]
  · intro hor
    rcases hor with he | hn
    · rw [he]; rfl
    · rw [hn]
      cases m.current_line.isEmpty <;> rfl

/-- C25 (amended) on the manager without sink and with accumulator `abc`: nothing
changes. -/
theorem C25_delimiter_effect_witness :
    syslog_callback_wrapper '\n'
        { device := some 1, syslog_client := some 1, syslog_connected := true,
          is_capturing := true, line_callback := none, current_line := "abc".toList }
      = ({ device := some 1, syslog_client := some 1, syslog_connected := true,
           is_capturing := true, line_callback := none, current_line := "abc".toList }, []) :=
  (C25_delimiter_effect '\n' _ (Or.inl rfl)).2 (Or.inr rfl)

theorem syslog_callback_wrapper_sink (c : Char) (m : syslog_manager) :
    (syslog_callback_wrapper c m).1.line_callback = m.line_callback ∧
    ∀ d ∈ (syslog_callback_wrapper c m).2, m.line_callback = some d.1 := by
  unfold syslog_callback_wrapper
  split
  · split
    · rename_i hs
      refine ⟨rfl, ?_⟩
      intro d hd
      simp only [List.mem_singleton] at hd
      subst hd
      exact hs
    · exact ⟨rfl, fun d hd => by cases hd⟩
  · exact ⟨rfl, fun d hd => by cases hd⟩

theorem feed_units_sink (units : List Char) (m : syslog_manager) :
    (feed_units units m).1.line_callback = m.line_callback ∧
    ∀ d ∈ (feed_units units m).2, m.line_callback = some d.1 := by
  induction units generalizing m with
  | nil => exact ⟨rfl, fun d hd => by cases hd⟩
  | cons c rest ih =>
    obtain ⟨e1, e2⟩ := syslog_callback_wrapper_sink c m
    obtain ⟨e3, e4⟩ := ih (syslog_callback_wrapper c m).1
    simp only [feed_units]
    refine ⟨by rw [e3, e1], ?_⟩
    intro d hd
    rcases List.mem_append.mp hd with h | h
    · exact e2 d h
    · rw [← e1]; exact e4 d h

/-- C30: `start_capture(sink2)` on a connected manager that is already capturing returns
true and leaves the manager and the environment as they were: no peer call, the sink is
not replaced and the accumulator is not cleared. Whatever units are fed afterwards, every
line (the partially accumulated one included) goes to the sink registered before, so none
goes to `sink2` when that is another one. -/
theorem C30_start_capture_while_active {σ : Type} (R : syslog_env σ) (m : syslog_manager)
    (sink2 : Option Nat) (s : σ) (hconn : m.syslog_connected = true)
    (hcap : m.is_capturing = true) :
    start_capture R m sink2 s = ((true, m), s) ∧
    (∀ units : List Char,
      feed_units units (start_capture R m sink2 s).1.2 = feed_units units m ∧
      ∀ d ∈ (feed_units units (start_capture R m sink2 s).1.2).2,
        m.line_callback = some d.1 ∧ (sink2 ≠ m.line_callback → sink2 ≠ some d.1)) := by
  have h : start_capture R m sink2 s = ((true, m), s) := by
    simp [start_capture, hconn, hcap]
  refine ⟨h, ?_⟩
  intro units
  rw [h]
  refine ⟨rfl, ?_⟩
  intro d hd
  have := (feed_units_sink units m).2 d hd
  exact ⟨this, fun hne => by rw [← this]; exact hne⟩

/-- C30 on a capturing manager with sink `7` and accumulator `ab`, over the traced
scripted relay: `start_capture` with sink `8` records no call and changes nothing. -/
theorem C30_start_capture_while_active_witness :
    start_capture scripted_relay.traced (capturing_manager 7 "ab".toList) (some 8) ([true], [])
      = ((true, capturing_manager 7 "ab".toList), ([true], [])) :=
  (C30_start_capture_while_active scripted_relay.traced (capturing_manager 7 "ab".toList)
    (some 8) ([true], []) rfl rfl).1

theorem modifyHead_ne_nil {α : Type} (f : α → α) (l : List α) (h : l ≠ []) :
    l.modifyHead f ≠ [] := by
  cases l with
  | nil => exact absurd rfl h
  | cons a l => simp [List.modifyHead]

theorem feed_units_runs (units : List Char) (m : syslog_manager) (sink : Nat)
    (hs : m.line_callback = some sink) :
    feed_units units m =
      ({ m with current_line :=
          ((units.splitOnP is_delimiter).modifyHead (m.current_line ++ ·)).getLastD [] },
        ((((units.splitOnP is_delimiter).modifyHead (m.current_line ++ ·)).dropLast).filter
          (fun run => run ≠ [])).map (fun run => (sink, run))) := by
  induction units generalizing m with
  | nil =>
    simp [feed_units, List.splitOnP_nil, List.modifyHead]
  | cons c rest ih =>
    have hne : rest.splitOnP is_delimiter ≠ [] := List.splitOnP_ne_nil _ _
    obtain ⟨r0, rs, hr⟩ : ∃ r0 rs, rest.splitOnP is_delimiter = r0 :: rs := by
      cases hx : rest.splitOnP is_delimiter with
      | nil => exact absurd hx hne
      | cons a l => exact ⟨a, l, rfl⟩
    simp only [feed_units, List.splitOnP_cons]
    by_cases hd : is_delimiter c = true
    · have hc : c = '\n' ∨ c = '\r' := by simpa [is_delimiter] using hd
      simp only [hd, if_true, List.modifyHead, List.append_nil]
      by_cases hacc : m.current_line = []
      · have hw : syslog_callback_wrapper c m = (m, []) :=
          (C25_delimiter_effect c m hc).2 (Or.inl hacc)
        rw [hw, ih m hs, hacc, hr]
        simp [List.modifyHead, List.dropLast]
      · have hw := (C25_delimiter_effect c m hc).1 sink hacc hs
        rw [hw]
        dsimp only
        rw [ih { m with current_line := [] } hs, hr]
        simp [List.modifyHead, List.dropLast, hacc]
    · have hc : ¬ (c = '\n' ∨ c = '\r') := by simpa [is_delimiter] using hd
      have hw : syslog_callback_wrapper c m =
          ({ m with current_line := m.current_line ++ [c] }, []) := by
        simp [syslog_callback_wrapper, hc]
      simp only [hd, Bool.false_eq_true, if_false]
      rw [hw]
      dsimp only
      rw [ih { m with current_line := m.current_line ++ [c] } hs, hr]
      simp [List.modifyHead]

theorem syslog_callback_wrapper_units (c : Char) (m : syslog_manager) :
    ((syslog_callback_wrapper c m).2.map (fun d => d.2)).flatten
        ++ (syslog_callback_wrapper c m).1.current_line
      = m.current_line ++ (if is_delimiter c = true then [] else [c]) := by
  unfold syslog_callback_wrapper
  by_cases hc : c = '\n' ∨ c = '\r'
  · have hd : is_delimiter c = true := by simpa [is_delimiter] using hc
    simp only [hc, if_true, hd]
    split <;> simp
  · have hd : ¬ is_delimiter c = true := by simpa [is_delimiter] using hc
    simp [hc, hd]

theorem feed_units_units (units : List Char) (m : syslog_manager) :
    ((feed_units units m).2.map (fun d => d.2)).flatten ++ (feed_units units m).1.current_line
      = m.current_line ++ units.filter (fun c => !is_delimiter c) := by
  induction units generalizing m with
  | nil => simp [feed_units]
  | cons c rest ih =>
    simp only [feed_units, List.map_append, List.flatten_append, List.append_assoc]
    rw [ih, ← List.append_assoc, syslog_callback_wrapper_units]
    by_cases hd : is_delimiter c = true
    · simp [hd]
    · simp [hd]

/-- C27: from an empty accumulator with a sink registered, for every unit sequence `s`,
split at every `\n` and `\r` into its maximal runs of other units
(`s.splitOnP is_delimiter`): the lines delivered are, in order, the non-empty runs other
than the last one (the runs that a delimiter follows), all to that sink; the last run is
not delivered and is the accumulator afterwards; and the delivered lines followed by the
accumulator make up `s` without its `\n` and `\r`. -/
theorem C27_delivered_lines (sink : Nat) (s : List Char) :
    feed_units s (capturing_manager sink []) =
      (capturing_manager sink ((s.splitOnP is_delimiter).getLastD []),
        (((s.splitOnP is_delimiter).dropLast).filter (fun run => run ≠ [])).map
          (fun run => (sink, run))) ∧
    ((feed_units s (capturing_manager sink [])).2.map (fun d => d.2)).flatten
        ++ (feed_units s (capturing_manager sink [])).1.current_line
      = s.filter (fun c => !is_delimiter c) := by
  refine ⟨?_, ?_⟩
  · rw [feed_units_runs s (capturing_manager sink []) sink rfl]
    have : (fun x : List Char => (capturing_manager sink []).current_line ++ x) = id := by
      funext x; rfl
    rw [this]
    have hid : ∀ l : List (List Char), l.modifyHead id = l := by
      intro l; cases l <;> rfl
    rw [hid]
    rfl
  · rw [feed_units_units]
    rfl

theorem find_last_of_none (f chars : std_string) :
    find_last_of f chars = none ↔ ∀ c ∈ f, c ∉ chars := by
  induction f with
  | nil => simp [find_last_of]
  | cons x xs ih =>
    simp only [find_last_of]
    cases h : find_last_of xs chars with
    | some i =>
      simp only [reduceCtorEq, false_iff]
      intro hall
      have : find_last_of xs chars = none :=
        ih.mpr (fun c hc => hall c (List.mem_cons_of_mem _ hc))
      rw [this] at h
      cases h
    | none =>
      have hx := ih.mp h
      by_cases hxc : x ∈ chars
      · simp only [hxc, if_true, reduceCtorEq, false_iff]
        intro hall
        exact hall x (List.mem_cons_self _ _) hxc
      · simp only [hxc, if_false, true_iff]
        intro c hc
        rcases List.mem_cons.mp hc with e | e
        · subst e; exact hxc
        · exact hx c e

theorem find_last_of_some (f chars : std_string) (i : Nat)
    (h : find_last_of f chars = some i) :
    ∃ c, c ∈ chars ∧ f = f.take i ++ c :: f.drop (i + 1) ∧ ∀ d ∈ f.drop (i + 1), d ∉ chars := by
  induction f generalizing i with
  | nil => simp [find_last_of] at h
  | cons x xs ih =>
    simp only [find_last_of] at h
    cases h2 : find_last_of xs chars with
    | some j =>
      rw [h2] at h
      simp only [Option.some.injEq] at h
      subst h
      obtain ⟨c, hc, e1, e2⟩ := ih j h2
      refine ⟨c, hc, ?_, ?_⟩
      · simp only [List.take_succ_cons, List.drop_succ_cons, List.cons_append]
        rw [← e1]
      · simpa using e2
    | none =>
      rw [h2] at h
      have hx := (find_last_of_none xs chars).mp h2
      by_cases hxc : x ∈ chars
      · simp only [hxc, if_true, Option.some.injEq] at h
        subst h
        exact ⟨x, hxc, by simp, by simpa using hx⟩
      · simp [hxc] at h

theorem separator_mem (c : Char) : c ∈ "/\\".toList ↔ (c = '/' ∨ c = '\\') := by
  simp

theorem text_after_last_separator_split (pre suf : std_string) (c : Char)
    (hc : c = '/' ∨ c = '\\') (hsuf : ∀ d ∈ suf, d ≠ '/' ∧ d ≠ '\\') :
    text_after_last_separator (pre ++ c :: suf) = suf := by
  unfold text_after_last_separator
  have : (pre ++ c :: suf).reverse = suf.reverse ++ c :: pre.reverse := by simp
  rw [this, List.takeWhile_append_of_pos]
  · have hcc : ¬ (c ≠ '/' ∧ c ≠ '\\') := by
      rcases hc with h | h <;> simp [h]
    simp [List.takeWhile, hcc]
  · intro d hd
    have := hsuf d (List.mem_reverse.mp hd)
    simpa using this

theorem empty_file_info_filename (path : std_string) :
    (empty_file_info path).filename = text_after_last_separator path := by
  unfold empty_file_info
  simp only
  cases h : find_last_of path "/\\".toList with
  | none =>
    have hall := (find_last_of_none path _).mp h
    simp only [List.drop_zero]
    unfold text_after_last_separator
    rw [List.takeWhile_eq_self_iff.mpr, List.reverse_reverse]
    intro d hd
    have := hall d (List.mem_reverse.mp hd)
    rw [separator_mem] at this
    simpa [not_or] using this
  | some i =>
    obtain ⟨c, hc, e1, e2⟩ := find_last_of_some path _ i h
    simp only
    conv_rhs => rw [e1]
    rw [text_after_last_separator_split _ _ c ((separator_mem c).mp hc)]
    intro d hd
    have := e2 d hd
    rw [separator_mem] at this
    simpa [not_or] using this

/-- C21: when the client is not connected, or the peer's stat call fails,
`get_file_info(path)` returns, not an error but the empty sentinel: `file_size` 0,
`is_directory` false, empty `modified_time`, `full_path` equal to `path`, and `filename`
the part of `path` after its last `/` or `\` (the whole path when it has neither). -/
theorem C21_get_file_info_sentinel {σ : Type} (E : afc_env σ) (m : afc_manager)
    (path : std_string) (s : σ)
    (h : m.afc_connected = false ∨ (E.afc_get_file_info s path).1.ret ≠ AFC_E_SUCCESS) :
    ∃ s1, get_file_info E m path s =
      Except.ok ({ filename := text_after_last_separator path, full_path := path,
                   file_size := 0, modified_time := [], is_directory := false }, s1) := by
  have hrec : empty_file_info path =
      { filename := text_after_last_separator path, full_path := path,
        file_size := 0, modified_time := [], is_directory := false } := by
    rw [← empty_file_info_filename]
    rfl
  unfold get_file_info
  by_cases hc : m.afc_connected = true
  · rcases h with h | h
    · rw [h] at hc; cases hc
    · simp only [hc, Bool.not_true, Bool.false_eq_true, if_false, h, false_and]
      exact ⟨_, by rw [hrec]⟩
  · simp only [Bool.not_eq_true] at hc
    simp only [hc, Bool.not_false, if_true]
    exact ⟨_, by rw [hrec]⟩

/-- C21 on the sample device, at a path that its stat call does not know. -/
theorem C21_get_file_info_sentinel_witness :
    ∃ s1, get_file_info sample_peer connected_afc "/DCIM\\x/none.jpg".toList sample_store =
      Except.ok ({ filename := text_after_last_separator "/DCIM\\x/none.jpg".toList,
                   full_path := "/DCIM\\x/none.jpg".toList,
                   file_size := 0, modified_time := [], is_directory := false }, s1) :=
  C21_get_file_info_sentinel sample_peer connected_afc "/DCIM\\x/none.jpg".toList sample_store
    (Or.inr (by decide))

theorem text_after_last_separator_suffix (path : std_string) :
    ∃ pre, path = pre ++ text_after_last_separator path := by
  refine ⟨(path.reverse.dropWhile (fun c => c ≠ '/' ∧ c ≠ '\\')).reverse, ?_⟩
  unfold text_after_last_separator
  rw [← List.reverse_append, List.takeWhile_append_dropWhile, List.reverse_reverse]

theorem extension_of_filename (u x : std_string) (hdot : '.' ∉ x)
    (hsep : ∀ c ∈ x, c ≠ '/' ∧ c ≠ '\\') :
    text_after_last_dot (text_after_last_separator (u ++ '.' :: x)) = x := by
  unfold text_after_last_separator
  have hrev : (u ++ '.' :: x).reverse = x.reverse ++ '.' :: u.reverse := by simp
  rw [hrev, List.takeWhile_append_of_pos]
  · have : List.takeWhile (fun c => decide (c ≠ '/' ∧ c ≠ '\\')) ('.' :: u.reverse)
        = '.' :: List.takeWhile (fun c => decide (c ≠ '/' ∧ c ≠ '\\')) u.reverse := by
      rw [List.takeWhile_cons]
      simp
    rw [this]
    simp only [List.reverse_append, List.reverse_cons, List.reverse_reverse,
      List.append_assoc, List.singleton_append]
    exact text_after_last_dot_split _ x hdot
  · intro c hc
    have := hsep c (List.mem_reverse.mp hc)
    simpa using this

theorem extension_split (entry : std_string) (h : text_after_last_dot entry ≠ []) :
    ∃ a, entry = a ++ '.' :: text_after_last_dot entry ∧ '.' ∉ text_after_last_dot entry := by
  cases hf : find_last_of entry ['.'] with
  | none =>
    have := (find_last_of_dot_none entry).mp hf
    exact absurd (by simp [text_after_last_dot, this]) h
  | some i =>
    obtain ⟨e1, e2⟩ := find_last_of_dot_some entry i hf
    have e3 : text_after_last_dot entry = entry.drop (i + 1) := by
      conv_lhs => rw [e1]
      exact text_after_last_dot_split _ _ e2
    rw [e3]
    exact ⟨entry.take i, e1, e2⟩

theorem allow_list_no_separator (x l : std_string) (hx : x.map tolower = l)
    (hl : '/' ∉ l ∧ '\\' ∉ l) : ∀ c ∈ x, c ≠ '/' ∧ c ≠ '\\' := by
  intro c hc
  have hm : tolower c ∈ l := by
    rw [← hx]
    exact List.mem_map_of_mem _ hc
  constructor
  · intro e
    subst e
    exact hl.1 hm
  · intro e
    subst e
    exact hl.2 hm

theorem classified_filename (q entry : std_string)
    (h : (text_after_last_dot entry).map tolower ∈ photo_extensions ++ video_extensions) :
    text_after_last_dot (text_after_last_separator (q ++ entry))
      = text_after_last_dot entry := by
  have hall : ∀ l ∈ photo_extensions ++ video_extensions,
      l ≠ [] ∧ '/' ∉ l ∧ '\\' ∉ l := by decide
  obtain ⟨hne, hsep⟩ := hall _ h
  have hne2 : text_after_last_dot entry ≠ [] := by
    intro e
    rw [e] at hne
    exact hne rfl
  obtain ⟨a, e1, e2⟩ := extension_split entry hne2
  have hs := allow_list_no_separator _ _ rfl hsep
  conv_lhs => rw [e1, ← List.append_assoc]
  exact extension_of_filename (q ++ a) _ e2 hs

theorem get_file_info_filename {σ : Type} (E : afc_env σ) (m : afc_manager)
    (path : std_string) (s s1 : σ) (finfo : file_info)
    (h : get_file_info E m path s = Except.ok (finfo, s1)) :
    finfo.filename = text_after_last_separator path := by
  rw [← empty_file_info_filename]
  unfold get_file_info at h
  split at h
  · cases h; rfl
  · dsimp only at h
    split at h
    · split at h
      · rename_i info hp
        cases h
        unfold parse_file_info at hp
        split at hp
        · exact (parse_file_info_loop_full_path _ _ _ hp).2
        · cases hp; rfl
      · cases h
    · cases h; rfl

theorem record_of_file_info {σ : Type} (E : afc_env σ) (m : afc_manager)
    (path : std_string) (s s1 : σ) (finfo : file_info)
    (h : get_file_info E m path s = Except.ok (finfo, s1)) :
    (file_info_to_photo_info finfo).filename = text_after_last_separator path ∧
    (file_info_to_photo_info finfo).full_path = path ∧
    record_well_formed (file_info_to_photo_info finfo) := by
  have e1 := get_file_info_filename E m path s s1 finfo h
  have e2 := get_file_info_full_path E m path s s1 finfo h
  refine ⟨e1, e2, ?_, ?_⟩
  · simp only [file_info_to_photo_info, get_file_extension_eq]
  · simp only [file_info_to_photo_info, e1, e2]
    exact text_after_last_separator_suffix path

theorem photo_record_of_entry {σ : Type} (E : afc_env σ) (m : afc_manager)
    (q entry : std_string) (s s1 : σ) (finfo : file_info)
    (h : get_file_info E m (q ++ entry) s = Except.ok (finfo, s1))
    (hp : is_photo_file entry = true) :
    is_photo_file (file_info_to_photo_info finfo).filename = true ∧
    record_well_formed (file_info_to_photo_info finfo) := by
  obtain ⟨e1, _, e3⟩ := record_of_file_info E m _ s s1 finfo h
  refine ⟨?_, e3⟩
  rw [is_photo_file_iff] at hp ⊢
  rw [e1, classified_filename q entry (List.mem_append_left _ hp)]
  exact hp

theorem video_record_of_entry {σ : Type} (E : afc_env σ) (m : afc_manager)
    (q entry : std_string) (s s1 : σ) (finfo : file_info)
    (h : get_file_info E m (q ++ entry) s = Except.ok (finfo, s1))
    (hp : is_video_file entry = true) :
    is_video_file (file_info_to_photo_info finfo).filename = true ∧
    record_well_formed (file_info_to_photo_info finfo) := by
  obtain ⟨e1, _, e3⟩ := record_of_file_info E m _ s s1 finfo h
  refine ⟨?_, e3⟩
  rw [is_video_file_iff] at hp ⊢
  rw [e1, classified_filename q entry (List.mem_append_right _ hp)]
  exact hp

theorem scan_for_photos_loop_records {σ : Type} (E : afc_env σ) (afc : afc_manager)
    (P : photo_info → Prop)
    (recurse : std_string → List photo_info → σ → Except fault (List photo_info × σ))
    (hrec : ∀ path photos s photos1 s1, recurse path photos s = Except.ok (photos1, s1) →
      ∀ v ∈ photos1, v ∈ photos ∨ P v)
    (hP : ∀ (q entry : std_string) (s s1 : σ) (finfo : file_info),
      get_file_info E afc (q ++ entry) s = Except.ok (finfo, s1) →
      is_photo_file entry = true → finfo.is_directory = false →
      P (file_info_to_photo_info finfo))
    (path : std_string) (entries : List std_string) (photos photos1 : List photo_info)
    (s s1 : σ)
    (h : scan_for_photos_loop E afc recurse path entries photos s = Except.ok (photos1, s1)) :
    ∀ v ∈ photos1, v ∈ photos ∨ P v := by
  induction entries generalizing photos s with
  | nil =>
    simp only [scan_for_photos_loop] at h
    cases h
    intro v hv; exact Or.inl hv
  | cons entry rest ih =>
    simp only [scan_for_photos_loop] at h
    split at h
    · cases h
    · split at h
      · cases h
      · rename_i finfo s2 hg
        split at h
        · split at h
          · cases h
          · rename_i photos2 s3 hr
            intro v hv
            rcases ih _ _ h v hv with h1 | h1
            · exact hrec _ _ _ _ _ hr v h1
            · exact Or.inr h1
        · rename_i hdir
          split at h
          · rename_i hphoto
            intro v hv
            rcases ih _ _ h v hv with h1 | h1
            · rcases List.mem_append.mp h1 with h2 | h2
              · exact Or.inl h2
              · simp only [List.mem_singleton] at h2
                subst h2
                exact Or.inr (hP _ entry s s2 finfo hg hphoto (by simpa using hdir))
            · exact Or.inr h1
          · exact ih _ _ h

theorem scan_for_photos_records {σ : Type} (E : afc_env σ) (pm : photo_manager)
    (P : photo_info → Prop)
    (hP : ∀ (afc : afc_manager) (q entry : std_string) (s s1 : σ) (finfo : file_info),
      get_file_info E afc (q ++ entry) s = Except.ok (finfo, s1) →
      is_photo_file entry = true → finfo.is_directory = false →
      P (file_info_to_photo_info finfo))
    (fuel : Nat) (path : std_string) (photos photos1 : List photo_info) (s s1 : σ)
    (h : scan_for_photos E pm fuel path photos s = Except.ok (photos1, s1)) :
    ∀ v ∈ photos1, v ∈ photos ∨ P v := by
  induction fuel generalizing path photos photos1 s s1 with
  | zero => simp [scan_for_photos] at h
  | succ fuel ih =>
    simp only [scan_for_photos] at h
    split at h
    · cases h; intro v hv; exact Or.inl hv
    · rename_i afc _
      split at h
      · cases h; intro v hv; exact Or.inl hv
      · exact scan_for_photos_loop_records E afc P _
          (fun p ph s ph1 s1 hh => ih p ph ph1 s s1 hh) (hP afc) _ _ _ _ _ _ h

theorem list_videos_subentries_records {σ : Type} (E : afc_env σ) (afc : afc_manager)
    (full_path : std_string) (subentries : List std_string)
    (videos videos1 : List photo_info) (s s1 : σ)
    (h : list_videos_subentries E afc full_path subentries videos s
      = Except.ok (videos1, s1)) :
    ∀ v ∈ videos1, v ∈ videos ∨ (is_video_file v.filename = true ∧ record_well_formed v) := by
  induction subentries generalizing videos s with
  | nil =>
    simp only [list_videos_subentries] at h
    cases h
    intro v hv; exact Or.inl hv
  | cons subentry rest ih =>
    simp only [list_videos_subentries] at h
    split at h
    · rename_i hvid
      split at h
      · cases h
      · rename_i vinfo s2 hg
        intro v hv
        rcases ih _ _ h v hv with h1 | h1
        · rcases List.mem_append.mp h1 with h2 | h2
          · exact Or.inl h2
          · simp only [List.mem_singleton] at h2
            subst h2
            exact Or.inr (video_record_of_entry E afc _ subentry s s2 vinfo hg hvid)
        · exact Or.inr h1
    · exact ih _ _ h

theorem list_videos_entries_records {σ : Type} (E : afc_env σ) (afc : afc_manager)
    (entries : List std_string) (videos videos1 : List photo_info) (s s1 : σ)
    (h : list_videos_entries E afc entries videos s = Except.ok (videos1, s1)) :
    ∀ v ∈ videos1, v ∈ videos ∨ (is_video_file v.filename = true ∧ record_well_formed v) := by
  induction entries generalizing videos s with
  | nil =>
    simp only [list_videos_entries] at h
    cases h
    intro v hv; exact Or.inl hv
  | cons entry rest ih =>
    simp only [list_videos_entries] at h
    split at h
    · cases h
    · rename_i finfo s2 hg
      split at h
      · split at h
        · cases h
        · rename_i videos2 s3 hsub
          intro v hv
          rcases ih _ _ h v hv with h1 | h1
          · exact list_videos_subentries_records E afc _ _ _ _ _ _ hsub v h1
          · exact Or.inr h1
      · split at h
        · rename_i hvid
          intro v hv
          rcases ih _ _ h v hv with h1 | h1
          · rcases List.mem_append.mp h1 with h2 | h2
            · exact Or.inl h2
            · simp only [List.mem_singleton] at h2
              subst h2
              exact Or.inr (video_record_of_entry E afc _ entry s s2 finfo hg hvid)
          · exact Or.inr h1
        · exact ih _ _ h

theorem photo_catalog_records {σ : Type} (E : afc_env σ) (pm : photo_manager) (fuel : Nat)
    (path : std_string) (photos : List photo_info) (s s1 : σ)
    (h : scan_for_photos E pm fuel path [] s = Except.ok (photos, s1)) :
    ∀ v ∈ std_sort filename_lt photos,
      is_photo_file v.filename = true ∧ record_well_formed v := by
  intro v hv
  have hv0 : v ∈ photos := (std_sort_perm filename_lt photos).mem_iff.mp hv
  rcases scan_for_photos_records E pm
    (fun v => is_photo_file v.filename = true ∧ record_well_formed v)
    (fun afc q entry s s1 finfo hg hp _ => photo_record_of_entry E afc q entry s s1 finfo hg hp)
    fuel path [] photos s s1 h v hv0 with h1 | h1
  · cases h1
  · exact h1

theorem video_catalog_records {σ : Type} (E : afc_env σ) (pm : photo_manager)
    (videos : List photo_info) (s s1 : σ)
    (h : list_videos E pm s = Except.ok (videos, s1)) :
    ∀ v ∈ videos, is_video_file v.filename = true ∧ record_well_formed v := by
  unfold list_videos at h
  split at h
  · cases h; intro v hv; cases hv
  · rename_i afc _
    split at h
    · cases h; intro v hv; cases hv
    · dsimp only at h
      split at h
      · cases h
      · rename_i videos0 s2 hl
        cases h
        intro v hv
        have hv0 : v ∈ videos0 := (std_sort_perm filename_lt videos0).mem_iff.mp hv
        rcases list_videos_entries_records E afc _ _ _ _ _ hl v hv0 with h1 | h1
        · cases h1
        · exact h1

/-- C11: every record that `list_all_photos` or `list_photos_in_folder` returns has a
filename that `is_photo_file` accepts, and every record that `list_videos` returns has a
filename that `is_video_file` accepts, whatever names the peer reports (names with `/`
or `\` included); each record's `file_type` is the text after the last `.` of its
filename and its `full_path` ends with its filename. So a record whose filename has no
or an unrecognized extension is in none of the catalogs. -/
theorem C11_catalog_records {σ : Type} (E : afc_env σ) (pm : photo_manager) (fuel : Nat)
    (folder_path : std_string) (s : σ) :
    (∀ (photos : List photo_info) (s1 : σ),
      list_all_photos E pm fuel s = Except.ok (photos, s1) →
      ∀ v ∈ photos, is_photo_file v.filename = true ∧ record_well_formed v) ∧
    (∀ (photos : List photo_info) (s1 : σ),
      list_photos_in_folder E pm fuel folder_path s = Except.ok (photos, s1) →
      ∀ v ∈ photos, is_photo_file v.filename = true ∧ record_well_formed v) ∧
    (∀ (videos : List photo_info) (s1 : σ),
      list_videos E pm s = Except.ok (videos, s1) →
      ∀ v ∈ videos, is_video_file v.filename = true ∧ record_well_formed v) ∧
    (∀ (photos folder_photos videos : List photo_info) (s1 s2 s3 : σ),
      list_all_photos E pm fuel s = Except.ok (photos, s1) →
      list_photos_in_folder E pm fuel folder_path s = Except.ok (folder_photos, s2) →
      list_videos E pm s = Except.ok (videos, s3) →
      ∀ v : photo_info,
        (text_after_last_dot v.filename).map tolower ∉ photo_extensions ++ video_extensions →
        v ∉ photos ∧ v ∉ folder_photos ∧ v ∉ videos) := by
  have hall : ∀ (photos : List photo_info) (s1 : σ),
      list_all_photos E pm fuel s = Except.ok (photos, s1) →
      ∀ v ∈ photos, is_photo_file v.filename = true ∧ record_well_formed v := by
    intro photos s1 h
    unfold list_all_photos at h
    split at h
    · cases h; intro v hv; cases hv
    · split at h
      · cases h
      · rename_i photos0 s2 hs
        cases h
        exact photo_catalog_records E pm fuel _ photos0 s _ hs
  have hfolder : ∀ (photos : List photo_info) (s1 : σ),
      list_photos_in_folder E pm fuel folder_path s = Except.ok (photos, s1) →
      ∀ v ∈ photos, is_photo_file v.filename = true ∧ record_well_formed v := by
    intro photos s1 h
    unfold list_photos_in_folder at h
    split at h
    · cases h; intro v hv; cases hv
    · split at h
      · cases h
      · rename_i photos0 s2 hs
        cases h
        exact photo_catalog_records E pm fuel _ photos0 s _ hs
  have hvideos := fun videos s1 => video_catalog_records E pm videos s s1
  refine ⟨hall, hfolder, hvideos, ?_⟩
  intro photos folder_photos videos s1 s2 s3 h1 h2 h3 v hv
  simp only [List.mem_append, not_or] at hv
  refine ⟨?_, ?_, ?_⟩
  · intro hm
    exact hv.1 ((is_photo_file_iff _).mp (hall photos s1 h1 v hm).1)
  · intro hm
    exact hv.1 ((is_photo_file_iff _).mp (hfolder folder_photos s2 h2 v hm).1)
  · intro hm
    exact hv.2 ((is_video_file_iff _).mp (hvideos videos s3 h3 v hm).1)

/-- C11 on the sample device: the first record of its photo catalog. -/
theorem C11_catalog_records_witness :
    is_photo_file "a.jpg".toList = true ∧
    record_well_formed
      ⟨"a.jpg".toList, "/DCIM/100APPLE/a.jpg".toList, 3, "1700000000".toList, "jpg".toList⟩ :=
  (C11_catalog_records sample_peer connected_photo_manager 5 "/DCIM".toList sample_store).1
    sample_photos sample_store rfl _ (List.mem_cons_self _ _)

theorem digitChar_digit (k : Nat) (hk : k < 10) :
    (Nat.digitChar k).isDigit = true ∧ (Nat.digitChar k).toNat - 48 = k := by
  interval_cases k <;> decide

theorem toDigitsCore_value (fuel n : Nat) (ds : List Char) (h : n < fuel) :
    ∃ pre, Nat.toDigitsCore 10 fuel n ds = pre ++ ds ∧ pre ≠ [] ∧
      (∀ c ∈ pre, c.isDigit = true) ∧
      pre.foldl (fun acc d => 10 * acc + (d.toNat - 48)) 0 = n := by
  induction fuel generalizing n ds with
  | zero => omega
  | succ fuel ih =>
    have hd := digitChar_digit (n % 10) (Nat.mod_lt _ (by decide))
    simp only [Nat.toDigitsCore]
    by_cases hz : n / 10 = 0
    · simp only [hz, if_true]
      refine ⟨[Nat.digitChar (n % 10)], rfl, by simp, ?_, ?_⟩
      · intro c hc
        simp only [List.mem_singleton] at hc
        subst hc
        exact hd.1
      · simp only [List.foldl_cons, List.foldl_nil, Nat.mul_zero, Nat.zero_add]
        rw [hd.2]
        omega
    · simp only [hz, if_false]
      obtain ⟨pre, e1, e2, e3, e4⟩ := ih (n / 10) (Nat.digitChar (n % 10) :: ds) (by omega)
      refine ⟨pre ++ [Nat.digitChar (n % 10)], ?_, by simp, ?_, ?_⟩
      · rw [e1]; simp
      · intro c hc
        rcases List.mem_append.mp hc with h1 | h1
        · exact e3 c h1
        · simp only [List.mem_singleton] at h1
          subst h1
          exact hd.1
      · rw [List.foldl_append, e4]
        simp only [List.foldl_cons, List.foldl_nil]
        rw [hd.2]
        omega

theorem isDigit_not_space_or_sign (c : Char) (h : c.isDigit = true) :
    isspace c = false ∧ c ≠ '-' ∧ c ≠ '+' := by
  refine ⟨?_, ?_, ?_⟩
  · cases hs : isspace c with
    | false => rfl
    | true =>
      simp only [isspace, Bool.or_eq_true, decide_eq_true_eq] at hs
      rcases hs with ((((hs | hs) | hs) | hs) | hs) | hs <;> subst hs <;> revert h <;> decide
  · intro e; subst e; revert h; decide
  · intro e; subst e; revert h; decide

theorem stoull_digits (pre : List Char) (hne : pre ≠ []) (hd : ∀ c ∈ pre, c.isDigit = true)
    (hv : pre.foldl (fun acc d => 10 * acc + (d.toNat - 48)) 0 < 2 ^ 64) :
    stoull pre = Except.ok (pre.foldl (fun acc d => 10 * acc + (d.toNat - 48)) 0) := by
  obtain ⟨c, rest, rfl⟩ : ∃ c rest, pre = c :: rest := by
    cases pre with
    | nil => exact absurd rfl hne
    | cons c rest => exact ⟨c, rest, rfl⟩
  obtain ⟨h1, h2, h3⟩ := isDigit_not_space_or_sign c (hd c (List.mem_cons_self _ _))
  have hdrop : (c :: rest).dropWhile isspace = c :: rest := by
    simp [List.dropWhile, h1]
  have htake : (c :: rest).takeWhile Char.isDigit = c :: rest :=
    List.takeWhile_eq_self_iff.mpr hd
  unfold stoull
  simp only [hdrop, List.head?_cons, Option.some.injEq, h2, h3, or_self, if_false, htake,
    reduceCtorEq, decide_False, Bool.false_eq_true]
  rw [if_neg (by omega)]

theorem stoull_repr (n : Nat) (h : n < 2 ^ 64) : stoull (Nat.repr n).toList = Except.ok n := by
  obtain ⟨pre, e1, e2, e3, e4⟩ := toDigitsCore_value (n + 1) n [] (Nat.lt_succ_self n)
  have hrepr : (Nat.repr n).toList = pre := by
    show Nat.toDigits 10 n = pre
    unfold Nat.toDigits
    rw [e1, List.append_nil]
  rw [hrepr, stoull_digits pre e2 e3 (by rw [e4]; exact h), e4]

theorem parse_pairs (kv : List (std_string × std_string)) (info : file_info)
    (hsizes : ∀ p ∈ kv, p.1 = "st_size".toList → ∃ n, n < 2 ^ 64 ∧ p.2 = (Nat.repr n).toList) :
    ∃ info1, parse_file_info_loop (flatten_pairs kv) info = Except.ok info1 ∧
      info1.filename = info.filename ∧ info1.full_path = info.full_path ∧
      (∀ v, last_value "st_size".toList kv = some v → stoull v = Except.ok info1.file_size) ∧
      (last_value "st_size".toList kv = none → info1.file_size = info.file_size) ∧
      info1.modified_time = (last_value "st_mtime".toList kv).getD info.modified_time ∧
      (∀ v, last_value "st_ifmt".toList kv = some v →
        info1.is_directory = decide (v = "S_IFDIR".toList)) ∧
      (last_value "st_ifmt".toList kv = none → info1.is_directory = info.is_directory) := by
  induction kv generalizing info with
  | nil =>
    exact ⟨info, rfl, rfl, rfl, fun v hv => (by cases hv), fun _ => rfl, rfl,
      fun v hv => (by cases hv), fun _ => rfl⟩
  | cons p rest ih =>
    obtain ⟨k, v⟩ := p
    have hrest : ∀ p ∈ rest, p.1 = "st_size".toList →
        ∃ n, n < 2 ^ 64 ∧ p.2 = (Nat.repr n).toList :=
      fun p hp => hsizes p (List.mem_cons_of_mem _ hp)
    have hflat : flatten_pairs ((k, v) :: rest) = k :: v :: flatten_pairs rest := by
      simp [flatten_pairs]
    rw [hflat]
    have n1 : "st_size".toList ≠ "st_mtime".toList := by decide
    have n2 : "st_size".toList ≠ "st_ifmt".toList := by decide
    have n3 : "st_mtime".toList ≠ "st_ifmt".toList := by decide
    by_cases h1 : k = "st_size".toList
    · subst h1
      obtain ⟨n, hn, hv⟩ := hsizes _ (List.mem_cons_self _ _) rfl
      have hst : stoull v = Except.ok n := by
        have hv2 : v = (Nat.repr n).toList := hv
        rw [hv2]; exact stoull_repr n hn
      obtain ⟨info1, e0, e1, e2, e3, e4, e5, e6, e7⟩ := ih { info with file_size := n } hrest
      refine ⟨info1, ?_, e1, e2, ?_, ?_, ?_, ?_, ?_⟩
      · simp only [parse_file_info_loop, if_true, hst, e0]
      · intro w hw
        simp only [last_value] at hw
        cases hl : last_value "st_size".toList rest with
        | some x =>
          rw [hl] at hw
          cases hw
          exact e3 _ hl
        | none =>
          rw [hl] at hw
          simp only [if_true, Option.some.injEq] at hw
          subst hw
          rw [hst, e4 hl]
      · intro hnone
        simp only [last_value] at hnone
        cases hl : last_value "st_size".toList rest with
        | some x => rw [hl] at hnone; cases hnone
        | none => rw [hl] at hnone; simp at hnone
      · rw [e5]
        simp only [last_value]
        cases last_value "st_mtime".toList rest <;> simp only [if_neg n1, Option.getD_some, Option.getD_none]
      · intro w hw
        simp only [last_value] at hw
        cases hl : last_value "st_ifmt".toList rest with
        | some x => rw [hl] at hw; cases hw; exact e6 _ hl
        | none => rw [hl] at hw; rw [if_neg n2] at hw; cases hw
      · intro hnone
        simp only [last_value] at hnone
        cases hl : last_value "st_ifmt".toList rest with
        | some x => rw [hl] at hnone; cases hnone
        | none => exact e7 hl
    · by_cases h2 : k = "st_mtime".toList
      · subst h2
        obtain ⟨info1, e0, e1, e2, e3, e4, e5, e6, e7⟩ :=
          ih { info with modified_time := v } hrest
        refine ⟨info1, ?_, e1, e2, ?_, ?_, ?_, ?_, ?_⟩
        · simp only [parse_file_info_loop, h1, if_false, if_true, e0]
        · intro w hw
          simp only [last_value] at hw
          cases hl : last_value "st_size".toList rest with
          | some x => rw [hl] at hw; cases hw; exact e3 _ hl
          | none => rw [hl] at hw; rw [if_neg h1] at hw; cases hw
        · intro hnone
          simp only [last_value] at hnone
          cases hl : last_value "st_size".toList rest with
          | some x => rw [hl] at hnone; cases hnone
          | none => exact e4 hl
        · rw [e5]
          simp only [last_value]
          cases last_value "st_mtime".toList rest <;> simp
        · intro w hw
          simp only [last_value] at hw
          cases hl : last_value "st_ifmt".toList rest with
          | some x => rw [hl] at hw; cases hw; exact e6 _ hl
          | none => rw [hl] at hw; rw [if_neg n3] at hw; cases hw
        · intro hnone
          simp only [last_value] at hnone
          cases hl : last_value "st_ifmt".toList rest with
          | some x => rw [hl] at hnone; cases hnone
          | none => exact e7 hl
      · by_cases h3 : k = "st_ifmt".toList
        · subst h3
          obtain ⟨info1, e0, e1, e2, e3, e4, e5, e6, e7⟩ :=
            ih { info with is_directory := decide (v = "S_IFDIR".toList) } hrest
          refine ⟨info1, ?_, e1, e2, ?_, ?_, ?_, ?_, ?_⟩
          · simp only [parse_file_info_loop, h1, h2, if_false, if_true, e0]
          · intro w hw
            simp only [last_value] at hw
            cases hl : last_value "st_size".toList rest with
            | some x => rw [hl] at hw; cases hw; exact e3 _ hl
            | none => rw [hl] at hw; rw [if_neg h1] at hw; cases hw
          · intro hnone
            simp only [last_value] at hnone
            cases hl : last_value "st_size".toList rest with
            | some x => rw [hl] at hnone; cases hnone
            | none => exact e4 hl
          · rw [e5]
            simp only [last_value]
            cases last_value "st_mtime".toList rest <;> simp only [if_neg h2, Option.getD_some, Option.getD_none]
          · intro w hw
            simp only [last_value] at hw
            cases hl : last_value "st_ifmt".toList rest with
            | some x => rw [hl] at hw; cases hw; exact e6 _ hl
            | none =>
              rw [hl] at hw
              simp only [if_true, Option.some.injEq] at hw
              subst hw
              exact e7 hl
          · intro hnone
            simp only [last_value] at hnone
            cases hl : last_value "st_ifmt".toList rest with
            | some x => rw [hl] at hnone; cases hnone
            | none => rw [hl] at hnone; simp at hnone
        · obtain ⟨info1, e0, e1, e2, e3, e4, e5, e6, e7⟩ := ih info hrest
          refine ⟨info1, ?_, e1, e2, ?_, ?_, ?_, ?_, ?_⟩
          · simp only [parse_file_info_loop, h1, h2, h3, if_false, e0]
          · intro w hw
            simp only [last_value] at hw
            cases hl : last_value "st_size".toList rest with
            | some x => rw [hl] at hw; cases hw; exact e3 _ hl
            | none => rw [hl] at hw; rw [if_neg h1] at hw; cases hw
          · intro hnone
            simp only [last_value] at hnone
            cases hl : last_value "st_size".toList rest with
            | some x => rw [hl] at hnone; cases hnone
            | none => exact e4 hl
          · rw [e5]
            simp only [last_value]
            cases last_value "st_mtime".toList rest <;> simp only [if_neg h2, Option.getD_some, Option.getD_none]
          · intro w hw
            simp only [last_value] at hw
            cases hl : last_value "st_ifmt".toList rest with
            | some x => rw [hl] at hw; cases hw; exact e6 _ hl
            | none => rw [hl] at hw; rw [if_neg h3] at hw; cases hw
          · intro hnone
            simp only [last_value] at hnone
            cases hl : last_value "st_ifmt".toList rest with
            | some x => rw [hl] at hnone; cases hnone
            | none => exact e7 hl

theorem parse_ignores_other_keys (kv : List (std_string × std_string)) (info : file_info) :
    parse_file_info_loop (flatten_pairs kv) info =
      parse_file_info_loop (flatten_pairs (kv.filter (fun p => recognized_key p.1))) info := by
  induction kv generalizing info with
  | nil => rfl
  | cons p rest ih =>
    obtain ⟨k, v⟩ := p
    have hflat : ∀ l : List (std_string × std_string),
        flatten_pairs ((k, v) :: l) = k :: v :: flatten_pairs l := by
      intro l; simp [flatten_pairs]
    by_cases h1 : k = "st_size".toList
    · have hr : recognized_key k = true := by simp [recognized_key, h1]
      rw [List.filter_cons_of_pos (by simpa using hr), hflat, hflat]
      simp only [parse_file_info_loop, h1, if_true]
      cases stoull v with
      | ok n => exact ih _
      | error e => rfl
    · by_cases h2 : k = "st_mtime".toList
      · have hr : recognized_key k = true := by simp [recognized_key, h2]
        rw [List.filter_cons_of_pos (by simpa using hr), hflat, hflat]
        simp only [parse_file_info_loop, h1, h2, if_true, if_false]
        exact ih _
      · by_cases h3 : k = "st_ifmt".toList
        · have hr : recognized_key k = true := by simp [recognized_key, h3]
          rw [List.filter_cons_of_pos (by simpa using hr), hflat, hflat]
          simp only [parse_file_info_loop, h1, h2, h3, if_true, if_false]
          exact ih _
        · have hr : ¬ recognized_key k = true := by
            simp only [recognized_key, Bool.or_eq_true, decide_eq_true_eq]
            rintro ((h | h) | h)
            · exact h1 h
            · exact h2 h
            · exact h3 h
          rw [List.filter_cons_of_neg (by simpa using hr), hflat]
          simp only [parse_file_info_loop, h1, h2, h3, if_false]
          exact ih _

/-- Claim C20. While connected, when the stat call succeeds with the flat list of the
pairs `kv` (every value under "st_size" the decimal string of a number below `2^64`),
`get_file_info` returns a record whose `file_size` is exactly the number written under
"st_size", whose `modified_time` is the "st_mtime" string verbatim and whose
`is_directory` is true iff the "st_ifmt" value is "S_IFDIR" (for a key that occurs more
than once its last pair counts); a reply that differs only in pairs with other keys
gives the same record. -/
theorem C20_get_file_info_fields {σ : Type} (E : afc_env σ) (m : afc_manager)
    (path : std_string) (s : σ) (kv : List (std_string × std_string))
    (hconn : m.afc_connected = true)
    (hret : (E.afc_get_file_info s path).1.ret = AFC_E_SUCCESS)
    (hlist : (E.afc_get_file_info s path).1.list = some (flatten_pairs kv))
    (hsizes : ∀ p ∈ kv, p.1 = "st_size".toList →
      ∃ n, n < 2 ^ 64 ∧ p.2 = (Nat.repr n).toList) :
    ∃ info, get_file_info E m path s = Except.ok (info, (E.afc_get_file_info s path).2) ∧
      (∀ n, n < 2 ^ 64 → last_value "st_size".toList kv = some (Nat.repr n).toList →
        info.file_size = n) ∧
      (∀ v, last_value "st_mtime".toList kv = some v → info.modified_time = v) ∧
      (∀ v, last_value "st_ifmt".toList kv = some v →
        (info.is_directory = true ↔ v = "S_IFDIR".toList)) ∧
      (∀ (s2 : σ) (kv2 : List (std_string × std_string)),
        (E.afc_get_file_info s2 path).1.ret = AFC_E_SUCCESS →
        (E.afc_get_file_info s2 path).1.list = some (flatten_pairs kv2) →
        kv2.filter (fun p => recognized_key p.1) = kv.filter (fun p => recognized_key p.1) →
        get_file_info E m path s2 = Except.ok (info, (E.afc_get_file_info s2 path).2)) := by
  obtain ⟨info1, e0, _, _, e3, _, e5, e6, _⟩ := parse_pairs kv (empty_file_info path) hsizes
  have hget : ∀ (t : σ) (l : List (std_string × std_string)),
      (E.afc_get_file_info t path).1.ret = AFC_E_SUCCESS →
      (E.afc_get_file_info t path).1.list = some (flatten_pairs l) →
      parse_file_info_loop (flatten_pairs l) (empty_file_info path) = Except.ok info1 →
      get_file_info E m path t = Except.ok (info1, (E.afc_get_file_info t path).2) := by
    intro t l h1 h2 h3
    simp only [get_file_info, hconn, Bool.not_true, Bool.false_eq_true, if_false, h1, h2,
      parse_file_info, h3, ne_eq, not_false_eq_true, and_self, if_true, reduceCtorEq]
  refine ⟨info1, hget s kv hret hlist e0, ?_, ?_, ?_, ?_⟩
  · intro n hn hl
    have h1 := e3 _ hl
    rw [stoull_repr n hn] at h1
    cases h1
    rfl
  · intro v hl
    rw [e5, hl]
    rfl
  · intro v hl
    rw [e6 v hl]
    simp
  · intro s2 kv2 h1 h2 hf
    apply hget s2 kv2 h1 h2
    rw [parse_ignores_other_keys, hf, ← parse_ignores_other_keys]
    exact e0

/-- The statement of `C20_get_file_info_fields` on the sample device, for the stat reply
of `/DCIM/b.jpg`. -/
theorem C20_get_file_info_fields_witness :
    ∃ info, get_file_info sample_peer connected_afc "/DCIM/b.jpg".toList sample_store
        = Except.ok (info, sample_store) ∧
      info.file_size = 3 ∧ info.modified_time = "1700000000".toList ∧
      ¬ info.is_directory = true := by
  obtain ⟨info, h0, h1, h2, h3, _⟩ :=
    C20_get_file_info_fields sample_peer connected_afc "/DCIM/b.jpg".toList sample_store
      [("st_size".toList, "3".toList), ("st_ifmt".toList, "S_IFREG".toList),
       ("st_mtime".toList, "1700000000".toList)] rfl rfl rfl
      (by
        intro p hp hk
        simp only [List.mem_cons, List.mem_singleton, List.mem_nil_iff, or_false] at hp
        rcases hp with h | h | h
        · exact ⟨3, by norm_num, by rw [h]; rfl⟩
        · rw [h] at hk; exact absurd hk (by decide)
        · rw [h] at hk; exact absurd hk (by decide))
  refine ⟨info, h0, h1 3 (by norm_num) rfl, h2 _ rfl, ?_⟩
  intro hd
  exact absurd ((h3 _ rfl).mp hd) (by decide)

/-- Claim C28 (the code at the failing input): on the device of `nested_dirs`, where
`/DCIM/100APPLE/dir.mov` is a directory (its stat reply gives `is_directory`),
`list_videos` returns a record for that path. -/
theorem C28_list_videos_lists_directory :
    list_videos nested_peer connected_photo_manager sample_store =
      Except.ok ([{ filename := "dir.mov".toList,
                    full_path := "/DCIM/100APPLE/dir.mov".toList,
                    file_size := 64, modified_time := [], file_type := "mov".toList }],
                 sample_store) ∧
    (get_file_info nested_peer connected_afc "/DCIM/100APPLE/dir.mov".toList sample_store).map
        (fun r => r.1.is_directory) = Except.ok true := by
  constructor
  · rfl
  · rfl

theorem local_opens_append (l1 l2 : List afc_call) :
    local_opens (l1 ++ l2) = local_opens l1 ++ local_opens l2 := by
  simp [local_opens, List.filterMap_append]

theorem local_destination_eq (folder filename : std_string) (back : Char)
    (h : folder.getLast? = some back) :
    (if back ≠ '/' ∧ back ≠ '\\' then folder ++ "/".toList else folder) ++ filename
      = local_destination folder filename := by
  unfold local_destination
  rw [h]
  by_cases h1 : back = '/'
  · subst h1; simp
  · by_cases h2 : back = '\\'
    · subst h2; simp
    · simp [h1, h2]

theorem traced_get_file_info_local_opens {σ : Type} (E : afc_env σ) (m : afc_manager)
    (path : std_string) (s s1 : σ × List afc_call) (finfo : file_info)
    (h : get_file_info E.traced m path s = Except.ok (finfo, s1)) :
    local_opens s1.2 = local_opens s.2 := by
  rcases traced_get_file_info_calls E m path s s1 finfo h with e | e
  · rw [e]
  · rw [e, local_opens_append]; simp [local_opens]

theorem traced_list_directory_local_opens {σ : Type} (E : afc_env σ) (m : afc_manager)
    (path : std_string) (s : σ × List afc_call) :
    local_opens (list_directory E.traced m path s).2.2 = local_opens s.2 := by
  rcases traced_list_directory_calls E m path s with e | e
  · rw [e]
  · rw [e, local_opens_append]; simp [local_opens]

theorem scan_for_photos_loop_local_opens {σ : Type} (E : afc_env σ) (afc : afc_manager)
    (recurse : std_string → List photo_info → σ × List afc_call →
      Except fault (List photo_info × (σ × List afc_call)))
    (hrec : ∀ path photos s photos1 s1, recurse path photos s = Except.ok (photos1, s1) →
      local_opens s1.2 = local_opens s.2)
    (path : std_string) (entries : List std_string) (photos photos1 : List photo_info)
    (s s1 : σ × List afc_call)
    (h : scan_for_photos_loop E.traced afc recurse path entries photos s
      = Except.ok (photos1, s1)) :
    local_opens s1.2 = local_opens s.2 := by
  induction entries generalizing photos s with
  | nil =>
    simp only [scan_for_photos_loop] at h
    cases h; rfl
  | cons entry rest ih =>
    simp only [scan_for_photos_loop] at h
    split at h
    · cases h
    · try dsimp only at h
      split at h
      · cases h
      · rename_i finfo s2 hg
        have e1 := traced_get_file_info_local_opens E afc _ s s2 finfo hg
        split at h
        · split at h
          · cases h
          · rename_i photos2 s3 hr
            rw [ih _ _ h, hrec _ _ _ _ _ hr, e1]
        · split at h
          · rw [ih _ _ h, e1]
          · rw [ih _ _ h, e1]

theorem scan_for_photos_local_opens {σ : Type} (E : afc_env σ) (pm : photo_manager)
    (fuel : Nat) (path : std_string) (photos photos1 : List photo_info)
    (s s1 : σ × List afc_call)
    (h : scan_for_photos E.traced pm fuel path photos s = Except.ok (photos1, s1)) :
    local_opens s1.2 = local_opens s.2 := by
  induction fuel generalizing path photos photos1 s s1 with
  | zero => simp [scan_for_photos] at h
  | succ fuel ih =>
    simp only [scan_for_photos] at h
    split at h
    · cases h; rfl
    · rename_i afc _
      split at h
      · cases h; rfl
      · try dsimp only at h
        rw [scan_for_photos_loop_local_opens E afc _
          (fun p ph s ph1 s1 hh => ih p ph ph1 s s1 hh) _ _ _ _ _ _ h]
        exact traced_list_directory_local_opens E afc path s

theorem list_all_photos_local_opens {σ : Type} (E : afc_env σ) (pm : photo_manager)
    (fuel : Nat) (photos : List photo_info) (s s1 : σ × List afc_call)
    (h : list_all_photos E.traced pm fuel s = Except.ok (photos, s1)) :
    local_opens s1.2 = local_opens s.2 := by
  unfold list_all_photos at h
  split at h
  · cases h; rfl
  · split at h
    · cases h
    · rename_i photos0 s2 hs
      cases h
      exact scan_for_photos_local_opens E pm fuel _ _ _ _ _ hs

theorem download_loop_local_opens {σ : Type} (E : afc_env σ) (handle : Nat)
    (destination_path : std_string) (fuel : Nat) (s s1 : σ × List afc_call) (r : Bool)
    (h : download_loop E.traced handle destination_path fuel s = Except.ok (r, s1)) :
    local_opens s1.2 = local_opens s.2 := by
  induction fuel generalizing s with
  | zero => simp [download_loop] at h
  | succ fuel ih =>
    simp only [download_loop] at h
    split at h
    · cases h
      simp [afc_env.traced, local_opens_append, local_opens]
    · split at h
      · cases h
        simp [afc_env.traced, local_opens_append, local_opens]
      · split at h
        · cases h
          simp [afc_env.traced, local_opens_append, local_opens]
        · rw [ih _ h]
          simp [afc_env.traced, local_opens_append, local_opens]

theorem download_file_local_opens {σ : Type} (E : afc_env σ) (m : afc_manager) (fuel : Nat)
    (source_path destination_path : std_string) (s s1 : σ × List afc_call) (r : Bool)
    (h : download_file E.traced m fuel source_path destination_path s = Except.ok (r, s1)) :
    local_opens s1.2 = local_opens s.2 ∨
      local_opens s1.2 = local_opens s.2 ++ [destination_path] := by
  unfold download_file at h
  split at h
  · cases h; exact Or.inl rfl
  · try dsimp only at h
    split at h
    · cases h
      left
      simp [afc_env.traced, local_opens_append, local_opens]
    · split at h
      · cases h
        right
        simp [afc_env.traced, local_opens_append, local_opens]
      · split at h
        · cases h
        · rename_i success s2 hl
          cases h
          have := download_loop_local_opens E _ _ _ _ _ _ hl
          right
          simp only [afc_env.traced, local_opens_append] at this ⊢
          rw [this]
          simp [local_opens]

theorem download_photo_local_opens {σ : Type} (E : afc_env σ) (pm : photo_manager)
    (fuel : Nat) (photo_path destination : std_string) (s s1 : σ × List afc_call) (r : Bool)
    (h : download_photo E.traced pm fuel photo_path destination s = Except.ok (r, s1)) :
    local_opens s1.2 = local_opens s.2 ∨
      local_opens s1.2 = local_opens s.2 ++ [destination] := by
  unfold download_photo at h
  split at h
  · cases h; exact Or.inl rfl
  · split at h
    · cases h; exact Or.inl rfl
    · exact download_file_local_opens E _ fuel _ _ _ _ r h

theorem download_all_photos_loop_local_opens {σ : Type} (E : afc_env σ) (pm : photo_manager)
    (fuel : Nat) (destination_folder : std_string) (photos : List photo_info)
    (counts counts1 : Nat × Nat) (s s1 : σ × List afc_call)
    (h : download_all_photos_loop E.traced pm fuel destination_folder photos counts s
      = Except.ok (counts1, s1)) :
    ∃ opened, local_opens s1.2 = local_opens s.2 ++ opened ∧
      List.Sublist opened
        (photos.map (fun photo => local_destination destination_folder photo.filename)) := by
  induction photos generalizing counts s with
  | nil =>
    simp only [download_all_photos_loop] at h
    cases h
    exact ⟨[], by simp, List.Sublist.slnil⟩
  | cons photo rest ih =>
    simp only [download_all_photos_loop] at h
    split at h
    · cases h
    · rename_i back hback
      rw [local_destination_eq _ _ _ hback] at h
      have step : ∀ (b : Bool) (s2 : σ × List afc_call) (c : Nat × Nat),
          download_photo E.traced pm fuel photo.full_path
            (local_destination destination_folder photo.filename) s = Except.ok (b, s2) →
          download_all_photos_loop E.traced pm fuel destination_folder rest c s2
            = Except.ok (counts1, s1) →
          ∃ opened, local_opens s1.2 = local_opens s.2 ++ opened ∧
            List.Sublist opened
              ((photo :: rest).map
                (fun photo => local_destination destination_folder photo.filename)) := by
        intro b s2 c hd hl
        obtain ⟨opened, e1, e2⟩ := ih _ _ hl
        rcases download_photo_local_opens E pm fuel _ _ _ _ _ hd with e3 | e3
        · exact ⟨opened, by rw [e1, e3], List.Sublist.cons _ e2⟩
        · exact ⟨_ :: opened, by rw [e1, e3]; simp, List.Sublist.cons₂ _ e2⟩
      split at h
      · cases h
      · rename_i s2 hd
        exact step _ _ _ hd h
      · rename_i s2 hd
        exact step _ _ _ hd h

/-- Claim C29. A completed `download_all_photos` opens local files only at destinations
made from the destination folder and a listed photo's filename (the folder, then `/`
unless the folder already ends in `/` or `\`, then the filename): the local opens on
record are the earlier ones followed by a sublist, in list order, of these destinations
(a download whose remote open fails opens no local file). The remote directory plays no
part: on the device of `twin_dirs`, with the photos `/DCIM/A/x.jpg` and `/DCIM/B/x.jpg`,
both are attempted, both downloads open the same local path `out/x.jpg`, and both are
counted as successes. The calls are those recorded by `E.traced`. -/
theorem C29_destination_from_filename {σ : Type} (E : afc_env σ) (pm : photo_manager)
    (fuel : Nat) (destination_folder : std_string) (s s1 s2 : σ × List afc_call)
    (photos : List photo_info) (summary : download_summary)
    (hlist : list_all_photos E.traced pm fuel s = Except.ok (photos, s1))
    (hdone : download_all_photos E.traced pm fuel destination_folder s
      = Except.ok (summary, s2)) :
    (∃ opened, local_opens s2.2 = local_opens s.2 ++ opened ∧
      List.Sublist opened
        (photos.map (fun photo => local_destination destination_folder photo.filename))) ∧
    (∃ t, download_all_photos twin_peer.traced connected_photo_manager 4 "out".toList
          (twin_store, [])
        = Except.ok ({ result := true, success_count := 2, fail_count := 0 }, t) ∧
      "/DCIM/A/x.jpg".toList ∈ download_attempts t.2 ∧
      "/DCIM/B/x.jpg".toList ∈ download_attempts t.2 ∧
      local_opens t.2 = ["out/x.jpg".toList, "out/x.jpg".toList]) := by
  constructor
  · unfold download_all_photos at hdone
    rw [hlist] at hdone
    try dsimp only at hdone
    have e0 := list_all_photos_local_opens E pm fuel photos s s1 hlist
    split at hdone
    · cases hdone
      exact ⟨[], by simp [e0], List.nil_sublist _⟩
    · split at hdone
      · cases hdone
      · rename_i counts s3 hl
        cases hdone
        obtain ⟨opened, e1, e2⟩ :=
          download_all_photos_loop_local_opens E pm fuel _ _ _ _ _ _ hl
        exact ⟨opened, by rw [e1, e0], e2⟩
  · exact ⟨_, rfl, by decide, by decide, rfl⟩

/-- The statement of `C29_destination_from_filename` on the device of `twin_dirs`: the two
local opens on record are both of `out/x.jpg`, the destination of either photo. -/
theorem C29_destination_from_filename_witness :
    ∃ opened, ["out/x.jpg".toList, "out/x.jpg".toList] = local_opens [] ++ opened ∧
      List.Sublist opened
        ([(⟨"x.jpg".toList, "/DCIM/A/x.jpg".toList, 2, "1700000000".toList, "jpg".toList⟩ :
            photo_info),
          ⟨"x.jpg".toList, "/DCIM/B/x.jpg".toList, 2, "1700000000".toList, "jpg".toList⟩].map
          (fun photo => local_destination "out".toList photo.filename)) :=
  (C29_destination_from_filename twin_peer connected_photo_manager 4 "out".toList
    (twin_store, []) _ _ _ { result := true, success_count := 2, fail_count := 0 }
    rfl rfl).1

theorem list_directory_static {σ : Type} (E : afc_env σ) (afc : afc_manager)
    (dirs : std_string → afc_list_reply) (hconn : afc.afc_connected = true)
    (hdirs : ∀ s p, E.afc_read_directory s p = (dirs p, s)) (path : std_string) (s : σ) :
    list_directory E afc path s = (tree_entries dirs path, s) := by
  unfold list_directory tree_entries
  simp only [hconn, Bool.not_true, Bool.false_eq_true, if_false, hdirs]
  split
  · rfl
  · split <;> rfl

theorem get_file_info_static {σ : Type} (E : afc_env σ) (afc : afc_manager)
    (stats : std_string → afc_list_reply) (hconn : afc.afc_connected = true)
    (hstats : ∀ s p, E.afc_get_file_info s p = (stats p, s)) (path : std_string) (s : σ)
    (finfo : file_info) (h : tree_stat stats path = Except.ok finfo) :
    get_file_info E afc path s = Except.ok (finfo, s) := by
  unfold tree_stat at h
  unfold get_file_info
  simp only [hconn, Bool.not_true, Bool.false_eq_true, if_false, hstats]
  split at h
  · rename_i hc
    rw [if_pos hc, h]
  · rename_i hc
    rw [if_neg hc]
    cases h
    rfl

theorem photo_not_video (entry : std_string) (h : is_photo_file entry = true) :
    is_video_file entry = false := by
  rw [is_photo_file_iff] at h
  cases hv : is_video_file entry with
  | false => rfl
  | true =>
    rw [is_video_file_iff] at hv
    revert hv h
    generalize (text_after_last_dot entry).map tolower = x
    intro h hv
    simp only [photo_extensions, List.mem_cons, List.mem_singleton, List.mem_nil_iff,
      or_false] at h
    rcases h with h | h | h | h | h | h | h | h | h <;> subst h <;>
      exact absurd hv (by decide)

theorem scan_for_photos_loop_preorder {σ : Type} (E : afc_env σ) (pm : photo_manager)
    (afc : afc_manager) (dirs stats : std_string → afc_list_reply)
    (hafc : pm.afc = some afc) (hconn : afc.afc_connected = true)
    (hdirs : ∀ s p, E.afc_read_directory s p = (dirs p, s))
    (hstats : ∀ s p, E.afc_get_file_info s p = (stats p, s))
    (path : std_string) (entries : List std_string) (out : List photo_info)
    (h : photos_in_preorder dirs stats path entries out) (hpath : path ≠ []) :
    ∃ fuel0, ∀ fuel, fuel0 ≤ fuel → ∀ (photos : List photo_info) (s : σ),
      scan_for_photos_loop E afc (scan_for_photos E pm fuel) path entries photos s
        = Except.ok (photos ++ out, s) := by
  induction h with
  | done path =>
    exact ⟨0, fun fuel _ photos s => by simp [scan_for_photos_loop]⟩
  | directory path entry rest finfo sub more hstat hdir _ _ ih_sub ih_rest =>
    obtain ⟨f1, h1⟩ := ih_sub (child_path_ne_nil path entry hpath)
    obtain ⟨f2, h2⟩ := ih_rest hpath
    refine ⟨max (f1 + 1) f2, ?_⟩
    intro fuel hfuel photos s
    obtain ⟨back, hback⟩ : ∃ back, path.getLast? = some back := by
      cases hl : path.getLast? with
      | none => exact absurd (List.getLast?_eq_none_iff.mp hl) hpath
      | some back => exact ⟨back, rfl⟩
    obtain ⟨k, hk⟩ : ∃ k, fuel = k + 1 := ⟨fuel - 1, by omega⟩
    have hrec : scan_for_photos E pm fuel (child_path path entry) photos s
        = Except.ok (photos ++ sub, s) := by
      rw [hk]
      simp only [scan_for_photos, hafc, afc_manager.is_connected, hconn, Bool.not_true,
        Bool.false_eq_true, if_false,
        list_directory_static E afc dirs hconn hdirs]
      exact h1 k (by omega) photos s
    simp only [scan_for_photos_loop, hback, child_path_eq path entry back hback,
      get_file_info_static E afc stats hconn hstats _ s finfo hstat, hdir, if_true, hrec]
    rw [h2 fuel (by omega), List.append_assoc]
  | photo path entry rest finfo more hstat hdir hphoto _ ih_rest =>
    obtain ⟨f2, h2⟩ := ih_rest hpath
    refine ⟨f2, ?_⟩
    intro fuel hfuel photos s
    obtain ⟨back, hback⟩ : ∃ back, path.getLast? = some back := by
      cases hl : path.getLast? with
      | none => exact absurd (List.getLast?_eq_none_iff.mp hl) hpath
      | some back => exact ⟨back, rfl⟩
    simp only [scan_for_photos_loop, hback, child_path_eq path entry back hback,
      get_file_info_static E afc stats hconn hstats _ s finfo hstat, hdir,
      Bool.false_eq_true, if_false, hphoto, if_true]
    rw [h2 fuel hfuel]
    simp
  | other path entry rest finfo more hstat hdir hphoto _ ih_rest =>
    obtain ⟨f2, h2⟩ := ih_rest hpath
    refine ⟨f2, ?_⟩
    intro fuel hfuel photos s
    obtain ⟨back, hback⟩ : ∃ back, path.getLast? = some back := by
      cases hl : path.getLast? with
      | none => exact absurd (List.getLast?_eq_none_iff.mp hl) hpath
      | some back => exact ⟨back, rfl⟩
    simp only [scan_for_photos_loop, hback, child_path_eq path entry back hback,
      get_file_info_static E afc stats hconn hstats _ s finfo hstat, hdir,
      Bool.false_eq_true, if_false, hphoto]
    rw [h2 fuel hfuel]

theorem photos_in_preorder_mem (dirs stats : std_string → afc_list_reply)
    (path : std_string) (entries : List std_string) (out : List photo_info)
    (h : photos_in_preorder dirs stats path entries out) :
    ∀ v ∈ out, ∃ dir entry finfo,
      tree_stat stats (child_path dir entry) = Except.ok finfo ∧
      finfo.is_directory = false ∧ is_photo_file entry = true ∧
      v = file_info_to_photo_info finfo := by
  induction h with
  | done path => intro v hv; cases hv
  | directory path entry rest finfo sub more _ _ _ _ ih_sub ih_rest =>
    intro v hv
    rcases List.mem_append.mp hv with hv | hv
    · exact ih_sub v hv
    · exact ih_rest v hv
  | photo path entry rest finfo more hstat hdir hphoto _ ih_rest =>
    intro v hv
    rcases List.mem_cons.mp hv with hv | hv
    · exact ⟨path, entry, finfo, hstat, hdir, hphoto, hv⟩
    · exact ih_rest v hv
  | other path entry rest finfo more _ _ _ _ ih_rest =>
    intro v hv
    exact ih_rest v hv

/-- Claim C26. On a connected manager and a peer whose listings and stat replies are the
fixed tables `dirs` and `stats`, for every non-empty root path whose tree is finite (the
traversal `photos_in_preorder` of the specification has a result `out`), `scan_for_photos`
returns with enough nesting allowed and appends exactly `out`: the records of the
non-directory entries with a photo name, in depth-first pre-order of the listing order,
each child at `child_path` of its directory (`/` inserted unless the directory path ends
in `/`). Every appended record is that of an entry that is not a directory and whose name
is a photo name and not a video name, at the path of that entry. -/
theorem C26_scan_for_photos_preorder {σ : Type} (E : afc_env σ) (pm : photo_manager)
    (afc : afc_manager) (dirs stats : std_string → afc_list_reply)
    (hafc : pm.afc = some afc) (hconn : afc.afc_connected = true)
    (hdirs : ∀ s p, E.afc_read_directory s p = (dirs p, s))
    (hstats : ∀ s p, E.afc_get_file_info s p = (stats p, s))
    (root : std_string) (hroot : root ≠ []) (out : List photo_info)
    (htree : photos_in_preorder dirs stats root (tree_entries dirs root) out) :
    (∃ fuel0, ∀ fuel, fuel0 ≤ fuel → ∀ (photos : List photo_info) (s : σ),
      scan_for_photos E pm fuel root photos s = Except.ok (photos ++ out, s)) ∧
    (∀ v ∈ out, ∃ dir entry finfo,
      tree_stat stats (child_path dir entry) = Except.ok finfo ∧
      finfo.is_directory = false ∧ is_photo_file entry = true ∧
      is_video_file entry = false ∧ v = file_info_to_photo_info finfo ∧
      v.full_path = child_path dir entry) := by
  constructor
  · obtain ⟨f, hf⟩ := scan_for_photos_loop_preorder E pm afc dirs stats hafc hconn hdirs
      hstats root _ out htree hroot
    refine ⟨f + 1, ?_⟩
    intro fuel hfuel photos s
    obtain ⟨k, hk⟩ : ∃ k, fuel = k + 1 := ⟨fuel - 1, by omega⟩
    rw [hk]
    simp only [scan_for_photos, hafc, afc_manager.is_connected, hconn, Bool.not_true,
      Bool.false_eq_true, if_false, list_directory_static E afc dirs hconn hdirs]
    exact hf k (by omega) photos s
  · intro v hv
    obtain ⟨dir, entry, finfo, h1, h2, h3, h4⟩ :=
      photos_in_preorder_mem dirs stats root _ out htree v hv
    refine ⟨dir, entry, finfo, h1, h2, h3, photo_not_video entry h3, h4, ?_⟩
    rw [h4]
    have hg := get_file_info_static (faithful_peer id dirs stats) connected_afc stats rfl
      (fun _ _ => rfl) (child_path dir entry) sample_store finfo h1
    exact get_file_info_full_path _ _ _ _ _ _ hg

/-- The statement of `C26_scan_for_photos_preorder` on the sample device, from `/DCIM`:
the photos of `100APPLE` in listing order, then `b.jpg`. -/
theorem C26_scan_for_photos_preorder_witness :
    ∃ fuel, scan_for_photos sample_peer connected_photo_manager fuel "/DCIM".toList []
        sample_store
      = Except.ok ([] ++
          ([⟨"c.PNG".toList, "/DCIM/100APPLE/c.PNG".toList, 3, "1700000000".toList,
              "PNG".toList⟩,
            ⟨"a.jpg".toList, "/DCIM/100APPLE/a.jpg".toList, 3, "1700000000".toList,
              "jpg".toList⟩] ++
           [⟨"b.jpg".toList, "/DCIM/b.jpg".toList, 3, "1700000000".toList, "jpg".toList⟩]),
          sample_store) := by
  obtain ⟨fuel0, h⟩ :=
    (C26_scan_for_photos_preorder sample_peer connected_photo_manager connected_afc
      sample_dirs sample_stats rfl rfl (fun _ _ => rfl) (fun _ _ => rfl) "/DCIM".toList
      (by decide) _
      (photos_in_preorder.directory "/DCIM".toList "100APPLE".toList
        ["b.jpg".toList, "top.mov".toList]
        ⟨"100APPLE".toList, "/DCIM/100APPLE".toList, 64, [], true⟩ _ _ rfl rfl
        (photos_in_preorder.photo "/DCIM/100APPLE".toList "c.PNG".toList
          ["a.jpg".toList, "clip.mp4".toList, "deep".toList]
          ⟨"c.PNG".toList, "/DCIM/100APPLE/c.PNG".toList, 3, "1700000000".toList, false⟩ _
          rfl rfl rfl
          (photos_in_preorder.photo "/DCIM/100APPLE".toList "a.jpg".toList
            ["clip.mp4".toList, "deep".toList]
            ⟨"a.jpg".toList, "/DCIM/100APPLE/a.jpg".toList, 3, "1700000000".toList, false⟩ _
            rfl rfl rfl
            (photos_in_preorder.other "/DCIM/100APPLE".toList "clip.mp4".toList
              ["deep".toList]
              ⟨"clip.mp4".toList, "/DCIM/100APPLE/clip.mp4".toList, 3,
                "1700000000".toList, false⟩ _ rfl rfl rfl
              (photos_in_preorder.directory "/DCIM/100APPLE".toList "deep".toList []
                ⟨"deep".toList, "/DCIM/100APPLE/deep".toList, 64, [], true⟩ _ _ rfl rfl
                (photos_in_preorder.other "/DCIM/100APPLE/deep".toList "far.mov".toList []
                  ⟨"far.mov".toList, "/DCIM/100APPLE/deep/far.mov".toList, 3,
                    "1700000000".toList, false⟩ _ rfl rfl rfl
                  (photos_in_preorder.done _))
                (photos_in_preorder.done _)))))
        (photos_in_preorder.photo "/DCIM".toList "b.jpg".toList ["top.mov".toList]
          ⟨"b.jpg".toList, "/DCIM/b.jpg".toList, 3, "1700000000".toList, false⟩ _
          rfl rfl rfl
          (photos_in_preorder.other "/DCIM".toList "top.mov".toList []
            ⟨"top.mov".toList, "/DCIM/top.mov".toList, 3, "1700000000".toList, false⟩ _
            rfl rfl rfl (photos_in_preorder.done _))))).1
  exact ⟨fuel0, h fuel0 (Nat.le_refl _) [] sample_store⟩

end IDevTool
